import Mathlib

/-!
# AutoFlow: validator, safety guard, graph compiler and repair loop

A shallow embedding of `services/validation.js`, `services/pieces-registry.js`,
`services/flow-builder.js` and `services/ai-engine.js`.

JavaScript values are embedded as `JVal`. Code that can throw returns `Except Thrown _`.
Code that talks to a collaborator (the execution engine, the IR producer) threads the
list of calls issued so far and asks an oracle for the outcome of each call.
-/

namespace AutoFlow

/-! ## JavaScript values -/

/-- JavaScript values that `JSON.parse` can produce, together with `undefined`
(the value of a missing property). Numbers are carried as integers: the code
under study only tests numbers for truthiness and prints them. -/
inductive JVal where
  | undefined
  | null
  | bool (b : Bool)
  | num (n : Int)
  | str (s : String)
  | arr (xs : List JVal)
  | obj (kvs : List (String × JVal))

/-- Results of the `typeof` operator. -/
inductive JType where
  | undefined
  | object
  | boolean
  | number
  | string
  deriving DecidableEq, Repr

/-- Errors raised by the code or by a collaborator. -/
inductive Thrown where
  | typeError (msg : String)
  | aiEngineError (message : String) (code : String) (rawResponse : JVal)
  | raised (name : String) (message : String) (detail : JVal)

namespace JVal

/-- The `typeof` operator. -/
def typeOf : JVal → JType
  | undefined => JType.undefined
  | null => JType.object
  | bool _ => JType.boolean
  | num _ => JType.number
  | str _ => JType.string
  | arr _ => JType.object
  | obj _ => JType.object

/-- JavaScript truthiness (`!!v`). -/
def truthy : JVal → Bool
  | undefined => false
  | null => false
  | bool b => b
  | num n => n != 0
  | str s => !s.data.isEmpty
  | arr _ => true
  | obj _ => true

/-- Whether a value is `null` or `undefined`: property access on it throws. -/
def isNullish : JVal → Bool
  | undefined => true
  | null => true
  | _ => false

/-- Strict equality with a string literal: `v === lit`. -/
def isStr : JVal → String → Bool
  | str s, lit => s == lit
  | _, _ => false

/-- The test `Array.isArray(v)`. -/
def isArray : JVal → Bool
  | arr _ => true
  | _ => false

/-- Number of UTF-16 code units of a string (the `length` of a JavaScript string). -/
def utf16Length (s : String) : Nat :=
  (s.data.map (fun c => if c.toNat < 65536 then 1 else 2)).sum

/-- Property read `v.k` on a value that is neither `null` nor `undefined`. Objects
hold their own properties, arrays and strings expose `length`; every other read
used by the code yields `undefined`. -/
def get : JVal → String → JVal
  | obj kvs, k => (kvs.lookup k).getD undefined
  | arr xs, k => if k == "length" then num xs.length else undefined
  | str s, k => if k == "length" then num (utf16Length s) else undefined
  | _, _ => undefined

/-- Property read `v.k`: a `TypeError` when `v` is `null` or `undefined`. -/
def getProp (v : JVal) (k : String) : Except Thrown JVal :=
  if v.isNullish then .error (.typeError ("Cannot read properties of null or undefined (reading " ++ k ++ ")"))
  else .ok (v.get k)

/-- Optional chaining `v?.k`. -/
def getOpt (v : JVal) (k : String) : JVal :=
  if v.isNullish then undefined else v.get k

/-- The operator `a || b`. -/
def orElse (a b : JVal) : JVal :=
  if a.truthy then a else b

mutual
/-- String conversion as performed by template literals. Numbers are integers, printed
in plain decimal as JavaScript prints an integer of magnitude below `10^21`; fractions
and the exponent form of larger magnitudes are not modelled. -/
def toStr : JVal → String
  | undefined => "undefined"
  | null => "null"
  | bool b => if b then "true" else "false"
  | num n => toString n
  | str s => s
  | arr xs => joinStr xs
  | obj _ => "[object Object]"
/-- The conversion `Array.prototype.join` with the default separator. -/
def joinStr : List JVal → String
  | [] => ""
  | [x] => elemStr x
  | x :: y :: xs => elemStr x ++ "," ++ joinStr (y :: xs)
/-- String conversion of one array element: `null` and `undefined` print empty. -/
def elemStr : JVal → String
  | undefined => ""
  | null => ""
  | bool b => if b then "true" else "false"
  | num n => toString n
  | str s => s
  | arr xs => joinStr xs
  | obj _ => "[object Object]"
end

end JVal

open JVal

/-! ## Strings -/

/-- The characters matched by `\s` and removed by `String.prototype.trim`. -/
def isJsSpace (c : Char) : Bool :=
  let n := c.toNat
  n == 9 || n == 10 || n == 11 || n == 12 || n == 13 || n == 32 || n == 160 ||
  n == 5760 || (8192 ≤ n && n ≤ 8202) || n == 8232 || n == 8233 || n == 8239 ||
  n == 8287 || n == 12288 || n == 65279

/-- The method `String.prototype.trim`. -/
def jsTrim (s : String) : String :=
  ⟨((s.data.dropWhile isJsSpace).reverse.dropWhile isJsSpace).reverse⟩

/-- The call `split(/\s+/)` on a character list: `inSep` records that the previous
character belonged to a separator, `cur` is the field being read (reversed). -/
def splitWs : Bool → List Char → List Char → List String
  | _, cur, [] => [⟨cur.reverse⟩]
  | inSep, cur, c :: cs =>
    if isJsSpace c then
      if inSep then splitWs true [] cs else ⟨cur.reverse⟩ :: splitWs true [] cs
    else splitWs false (c :: cur) cs

/-- The method `Array.prototype.join(sep)` on strings. -/
def joinWith (sep : String) : List String → String
  | [] => ""
  | [x] => x
  | x :: y :: xs => x ++ sep ++ joinWith sep (y :: xs)

/-- Library functions of the JavaScript runtime that are not modelled. The results
below hold for every choice of them. `convertedGtZero v` is the comparison `v > 0` for a
value that has to be converted from a string, an array or an object first;
`jsonParse` is `JSON.parse` (`none` when it throws); `jsonStringify` is
`JSON.stringify(v)` and `jsonStringifyIndented` is `JSON.stringify(v, null, 2)`;
`toLowerCase` is `String.prototype.toLowerCase`. -/
structure Runtime where
  convertedGtZero : JVal → Bool
  jsonParse : String → Option JVal
  jsonStringify : JVal → String
  jsonStringifyIndented : JVal → String
  toLowerCase : String → String

/-- The method `String.prototype.includes`. -/
def jsIncludes (s sub : String) : Bool :=
  decide (sub.data <:+: s.data)

/-! ## validation.js -/

def VALID_TRIGGER_TYPES : List String := ["SCHEDULE", "PIECE_TRIGGER", "WEBHOOK"]

def VALID_ACTION_TYPES : List String := ["PIECE", "BRANCH", "CODE", "LOOP_ON_ITEMS"]

/-- The call `list.includes(v)` for a list of string literals. -/
def includes (list : List String) : JVal → Bool
  | .str s => list.contains s
  | _ => false

/-- Body of the loop of `validateSchema` for the action at index `i`. -/
def validateSchemaAction (i : Nat) (action : JVal) : List JVal :=
  let pre := "actions[" ++ toString i ++ "]"
  if !action.truthy || action.typeOf != JType.object then
    [.str (pre ++ ": لازم يكون object")]
  else
    (if !includes VALID_ACTION_TYPES (action.get "type") then
      [.str (pre ++ ".type لازم يكون واحد من: " ++ joinWith ", " VALID_ACTION_TYPES)]
     else []) ++
    (if !(action.get "displayName").truthy || (action.get "displayName").typeOf != JType.string then
      [.str (pre ++ ".displayName مطلوب")]
     else [])

/-- The loop of `validateSchema` over the actions, from index `i` on. -/
def validateSchemaActions : Nat → List JVal → List JVal
  | _, [] => []
  | i, action :: rest => validateSchemaAction i action ++ validateSchemaActions (i + 1) rest

/-- The test `v.trim().length === 0`, evaluated only when `v` is a string. -/
def trimIsEmpty : JVal → Bool
  | .str s => (jsTrim s).data.isEmpty
  | _ => false

/-- The function `validateSchema`. -/
def validateSchema (flowJson : JVal) : List JVal :=
  if !flowJson.truthy || flowJson.typeOf != JType.object then
    [.str "الـ Flow لازم يكون object"]
  else
    (if !(flowJson.get "displayName").truthy
        || (flowJson.get "displayName").typeOf != JType.string
        || trimIsEmpty (flowJson.get "displayName") then
      [.str "displayName مطلوب ولازم يكون نص"]
     else []) ++
    (if !(flowJson.get "trigger").truthy || (flowJson.get "trigger").typeOf != JType.object then
      [.str "trigger مطلوب"]
     else
      (if !includes VALID_TRIGGER_TYPES ((flowJson.get "trigger").get "type") then
        [.str ("trigger.type لازم يكون واحد من: " ++ joinWith ", " VALID_TRIGGER_TYPES)]
       else []) ++
      (if !((flowJson.get "trigger").get "displayName").truthy
          || ((flowJson.get "trigger").get "displayName").typeOf != JType.string then
        [.str "trigger.displayName مطلوب"]
       else [])) ++
    (match flowJson.get "actions" with
     | .arr [] => [.str "actions مطلوبة ولازم تكون مصفوفة فيها عنصر واحد على الأقل"]
     | .arr (a :: as) => validateSchemaActions 0 (a :: as)
     | _ => [.str "actions مطلوبة ولازم تكون مصفوفة فيها عنصر واحد على الأقل"])

/-- What one block of the semantic pass pushes onto `errors` and onto `warnings`. -/
structure Findings where
  errors : List JVal
  warnings : List JVal

/-- The object returned by `validateFlowOutput`. The field `isUserError` is `true`
when the returned object carries `isUserError: true` and `false` when it has no
such field. -/
structure ValidationResult where
  valid : Bool
  errors : List JVal
  warnings : List JVal
  isUserError : Bool

/-- The part of the object returned by `piecesRegistry.validate` that the validator reads:
the truthiness of `check.valid` and the value `check.error`. -/
structure Check where
  valid : Bool
  error : JVal

/-- Keeps, for every key, its first entry (the one a property read finds). -/
def firstEntries {α : Type} : List (String × α) → List (String × α)
  | [] => []
  | p :: ps => p :: (firstEntries ps).filter (fun q => q.1 != p.1)

/-- The `piecesRegistry` argument as the validator and the repair loop use it: any object
with a `validate` method and a `getCompactListForAI` method. -/
structure Registry where
  validate : JVal → JVal → Except Thrown Check
  getCompactListForAI : Except Thrown (List JVal)

/-- The function `isValidCron`. Calling `trim` on a value that is not a string throws. -/
def isValidCron (expression : JVal) : Except Thrown Bool :=
  match expression with
  | .str s =>
    let parts := splitWs false [] (jsTrim s).data
    .ok (decide (parts.length ≥ 5) && decide (parts.length ≤ 6))
  | _ => .error (.typeError "expression.trim is not a function")

/-- Block 3 of `validateFlowOutput`: the trigger's piece. -/
def checkTriggerPiece (trigger : JVal) (piecesRegistry : Option Registry) :
    Except Thrown Findings := do
  let ty ← getProp trigger "type"
  if ty.isStr "PIECE_TRIGGER" || ty.isStr "SCHEDULE" then
    let pieceName ← getProp trigger "pieceName"
    if !pieceName.truthy then
      pure ⟨[.str "الـ Trigger يحتاج pieceName"], []⟩
    else
      match piecesRegistry with
      | some reg =>
        let triggerName ← getProp trigger "triggerName"
        let check ← reg.validate pieceName triggerName
        if !check.valid then
          pure ⟨[], [.str ("Trigger: " ++ check.error.toStr ++ " (سيتم تجاهله)")]⟩
        else pure ⟨[], []⟩
      | none => pure ⟨[], []⟩
  else pure ⟨[], []⟩

/-- Block 4 of `validateFlowOutput`: the cron expression of a schedule trigger. -/
def checkScheduleCron (trigger : JVal) : Except Thrown Findings := do
  let ty ← getProp trigger "type"
  if ty.isStr "SCHEDULE" then
    let input ← getProp trigger "input"
    let cron := getOpt input "cronExpression"
    if !cron.truthy then
      pure ⟨[.str "Schedule trigger يحتاج cronExpression"], []⟩
    else
      let ok ← isValidCron cron
      if !ok then
        pure ⟨[], [.str ("Cron expression \"" ++ cron.toStr ++ "\" ممكن يكون غلط — تأكد منه")]⟩
      else pure ⟨[], []⟩
  else pure ⟨[], []⟩

/-- The template `Action ${i + 1} (${action.displayName})` of block 5. -/
def actionLabel (i : Nat) (action : JVal) : Except Thrown String := do
  let displayName ← getProp action "displayName"
  pure ("Action " ++ toString (i + 1) ++ " (" ++ displayName.toStr ++ ")")

/-- Block 5 of `validateFlowOutput`, the `PIECE` test of one loop iteration. -/
def checkPieceAction (label : String) (action : JVal) (piecesRegistry : Option Registry) :
    Except Thrown Findings := do
  let ty ← getProp action "type"
  if ty.isStr "PIECE" then
    let pieceName ← getProp action "pieceName"
    if !pieceName.truthy then
      pure ⟨[.str (label ++ ": يحتاج pieceName")], []⟩
    else
      let actionName ← getProp action "actionName"
      if !actionName.truthy then
        pure ⟨[.str (label ++ ": يحتاج actionName")], []⟩
      else
        match piecesRegistry with
        | some reg =>
          let check ← reg.validate pieceName actionName
          if !check.valid then
            pure ⟨[], [.str (label ++ ": " ++ check.error.toStr ++ " (سيتم تجاهله)")]⟩
          else pure ⟨[], []⟩
        | none => pure ⟨[], []⟩
  else pure ⟨[], []⟩

/-- Block 5 of `validateFlowOutput`, the `BRANCH` test of one loop iteration. -/
def checkBranchAction (label : String) (action : JVal) : Except Thrown Findings := do
  let ty ← getProp action "type"
  if ty.isStr "BRANCH" then
    let conditions ← getProp action "conditions"
    if !conditions.truthy || !conditions.isArray
        || (match conditions with | .arr xs => xs.length == 0 | _ => false) then
      pure ⟨[.str (label ++ ": Branch يحتاج conditions")], []⟩
    else pure ⟨[], []⟩
  else pure ⟨[], []⟩

/-- Block 5 of `validateFlowOutput`, the `CODE` test of one loop iteration. -/
def checkCodeAction (label : String) (action : JVal) : Except Thrown Findings := do
  let ty ← getProp action "type"
  if ty.isStr "CODE" then
    let input ← getProp action "input"
    let code ← getProp action "code"
    if !(getOpt input "code").truthy && !code.truthy then
      pure ⟨[], [.str (label ++ ": Code action بدون كود — سيحتاج تعبئة يدوية")]⟩
    else pure ⟨[], []⟩
  else pure ⟨[], []⟩

/-- Block 5 of `validateFlowOutput`: one iteration of the loop, for the action at
index `i`. -/
def checkAction (piecesRegistry : Option Registry) (i : Nat) (action : JVal) :
    Except Thrown Findings := do
  let label ← actionLabel i action
  let p ← checkPieceAction label action piecesRegistry
  let b ← checkBranchAction label action
  let c ← checkCodeAction label action
  pure ⟨p.errors ++ b.errors ++ c.errors, p.warnings ++ b.warnings ++ c.warnings⟩

/-- Block 5 of `validateFlowOutput`: the loop over the actions, from index `i` on. -/
def checkActions (piecesRegistry : Option Registry) : Nat → List JVal → Except Thrown Findings
  | _, [] => pure ⟨[], []⟩
  | i, action :: rest => do
    let f ← checkAction piecesRegistry i action
    let g ← checkActions piecesRegistry (i + 1) rest
    pure ⟨f.errors ++ g.errors, f.warnings ++ g.warnings⟩

/-- Block 6 of `validateFlowOutput`: the step-count warning. -/
def checkStepCount (actions : List JVal) : Findings :=
  if actions.length > 20 then
    ⟨[], [.str "⚠️ عدد الخطوات كثير (أكثر من 20) — فكر في تقسيم الـ Flow"]⟩
  else ⟨[], []⟩

/-- The function `validateFlowOutput`. Blocks 3 to 6 push onto `errors` and `warnings`
in program order; here each block returns what it pushes and the lists are
concatenated in the same order. The semantic pass reads `flowJson.actions` as an
array, which the structural pass has established (`validateSchema_actions`). -/
def validateFlowOutput (flowJson : JVal) (piecesRegistry : Option Registry) :
    Except Thrown ValidationResult :=
  let schemaErrors := validateSchema flowJson
  if schemaErrors.length > 0 then
    .ok { valid := false, errors := schemaErrors, warnings := [], isUserError := false }
  else do
    let error ← getProp flowJson "error"
    if error.truthy then
      pure { valid := false, errors := [error], warnings := [], isUserError := true }
    else
      let trigger ← getProp flowJson "trigger"
      let f3 ← checkTriggerPiece trigger piecesRegistry
      let f4 ← checkScheduleCron trigger
      match flowJson.get "actions" with
      | .arr actions =>
        let f5 ← checkActions piecesRegistry 0 actions
        let f6 := checkStepCount actions
        let errors := f3.errors ++ f4.errors ++ f5.errors ++ f6.errors
        let warnings := f3.warnings ++ f4.warnings ++ f5.warnings ++ f6.warnings
        pure { valid := errors.length == 0, errors := errors, warnings := warnings,
               isUserError := false }
      | _ => throw (.typeError "flowJson.actions is not an array")

/-- The object returned by `safeguardFlow`. -/
structure SafetyResult where
  safe : Bool
  blocks : List JVal
  warnings : List JVal

/-- What one block of `safeguardFlow` pushes onto `blocks` and onto `warnings`. -/
structure Cautions where
  blocks : List JVal
  warnings : List JVal

/-- The method `String.prototype.startsWith`. -/
def jsStartsWith (s t : String) : Bool :=
  t.data.isPrefixOf s.data

/-- The call `cron.match(/^\*\/(\d+)/)`: its capture group, the longest run of decimal
digits that follows a leading `*/`, when there is one. -/
def matchStep (cron : String) : Option String :=
  match cron.data with
  | a :: b :: rest =>
    if a == Char.ofNat 42 && b == Char.ofNat 47 && !(rest.takeWhile Char.isDigit).isEmpty then
      some ⟨rest.takeWhile Char.isDigit⟩
    else none
  | _ => none

/-- The call `parseInt(digits)` on a string of decimal digits. -/
def parseInt (digits : String) : Nat :=
  digits.data.foldl (fun acc c => 10 * acc + (c.toNat - 48)) 0

/-- The first test of the schedule block of `safeguardFlow`: what it pushes onto
`warnings`. -/
def everyMinuteWarnings (cron : String) : List JVal :=
  if jsStartsWith cron "* " || jsStartsWith cron "*/1 " then
    [.str "⚠️ التكرار كل دقيقة — ممكن يحمّل السيرفر"]
  else []

/-- The second test of the schedule block of `safeguardFlow`, `match &&
parseInt(match[1]) < 5`: what it pushes onto `blocks`. -/
def underFiveBlocks (cron : String) : List JVal :=
  match matchStep cron with
  | some digits =>
    if parseInt digits < 5 then [.str "❌ التكرار أقل من 5 دقائق — مرفوض"] else []
  | none => []

/-- The schedule block of `safeguardFlow`. The methods `startsWith` and `match` exist on
strings only. -/
def safeguardSchedule (flowJson : JVal) : Except Thrown Cautions := do
  let trigger ← getProp flowJson "trigger"
  let ty ← getProp trigger "type"
  if ty.isStr "SCHEDULE" then
    match orElse (getOpt (trigger.get "input") "cronExpression") (.str "") with
    | .str cron =>
      pure { blocks := underFiveBlocks cron, warnings := everyMinuteWarnings cron }
    | _ => throw (.typeError "cron.startsWith is not a function")
  else pure { blocks := [], warnings := [] }

/-- The call `pieceName?.includes(needle)`: `undefined` (falsy) for a missing name, a
substring test on a string, a membership test on an array, and a `TypeError` for any
other value, which has no method `includes`. -/
def pieceNameIncludes (pieceName : JVal) (needle : String) : Except Thrown Bool :=
  match pieceName with
  | .undefined => .ok false
  | .null => .ok false
  | .str s => .ok (jsIncludes s needle)
  | .arr xs => .ok (xs.any (fun x => x.isStr needle))
  | _ => .error (.typeError "a.pieceName?.includes is not a function")

/-- The callback of `flowJson.actions.some(...)` in `safeguardFlow`. -/
def callsHttpAction (a : JVal) : Except Thrown Bool := do
  let pieceName ← getProp a "pieceName"
  let http ← pieceNameIncludes pieceName "http"
  if http then pure true else pieceNameIncludes pieceName "webhook"

/-- The method `Array.prototype.some` with the callback `callsHttpAction`. -/
def someCallsHttp : List JVal → Except Thrown Bool
  | [] => pure false
  | a :: rest => do
    let found ← callsHttpAction a
    if found then pure true else someCallsHttp rest

/-- The function `safeguardFlow`. -/
def safeguardFlow (flowJson : JVal) : Except Thrown SafetyResult := do
  let schedule ← safeguardSchedule flowJson
  let trigger ← getProp flowJson "trigger"
  let ty ← getProp trigger "type"
  let hasWebhook := ty.isStr "WEBHOOK"
  match flowJson.get "actions" with
  | .arr actions =>
    let callsHttp ← someCallsHttp actions
    let blocks := schedule.blocks ++
      (if actions.length > 30 then [.str "❌ أكثر من 30 خطوة — قسم الـ Flow"] else [])
    let warnings := schedule.warnings ++
      (if hasWebhook && callsHttp then
        [.str "⚠️ الـ Flow يستقبل webhook ويرسل HTTP — تأكد ما فيه حلقة"]
       else [])
    pure { safe := blocks.length == 0, blocks := blocks, warnings := warnings }
  | _ => throw (.typeError "flowJson.actions.some is not a function")

/-! ## pieces-registry.js -/

/-- The names every plain object inherits from `Object.prototype`. Reading one of them
on an object that has no own property of that name yields a function (for `__proto__`,
the prototype itself): a truthy value without a property `actions`. -/
def inheritedNames : List String :=
  ["constructor", "__defineGetter__", "__defineSetter__", "hasOwnProperty",
   "__lookupGetter__", "__lookupSetter__", "isPrototypeOf", "propertyIsEnumerable",
   "toString", "valueOf", "__proto__", "toLocaleString"]

/-- An entry of `this.pieces` as `sync` and `_loadFallback` build it: `triggers` and
`actions` are objects whose values are descriptor objects. -/
structure PieceEntry where
  name : JVal
  displayName : JVal
  description : JVal
  triggers : List (String × JVal)
  actions : List (String × JVal)

/-- The state of a `PiecesRegistry` that `validate`, `findSimilar` and
`getCompactListForAI` read: the own properties of `this.pieces`. -/
structure PiecesRegistry where
  pieces : List (String × PieceEntry)

/-- Truthiness of the read `obj[key]` on a plain object with own properties `kvs`: an
own property shadows an inherited one. -/
def readTruthy (kvs : List (String × JVal)) (key : String) : Bool :=
  match kvs.lookup key with
  | some v => v.truthy
  | none => inheritedNames.contains key

/-- The method `findSimilar`: `name.toLowerCase()` throws unless `name` is a string. -/
def PiecesRegistry.findSimilar (rt : Runtime) (this : PiecesRegistry) (name : JVal) :
    Except Thrown (List String) :=
  match name with
  | .str s =>
    let lower := rt.toLowerCase s
    .ok ((((firstEntries this.pieces).map (fun kv => kv.1)).filter (fun p =>
      jsIncludes (rt.toLowerCase p) lower || jsIncludes lower (rt.toLowerCase p))).take 5)
  | _ => .error (.typeError "name.toLowerCase is not a function")

/-- The method `validate`. The read `this.pieces[pieceName]` converts `pieceName` to a
property key; a name that is not an own property may still be inherited, and then
`piece.actions` is `undefined`. The field `suggestion` and the other fields the
validator does not read are computed and dropped. -/
def PiecesRegistry.validate (rt : Runtime) (this : PiecesRegistry)
    (pieceName actionOrTriggerName : JVal) : Except Thrown Check :=
  match this.pieces.lookup pieceName.toStr with
  | none =>
    if inheritedNames.contains pieceName.toStr then
      if actionOrTriggerName.truthy then
        .error (.typeError "Cannot read properties of undefined")
      else .ok { valid := true, error := .undefined }
    else do
      let _ ← this.findSimilar rt pieceName
      pure { valid := false, error := .str ("Piece \"" ++ pieceName.toStr ++ "\" مو موجود") }
  | some piece =>
    if actionOrTriggerName.truthy then
      let hasAction := readTruthy piece.actions actionOrTriggerName.toStr
      let hasTrigger := readTruthy piece.triggers actionOrTriggerName.toStr
      if !hasAction && !hasTrigger then
        .ok { valid := false,
              error := .str ("\"" ++ actionOrTriggerName.toStr ++ "\" مو موجود في "
                ++ piece.displayName.toStr) }
      else .ok { valid := true, error := .undefined }
    else .ok { valid := true, error := .undefined }

/-- The first characters of a string that fit in `n` UTF-16 code units. -/
def takeUnits : Nat → List Char → List Char
  | _, [] => []
  | n, c :: cs =>
    if (if c.toNat < 65536 then 1 else 2) ≤ n then
      c :: takeUnits (n - (if c.toNat < 65536 then 1 else 2)) cs
    else []

/-- The call `v.substring(0, 100)`: a `TypeError` unless `v` is a string. When the cut
falls inside a surrogate pair JavaScript keeps half of it; here the character is
dropped. -/
def substring100 : JVal → Except Thrown JVal
  | .str s => .ok (.str ⟨takeUnits 100 s.data⟩)
  | _ => .error (.typeError "substring is not a function")

/-- The compact form of the triggers or of the actions of a piece. -/
def compactOperations (ops : List (String × JVal)) : Except Thrown (List JVal) :=
  (firstEntries ops).mapM (fun kv => do
    let displayName ← getProp kv.2 "displayName"
    pure (.obj [("name", .str kv.1), ("displayName", orElse displayName (.str kv.1))]))

/-- The method `getCompactListForAI`. -/
def PiecesRegistry.getCompactListForAI (this : PiecesRegistry) : Except Thrown (List JVal) :=
  (firstEntries this.pieces).mapM (fun kv => do
    let description ← substring100 (orElse kv.2.description (.str ""))
    let triggers ← compactOperations kv.2.triggers
    let actions ← compactOperations kv.2.actions
    pure (.obj [
      ("name", kv.2.name),
      ("displayName", kv.2.displayName),
      ("description", description),
      ("triggers", .arr triggers),
      ("actions", .arr actions)]))

/-- A `PiecesRegistry` as the `piecesRegistry` argument of the validator and of
`convertToFlow`. -/
def PiecesRegistry.toRegistry (rt : Runtime) (this : PiecesRegistry) : Registry :=
  { validate := this.validate rt,
    getCompactListForAI := this.getCompactListForAI }

/-! ## Collaborators -/

/-- A collaborator reached by calls of type `κ` answering with values of type `ρ`: the
outcome of a call may depend on the calls issued before it. -/
abbrev Oracle (κ ρ : Type) := List κ → κ → Except Thrown ρ

/-- A computation that issues calls of type `κ`: from the calls issued so far it yields
the calls issued so far afterwards and its outcome. Calls are issued one at a time, in
program order (every call is awaited). -/
def Run (κ α : Type) := List κ → List κ × Except Thrown α

namespace Run

/-- Issue one call and await its outcome. -/
def call {κ ρ : Type} (o : Oracle κ ρ) (c : κ) : Run κ ρ :=
  fun tr => (tr ++ [c], o tr c)

/-- Run code that issues no call. -/
def lift {κ α : Type} (x : Except Thrown α) : Run κ α :=
  fun tr => (tr, x)

/-- Sequencing: the continuation runs only when the first part did not throw. -/
def andThen {κ α β : Type} (m : Run κ α) (f : α → Run κ β) : Run κ β :=
  fun tr =>
    match m tr with
    | (tr1, .ok a) => f a tr1
    | (tr1, .error e) => (tr1, .error e)

/-- The statement `try m catch (e) h(e)`. -/
def tryCatch {κ α : Type} (m : Run κ α) (h : Thrown → Run κ α) : Run κ α :=
  fun tr =>
    match m tr with
    | (tr1, .ok a) => (tr1, .ok a)
    | (tr1, .error e) => h e tr1

instance {κ : Type} : Monad (Run κ) where
  pure a := fun tr => (tr, .ok a)
  bind := andThen

end Run

/-! ## flow-builder.js -/

/-- One invocation of `FlowBuilder.api(method, path, body)`; `body` is `null` when the
argument is omitted. -/
structure ApiCall where
  method : String
  path : String
  body : JVal

/-- The execution engine as `FlowBuilder.api` presents it: a call either returns the
parsed response or throws. -/
abbrev Engine := Oracle ApiCall JVal

/-- The fields of a `FlowBuilder` instance. -/
structure FlowBuilder where
  baseUrl : JVal
  apiKey : JVal
  projectId : JVal

/-- The options of `buildFlow` after destructuring (defaults `false` and `null`). -/
structure BuildOptions where
  autoPublish : JVal
  folderId : JVal

/-- The object returned by `buildFlow`. -/
structure BuildResult where
  success : Bool
  flowId : JVal
  flowUrl : String
  status : String
  stepsCreated : Nat

/-- The comparison `v > 0`. -/
def gtZero (rt : Runtime) : JVal → Bool
  | .undefined => false
  | .null => false
  | .bool b => b
  | .num n => decide (n > 0)
  | v => rt.convertedGtZero v

/-- The values a `for (const x of v)` loop visits: the elements of an array, the
characters of a string; any other value is not iterable. -/
def iterate : JVal → Except Thrown (List JVal)
  | .arr xs => .ok xs
  | .str s => .ok (s.data.map (fun c => JVal.str (String.singleton c)))
  | _ => .error (.typeError "value is not iterable")

/-- The template `/api/v1/flows/${flowId}`. -/
def flowPath (flowId : JVal) : String :=
  "/api/v1/flows/" ++ flowId.toStr

/-- The method `buildTriggerSettings`. -/
def buildTriggerSettings (trigger : JVal) : Except Thrown JVal := do
  let ty ← getProp trigger "type"
  if ty.isStr "SCHEDULE" then
    pure (.obj [
      ("pieceName", .str "@activepieces/piece-schedule"),
      ("pieceVersion", .str "~0.0.0"),
      ("pieceType", .str "OFFICIAL"),
      ("packageType", .str "REGISTRY"),
      ("triggerName", orElse (trigger.get "triggerName") (.str "cron_expression")),
      ("input", .obj [
        ("cronExpression",
          orElse (getOpt (trigger.get "input") "cronExpression") (.str "0 8 * * *")),
        ("timezone", orElse (getOpt (trigger.get "input") "timezone") (.str "Asia/Riyadh"))]),
      ("inputUiInfo", .obj []),
      ("propertySettings", .obj [])])
  else if ty.isStr "WEBHOOK" then
    pure (.obj [
      ("pieceName", .str "@activepieces/piece-webhook"),
      ("pieceVersion", .str "~0.0.0"),
      ("pieceType", .str "OFFICIAL"),
      ("packageType", .str "REGISTRY"),
      ("triggerName", .str "catch_request"),
      ("input", orElse (trigger.get "input") (.obj [])),
      ("inputUiInfo", .obj []),
      ("propertySettings", .obj [])])
  else
    pure (.obj [
      ("pieceName", trigger.get "pieceName"),
      ("pieceVersion", .str "~0.0.0"),
      ("pieceType", .str "OFFICIAL"),
      ("packageType", .str "REGISTRY"),
      ("triggerName", trigger.get "triggerName"),
      ("input", orElse (trigger.get "input") (.obj [])),
      ("inputUiInfo", .obj []),
      ("propertySettings", .obj [])])

/-- The request that `updateTrigger` passes to `api`. -/
def updateTriggerCall (flowId : JVal) (trigger settings : JVal) : ApiCall :=
  { method := "POST", path := flowPath flowId,
    body := .obj [
      ("type", .str "UPDATE_TRIGGER"),
      ("request", .obj [
        ("name", .str "trigger"),
        ("type", if (trigger.get "type").isStr "SCHEDULE" then .str "PIECE_TRIGGER"
                 else trigger.get "type"),
        ("displayName", trigger.get "displayName"),
        ("settings", settings),
        ("valid", .bool true)])] }

/-- The method `updateTrigger`. -/
def updateTrigger (engine : Engine) (flowId : JVal) (trigger : JVal) : Run ApiCall JVal := do
  let settings ← Run.lift (buildTriggerSettings trigger)
  Run.call engine (updateTriggerCall flowId trigger settings)

/-- Write of property `k` in an object under construction: an existing key keeps its
place and takes the new value, a new key goes to the end. -/
def setProp (kvs : List (String × JVal)) (k : String) (v : JVal) : List (String × JVal) :=
  if kvs.any (fun p => p.1 == k) then kvs.map (fun p => if p.1 == k then (k, v) else p)
  else kvs ++ [(k, v)]

/-- The own enumerable properties that an object spread `...v` copies: the properties of
an object, the indexed elements of an array, the indexed characters of a string, and
nothing for any other value. -/
def ownProps : JVal → List (String × JVal)
  | .obj kvs => firstEntries kvs
  | .arr xs => xs.enum.map (fun p => (toString p.1, p.2))
  | .str s => s.data.enum.map (fun p => (toString p.1, JVal.str (String.singleton p.2)))
  | _ => []

/-- Whether a property key is an array index: the decimal numeral, without leading
zeros, of an integer below `2^32 - 1`. -/
def isArrayIndex (k : String) : Bool :=
  !k.data.isEmpty && k.data.all Char.isDigit
    && (k == "0" || k.data.head? != some (Char.ofNat 48))
    && decide (k.data.foldl (fun acc c => 10 * acc + (c.toNat - 48)) 0 < 4294967295)

/-- Insertion of an array-index property into a list sorted by index. -/
def insertIndexed (p : String × JVal) : List (String × JVal) → List (String × JVal)
  | [] => [p]
  | q :: qs =>
    if p.1.data.foldl (fun acc c => 10 * acc + (c.toNat - 48)) 0
        < q.1.data.foldl (fun acc c => 10 * acc + (c.toNat - 48)) 0 then p :: q :: qs
    else q :: insertIndexed p qs

/-- The order in which an object enumerates its own properties: array-index keys in
ascending order first, then the other keys in the order of their creation. -/
def propertyOrder (kvs : List (String × JVal)) : List (String × JVal) :=
  (kvs.filter (fun p => isArrayIndex p.1)).foldl (fun acc p => insertIndexed p acc) [] ++
    kvs.filter (fun p => !isArrayIndex p.1)

/-- The object literal `\x7b ...fields, ...v \x7d`: the spread writes after the fields,
and the object built enumerates its properties in `propertyOrder`. -/
def spreadInto (fields : List (String × JVal)) (v : JVal) : List (String × JVal) :=
  propertyOrder ((ownProps v).foldl (fun acc p => setProp acc p.1 p.2) fields)

/-- The method `buildActionSettings`. -/
def buildActionSettings (action : JVal) : Except Thrown JVal := do
  let ty ← getProp action "type"
  if ty.isStr "CODE" then
    pure (.obj [
      ("input", .obj (spreadInto
        [("code", orElse (orElse (action.get "code") (getOpt (action.get "input") "code"))
                    (.str "// Add your code here"))]
        (orElse (action.get "input") (.obj [])))),
      ("inputUiInfo", .obj []),
      ("propertySettings", .obj [])])
  else
    pure (.obj [
      ("pieceName", action.get "pieceName"),
      ("pieceVersion", .str "~0.0.0"),
      ("pieceType", .str "OFFICIAL"),
      ("packageType", .str "REGISTRY"),
      ("actionName", action.get "actionName"),
      ("input", orElse (action.get "input") (.obj [])),
      ("inputUiInfo", .obj []),
      ("propertySettings", .obj [])])

/-- The `ADD_ACTION` request for a step that is not a branch node. `branchIndex` is
`some 0` for the children of a branch and `none` for a top-level step, whose request has
no such field. -/
def addActionCall (flowId : JVal) (parentStep location : String) (branchIndex : Option Int)
    (stepName : String) (action settings : JVal) : ApiCall :=
  { method := "POST", path := flowPath flowId,
    body := .obj [
      ("type", .str "ADD_ACTION"),
      ("request", .obj ([
        ("parentStep", .str parentStep),
        ("stepLocationRelativeToParent", .str location)] ++
        (match branchIndex with
         | some b => [("branchIndex", JVal.num b)]
         | none => []) ++ [
        ("action", .obj [
          ("name", .str stepName),
          ("type", if (action.get "type").isStr "CODE" then .str "CODE" else .str "PIECE"),
          ("displayName", action.get "displayName"),
          ("settings", settings),
          ("valid", .bool true)])]))] }

/-- The default condition list of a branch node. -/
def defaultConditions : JVal :=
  .arr [.arr [.obj [
    ("firstValue", .str ""),
    ("operator", .str "TEXT_EXACTLY_MATCHES"),
    ("secondValue", .str ""),
    ("caseSensitive", .bool false)]]]

/-- The `ADD_ACTION` request for a branch node. -/
def addBranchCall (flowId : JVal) (parentStep stepName : String) (action : JVal) : ApiCall :=
  { method := "POST", path := flowPath flowId,
    body := .obj [
      ("type", .str "ADD_ACTION"),
      ("request", .obj [
        ("parentStep", .str parentStep),
        ("stepLocationRelativeToParent", .str "AFTER"),
        ("action", .obj [
          ("name", .str stepName),
          ("type", .str "BRANCH"),
          ("displayName", action.get "displayName"),
          ("settings", .obj [
            ("conditions", orElse (action.get "conditions") defaultConditions)]),
          ("valid", .bool true)])])] }

/-- One of the two child loops of `addBranch`, from child number `subIndex` on: `side` is
`true` or `false` and `inside` the matching `INSIDE_TRUE_BRANCH` or
`INSIDE_FALSE_BRANCH`. -/
def addBranchChildren (engine : Engine) (flowId : JVal) (stepName side inside : String) :
    String → Nat → List JVal → Run ApiCall Unit
  | _, _, [] => pure ()
  | branchParent, subIndex, subAction :: rest => do
    let subStepName := stepName ++ "_" ++ side ++ "_" ++ toString subIndex
    let subSettings ← Run.lift (buildActionSettings subAction)
    let _ ← Run.call engine
      (addActionCall flowId branchParent (if subIndex == 1 then inside else "AFTER") (some 0)
        subStepName subAction subSettings)
    addBranchChildren engine flowId stepName side inside subStepName (subIndex + 1) rest

/-- The guard and loop of `addBranch` for one side: nothing happens unless the list is
truthy and its `length` is positive. -/
def addBranchSide (rt : Runtime) (engine : Engine) (flowId : JVal)
    (stepName side inside : String) (children : JVal) : Run ApiCall Unit :=
  if children.truthy && gtZero rt (children.get "length") then do
    let subActions ← Run.lift (iterate children)
    addBranchChildren engine flowId stepName side inside stepName 1 subActions
  else pure ()

/-- The method `addBranch`. -/
def addBranch (rt : Runtime) (engine : Engine) (flowId : JVal) (action : JVal)
    (parentStep stepName : String) : Run ApiCall String := do
  let _ ← Run.lift (getProp action "displayName")
  let _ ← Run.call engine (addBranchCall flowId parentStep stepName action)
  addBranchSide rt engine flowId stepName "true" "INSIDE_TRUE_BRANCH"
    (action.get "onSuccessActions")
  addBranchSide rt engine flowId stepName "false" "INSIDE_FALSE_BRANCH"
    (action.get "onFailureActions")
  pure stepName

/-- The method `addAction`. -/
def addAction (rt : Runtime) (engine : Engine) (flowId : JVal) (action : JVal)
    (parentStep : String) (index : Nat) : Run ApiCall String := do
  let stepName := "step_" ++ toString index
  let ty ← Run.lift (getProp action "type")
  if ty.isStr "BRANCH" then
    addBranch rt engine flowId action parentStep stepName
  else
    let settings ← Run.lift (buildActionSettings action)
    let _ ← Run.call engine (addActionCall flowId parentStep "AFTER" none stepName action settings)
    pure stepName

/-- The loop of `buildFlow` over the top-level actions; it yields the final
`stepIndex`. Both arms of the test on `action.type` assign `stepName` to `parentStep`. -/
def addActions (rt : Runtime) (engine : Engine) (flowId : JVal) :
    String → Nat → List JVal → Run ApiCall Nat
  | _, stepIndex, [] => pure stepIndex
  | parentStep, stepIndex, action :: rest => do
    let stepName ← addAction rt engine flowId action parentStep stepIndex
    addActions rt engine flowId stepName (stepIndex + 1) rest

/-- The request of step 1 of `buildFlow`: create the empty flow. -/
def createFlowCall (fb : FlowBuilder) (aiOutput : JVal) (options : BuildOptions) : ApiCall :=
  { method := "POST", path := "/api/v1/flows",
    body := .obj ([
      ("displayName", aiOutput.get "displayName"),
      ("projectId", fb.projectId)] ++
      (if options.folderId.truthy then [("folderId", options.folderId)] else [])) }

/-- The request of `publishFlow`. -/
def publishCall (flowId : JVal) : ApiCall :=
  { method := "POST", path := flowPath flowId,
    body := .obj [("type", .str "LOCK_AND_PUBLISH"), ("request", .obj [])] }

/-- The cleanup request of `buildFlow`. -/
def deleteCall (flowId : JVal) : ApiCall :=
  { method := "DELETE", path := flowPath flowId, body := .null }

/-- Steps 2 to 4 of `buildFlow`: the body of its `try` block. -/
def buildSteps (rt : Runtime) (fb : FlowBuilder) (engine : Engine) (aiOutput : JVal)
    (options : BuildOptions) (flowId : JVal) : Run ApiCall BuildResult := do
  let trigger ← Run.lift (getProp aiOutput "trigger")
  let _ ← updateTrigger engine flowId trigger
  let actions ← Run.lift (iterate (aiOutput.get "actions"))
  let stepIndex ← addActions rt engine flowId "trigger" 1 actions
  if options.autoPublish.truthy then
    let _ ← Run.call engine (publishCall flowId)
  pure {
    success := true,
    flowId := flowId,
    flowUrl := fb.baseUrl.toStr ++ "/flows/" ++ flowId.toStr,
    status := if options.autoPublish.truthy then "PUBLISHED" else "DRAFT",
    stepsCreated := stepIndex - 1 }

/-- The method `buildFlow`: create the shell, then run the steps; when a step throws,
issue the cleanup `DELETE`, ignore its outcome, and rethrow. -/
def buildFlow (rt : Runtime) (fb : FlowBuilder) (engine : Engine) (aiOutput : JVal)
    (options : BuildOptions) : Run ApiCall BuildResult := do
  let _ ← Run.lift (getProp aiOutput "displayName")
  let flow ← Run.call engine (createFlowCall fb aiOutput options)
  let flowId ← Run.lift (getProp flow "id")
  Run.tryCatch (buildSteps rt fb engine aiOutput options flowId) (fun error => do
    Run.tryCatch
      (do let _ ← Run.call engine (deleteCall flowId)
          pure ())
      (fun _ => pure ())
    Run.lift (.error error))

/-! ## ai-engine.js -/

/-- The constant `SYSTEM_PROMPT`, line by line. -/
def SYSTEM_PROMPT_LINES : List String := [
  "أنت \"Flow Architect\" — خبير في تحويل الأوامر النصية (عربي أو إنجليزي) إلى Activepieces workflows.",
  "",
  "## مهمتك:",
  "حول طلب المستخدم إلى JSON يمثل Activepieces Flow قابل للتنفيذ.",
  "",
  "## قواعد صارمة:",
  "1. كل Flow يبدأ بـ trigger واحد فقط",
  "2. الـ actions تكون مصفوفة مرتبة",
  "3. استخدم فقط الـ pieces المتاحة في PIECES_CATALOG",
  "4. لو ذكر وقت/جدول/يومياً → trigger type = \"SCHEDULE\"",
  "5. لو ذكر \"لما يجي/عند/إذا وصل\" → trigger type = \"PIECE_TRIGGER\" أو \"WEBHOOK\"",
  "6. لو فيه شرط \"لو/إذا\" → action type = \"BRANCH\"",
  "7. رجع JSON فقط — بدون أي نص أو markdown",
  "",
  "## أنواع الـ Triggers:",
  "- SCHEDULE: مجدول (cron) — piece: @activepieces/piece-schedule",
  "- PIECE_TRIGGER: حدث من تطبيق",
  "- WEBHOOK: رابط يستقبل بيانات — piece: @activepieces/piece-webhook",
  "",
  "## أنواع الـ Actions:",
  "- PIECE: استخدام piece موجود",
  "- BRANCH: تفرع شرطي — يحتاج conditions + onSuccessActions + onFailureActions",
  "- CODE: كود JavaScript مخصص",
  "",
  "## قواعد SCHEDULE:",
  "- \"كل يوم\": \"0 8 * * *\"",
  "- \"كل ساعة\": \"0 * * * *\"",
  "- \"كل اثنين\": \"0 8 * * 1\"",
  "- timezone دائماً: \"Asia/Riyadh\"",
  "",
  "## هيكل JSON المطلوب:",
  "\x7b",
  "  \"displayName\": \"اسم واضح\",",
  "  \"trigger\": \x7b",
  "    \"type\": \"SCHEDULE | PIECE_TRIGGER | WEBHOOK\",",
  "    \"pieceName\": \"@activepieces/piece-xxx\",",
  "    \"triggerName\": \"trigger-name\",",
  "    \"displayName\": \"وصف\",",
  "    \"input\": \x7b\x7d",
  "  \x7d,",
  "  \"actions\": [",
  "    \x7b",
  "      \"type\": \"PIECE\",",
  "      \"pieceName\": \"@activepieces/piece-xxx\",",
  "      \"actionName\": \"action-name\",",
  "      \"displayName\": \"وصف\",",
  "      \"input\": \x7b\x7d",
  "    \x7d",
  "  ],",
  "  \"connections_needed\": [],",
  "  \"explanation_ar\": \"شرح بالعربي سطرين\"",
  "\x7d",
  "",
  "## مهم:",
  "- رجع JSON فقط بدون backticks أو كلام",
  "- لو الطلب مو ممكن: \x7b\"error\": \"السبب\"\x7d",
  "- الـ data بين الخطوات: \x7b\x7btrigger.field\x7d\x7d أو \x7b\x7bstep_1.field\x7d\x7d"]

/-- The constant `SYSTEM_PROMPT`. -/
def SYSTEM_PROMPT : String :=
  joinWith "\n" SYSTEM_PROMPT_LINES

/-- The property `err.message` of a thrown error. -/
def Thrown.message : Thrown → String
  | .typeError m => m
  | .aiEngineError m _ _ => m
  | .raised _ m _ => m

/-- One invocation of `callAI(systemPrompt, messages, temperature)`. -/
structure AICall where
  systemPrompt : String
  messages : List JVal
  temperature : ℚ

/-- The object that `callAI` resolves to. -/
structure AIResult where
  text : JVal
  usage : JVal

/-- The IR producer as `callAI` presents it. -/
abbrev Producer := Oracle AICall AIResult

/-- The object returned by `convertToFlow` and by `retryWithErrors`; `provider` is
`none` when the object has no such field, `retried` is `false` when it has no such
field. -/
structure ConvertResult where
  success : Bool
  flow : JVal
  retried : Bool
  warnings : List JVal
  tokensUsed : JVal
  provider : Option JVal

/-- The call `text.trim()` on a value: a `TypeError` unless it is a string. -/
def trimText : JVal → Except Thrown String
  | .str s => .ok (jsTrim s)
  | _ => .error (.typeError "text.trim is not a function")

/-- The match of `/\x7b[\s\S]*\x7d/`: from the first opening brace to the last closing
brace after it, when there is one. -/
def matchBraces (raw : String) : Option String :=
  let fromOpen := raw.data.dropWhile (fun c => c != Char.ofNat 123)
  let upToClose := (fromOpen.reverse.dropWhile (fun c => c != Char.ofNat 125)).reverse
  if upToClose.isEmpty then none else some ⟨upToClose⟩

/-- The call `replace(/,\s*c/g, c)` for a closing character `c`: `pending` holds the
white space read after a comma that may still turn out to precede `c`. -/
def dropTrailingCommas (close : Char) : Option (List Char) → List Char → List Char
  | none, [] => []
  | some buf, [] => Char.ofNat 44 :: buf.reverse
  | none, c :: cs =>
    if c == Char.ofNat 44 then dropTrailingCommas close (some []) cs
    else c :: dropTrailingCommas close none cs
  | some buf, c :: cs =>
    if isJsSpace c then dropTrailingCommas close (some (c :: buf)) cs
    else if c == close then close :: dropTrailingCommas close none cs
    else if c == Char.ofNat 44 then
      (Char.ofNat 44 :: buf.reverse) ++ dropTrailingCommas close (some []) cs
    else (Char.ofNat 44 :: buf.reverse) ++ c :: dropTrailingCommas close none cs

/-- Lines 224 to 242 of `convertToFlow`: extract the candidate from the producer's text
and parse it, with one retry after removing trailing commas. -/
def parseCandidate (rt : Runtime) (text : JVal) : Except Thrown JVal := do
  let raw ← trimText text
  match matchBraces raw with
  | none => throw (.aiEngineError "AI ما رجع JSON صحيح" "INVALID_RESPONSE" (.str raw))
  | some jsonMatch =>
    match rt.jsonParse jsonMatch with
    | some flowJson => pure flowJson
    | none =>
      match rt.jsonParse ⟨dropTrailingCommas (Char.ofNat 93) none
          (dropTrailingCommas (Char.ofNat 125) none jsonMatch.data)⟩ with
      | some flowJson => pure flowJson
      | none => throw (.aiEngineError "JSON parsing failed" "PARSE_ERROR" (.str raw))

/-- The numbered list of errors in the repair request. -/
def numberedErrors (errors : List JVal) : String :=
  joinWith "\n" (errors.enum.map (fun p => toString (p.1 + 1) ++ ". " ++ p.2.toStr))

/-- The call to `callAI` that `retryWithErrors` issues. -/
def retryCall (rt : Runtime) (originalMsg failedJson : JVal) (errors : List JVal)
    (catalog : List JVal) : AICall :=
  { systemPrompt := SYSTEM_PROMPT ++ "\n\n## PIECES_CATALOG:\n"
      ++ rt.jsonStringifyIndented (.arr catalog),
    messages := [.obj [
      ("role", .str "user"),
      ("content", .str ("صلح الأخطاء التالية في الـ JSON ورجع JSON صحيح فقط:\n\nالأخطاء:\n"
        ++ numberedErrors errors ++ "\n\nJSON الأصلي:\n"
        ++ rt.jsonStringifyIndented failedJson ++ "\n\nالطلب: " ++ originalMsg.toStr))]],
    temperature := 0 }

/-- The function `retryWithErrors`. -/
def retryWithErrors (rt : Runtime) (producer : Producer) (originalMsg failedJson : JVal)
    (errors : List JVal) (catalog : List JVal) : Run AICall ConvertResult := do
  let result ← Run.call producer (retryCall rt originalMsg failedJson errors catalog)
  let raw ← Run.lift (trimText result.text)
  match matchBraces raw with
  | none => Run.lift (.error (.aiEngineError "فشلت إعادة المحاولة" "RETRY_FAILED" result.text))
  | some m =>
    match rt.jsonParse m with
    | none => Run.lift (.error (.raised "SyntaxError" "JSON.parse failed" (.str m)))
    | some flow =>
      pure {
        success := true,
        flow := flow,
        retried := true,
        warnings := [.str "تم إعادة التوليد بعد تصحيح أخطاء"],
        tokensUsed := result.usage,
        provider := none }

/-- The first call to `callAI` that `convertToFlow` issues (default temperature). -/
def initialCall (rt : Runtime) (userMessage : JVal) (catalog : List JVal)
    (conversationHistory : List JVal) : AICall :=
  { systemPrompt := SYSTEM_PROMPT ++ "\n\n## PIECES_CATALOG (" ++ toString catalog.length
      ++ " total, showing top " ++ toString (catalog.take 50).length ++ "):\n"
      ++ rt.jsonStringifyIndented (.arr (catalog.take 50)),
    messages := conversationHistory ++ [.obj [("role", .str "user"), ("content", userMessage)]],
    temperature := 1 / 10 }

/-- The function `convertToFlow`. `providerName` is the outcome of
`getActiveProvider().name`, which reads the process environment. -/
def convertToFlow (rt : Runtime) (producer : Producer) (providerName : Except Thrown JVal)
    (userMessage : JVal) (piecesRegistry : Registry) (conversationHistory : List JVal) :
    Run AICall ConvertResult := do
  let catalog ← Run.lift piecesRegistry.getCompactListForAI
  let result ← Run.tryCatch
    (Run.call producer (initialCall rt userMessage catalog conversationHistory))
    (fun err => Run.lift (.error
      (.aiEngineError ("AI call failed: " ++ err.message) "AI_CALL_FAILED" (.str err.message))))
  let flowJson ← Run.lift (parseCandidate rt result.text)
  let validation ← Run.lift (validateFlowOutput flowJson (some piecesRegistry))
  if !validation.valid && decide (validation.errors.length > 0) && !validation.isUserError then
    retryWithErrors rt producer userMessage flowJson validation.errors catalog
  else
    let provider ← Run.lift providerName
    pure {
      success := true,
      flow := flowJson,
      retried := false,
      warnings := validation.warnings,
      tokensUsed := result.usage,
      provider := some provider }

/-! ## Definitions used to state the claims -/

/-- The structural shape in the words of the specification, for a given list of action
variants. -/
def SchemaShape (actionTypes : List String) (flow : JVal) : Prop :=
  (∃ kvs, flow = .obj kvs) ∧
  (∃ s, flow.get "displayName" = .str s ∧ ∃ c ∈ s.data, isJsSpace c = false) ∧
  (∃ kvs, flow.get "trigger" = .obj kvs ∧
    (∃ t ∈ ["SCHEDULE", "PIECE_TRIGGER", "WEBHOOK"], (flow.get "trigger").get "type" = .str t) ∧
    (∃ s, (flow.get "trigger").get "displayName" = .str s ∧ s ≠ "")) ∧
  (∃ xs, flow.get "actions" = .arr xs ∧ 1 ≤ xs.length ∧
    ∀ a ∈ xs, (∃ kvs, a = .obj kvs) ∧ (∃ s, a.get "displayName" = .str s ∧ s ≠ "") ∧
      (∃ t ∈ actionTypes, a.get "type" = .str t))

/-- A flow whose only action is of type `LOOP_ON_ITEMS`. -/
def loopFlow : JVal :=
  .obj [
    ("displayName", .str "loop"),
    ("trigger", .obj [("type", .str "WEBHOOK"), ("displayName", .str "hook")]),
    ("actions", .arr [.obj [("type", .str "LOOP_ON_ITEMS"), ("displayName", .str "each")]])]

/-- The catalog, when there is one, returns a result when asked to validate the piece
`p` with the trigger or action `n`. -/
def RegistryReturnsOn (reg : Option Registry) (p n : JVal) : Prop :=
  ∀ g, reg = some g → ∃ chk, g.validate p n = .ok chk

/-- The catalog's `validate` operation returns a result on the identifiers of the flow:
those of its trigger and those of each of its top-level actions. -/
def RegistryAnswers (reg : Option Registry) (flow : JVal) : Prop :=
  RegistryReturnsOn reg ((flow.get "trigger").get "pieceName")
      ((flow.get "trigger").get "triggerName") ∧
    ∀ xs, flow.get "actions" = .arr xs →
      ∀ a ∈ xs, RegistryReturnsOn reg (a.get "pieceName") (a.get "actionName")

/-- The cron expression of a schedule trigger, when present, is a string. -/
def CronReadable (flow : JVal) : Prop :=
  (flow.get "trigger").get "type" = .str "SCHEDULE" →
    (getOpt ((flow.get "trigger").get "input") "cronExpression").truthy = true →
    ∃ s, getOpt ((flow.get "trigger").get "input") "cronExpression" = .str s

/-- The number of fields of a cron expression: trim, then split on white space. -/
def cronFieldCount (s : String) : Nat :=
  (splitWs false [] (jsTrim s).data).length

/-- A `PIECE` action without `pieceName`. -/
def actionWithoutPiece : JVal :=
  .obj [("type", .str "PIECE"), ("displayName", .str "send")]

/-- A structurally valid flow whose only action lacks `pieceName`. -/
def missingPieceFlow : JVal :=
  .obj [
    ("displayName", .str "mail"),
    ("trigger", .obj [("type", .str "WEBHOOK"), ("displayName", .str "hook")]),
    ("actions", .arr [actionWithoutPiece])]

/-- A `BRANCH` action with an empty condition list. -/
def branchWithoutConditions : JVal :=
  .obj [("type", .str "BRANCH"), ("displayName", .str "check"), ("conditions", .arr [])]

/-- A structurally valid flow whose only action is a branch without conditions. -/
def emptyBranchFlow : JVal :=
  .obj [
    ("displayName", .str "route"),
    ("trigger", .obj [("type", .str "WEBHOOK"), ("displayName", .str "hook")]),
    ("actions", .arr [branchWithoutConditions])]

/-- A `PIECE` action with both identifiers. -/
def sendMail : JVal :=
  .obj [("type", .str "PIECE"), ("displayName", .str "send"),
    ("pieceName", .str "@activepieces/piece-gmail"), ("actionName", .str "send-email")]

/-- A schedule flow whose cron expression has three fields. -/
def shortCronFlow : JVal :=
  .obj [
    ("displayName", .str "daily"),
    ("trigger", .obj [("type", .str "SCHEDULE"), ("displayName", .str "every day"),
      ("pieceName", .str "@activepieces/piece-schedule"),
      ("input", .obj [("cronExpression", .str "0 8 *")])]),
    ("actions", .arr [sendMail])]

/-- A catalog that knows every identifier. -/
def knowsAll : Registry :=
  { validate := fun _ _ => .ok { valid := true, error := .undefined },
    getCompactListForAI := .ok [] }

/-- A catalog that knows no identifier. -/
def knowsNothing : Registry :=
  { validate := fun _ _ => .ok { valid := false, error := .str "unknown" },
    getCompactListForAI := .ok [] }

/-- A webhook flow with one `PIECE` action. -/
def hookMailFlow : JVal :=
  .obj [
    ("displayName", .str "mail"),
    ("trigger", .obj [("type", .str "WEBHOOK"), ("displayName", .str "hook")]),
    ("actions", .arr [sendMail])]

/-- An engine on which every call succeeds and returns the flow `f1`. -/
def acceptingEngine : Engine :=
  fun _ _ => .ok (.obj [("id", .str "f1")])

/-- A runtime whose unmodelled conversions are trivial. -/
def plainRuntime : Runtime :=
  { convertedGtZero := fun _ => false,
    jsonParse := fun _ => none,
    jsonStringify := fun _ => "",
    jsonStringifyIndented := fun _ => "",
    toLowerCase := fun s => s }

/-- A builder for the project `p1`. -/
def sampleBuilder : FlowBuilder :=
  { baseUrl := .str "http://ap", apiKey := .undefined, projectId := .str "p1" }

/-- Every call of `cs`, issued in order after the calls `tr`, succeeds on `engine`. -/
def AllOk (engine : Engine) : List ApiCall → List ApiCall → Prop
  | _, [] => True
  | tr, c :: cs => (∃ v, engine tr c = .ok v) ∧ AllOk engine (tr ++ [c]) cs

/-- Discipline of a computation started after the calls `tr` with outcome `out`: it
issues `POST` calls only; either all of them succeed, and then under `strict` the
computation returns, or all succeed but the last one, whose error is the outcome. -/
def FailFast (engine : Engine) (strict : Prop) (tr : List ApiCall) {α : Type}
    (out : List ApiCall × Except Thrown α) : Prop :=
  ∃ cs, out.1 = tr ++ cs ∧ (∀ c ∈ cs, c.method = "POST") ∧
    ((AllOk engine tr cs ∧ (strict → ∃ a, out.2 = .ok a)) ∨
     (∃ cs0 c e, cs = cs0 ++ [c] ∧ AllOk engine tr cs0 ∧ engine (tr ++ cs0) c = .error e
        ∧ out.2 = .error e))

/-- The child list of a branch is absent, or an array of objects. -/
def WellFormedChildren (v : JVal) : Prop :=
  v.truthy = false ∨ ∃ ys, v = .arr ys ∧ ∀ y ∈ ys, y.isNullish = false

/-- A flow in the sense of the data model: a value with a trigger and an array of
actions, the children of every branch being arrays of actions too. -/
def WellFormedFlow (flow : JVal) : Prop :=
  flow.isNullish = false ∧ (flow.get "trigger").isNullish = false ∧
    ∃ xs, flow.get "actions" = .arr xs ∧
      ∀ a ∈ xs, a.isNullish = false ∧
        ((a.get "type").isStr "BRANCH" = true →
          WellFormedChildren (a.get "onSuccessActions") ∧
          WellFormedChildren (a.get "onFailureActions"))

/-- An engine that creates the shell and rejects every later call, the cleanup
included. -/
def rejectingEngine : Engine :=
  fun tr _ =>
    if tr.isEmpty then .ok (.obj [("id", .str "f1")])
    else .error (.raised "FlowBuilderError" "Activepieces API Error: 500" (.str "/api/v1/flows/f1"))

/-- A structurally valid flow that also carries an `error` field. -/
def declinedFlow : JVal :=
  .obj [
    ("displayName", .str "mail"),
    ("trigger", .obj [("type", .str "WEBHOOK"), ("displayName", .str "hook")]),
    ("actions", .arr [sendMail]),
    ("error", .str "not possible")]

/-- The refusal the system prompt asks the producer for: an object with the single
field `error`. -/
def refusal : JVal :=
  .obj [("error", .str "السبب")]

/-- The text of the refusal. -/
def refusalText : String :=
  "\x7b\"error\": \"السبب\"\x7d"

/-- A runtime whose `JSON.parse` reads the refusal text as `parsed`. -/
def refusalRuntime (parsed : JVal) : Runtime :=
  { convertedGtZero := fun _ => false,
    jsonParse := fun s => if s == refusalText then some parsed else none,
    jsonStringify := fun _ => "",
    jsonStringifyIndented := fun _ => "",
    toLowerCase := fun s => s }

/-- A producer that always answers with the refusal text. -/
def refusingProducer : Producer :=
  fun _ _ => .ok { text := .str refusalText, usage := .null }

/-- The string begins with `*/N`, where `N` is a decimal numeral (the whole run of digits
there) whose value is below `bound`. -/
def BeginsWithStepBelow (bound : Nat) (cron : String) : Prop :=
  ∃ ds rest : List Char,
    cron.data = Char.ofNat 42 :: Char.ofNat 47 :: (ds ++ rest) ∧ ds ≠ [] ∧
    (∀ c ∈ ds, c.isDigit = true) ∧ (∀ c ∈ rest.head?, c.isDigit = false) ∧
    Nat.ofDigits 10 (ds.reverse.map (fun c => c.toNat - 48)) < bound

/-- The value has a method `includes` or is missing: it is `undefined`, `null`, a string
or an array. -/
def includesReadable : JVal → Bool
  | .undefined => true
  | .null => true
  | .str _ => true
  | .arr _ => true
  | _ => false

/-- The action is an object or another non-null value whose `pieceName`, when present,
is a string or an array. -/
def PieceNameReadable (a : JVal) : Prop :=
  a.isNullish = false ∧ includesReadable (a.get "pieceName") = true

/-- The cron expression that `safeguardFlow` reads on a schedule trigger is a string (the
empty string when it is missing). -/
def ScheduleReadable (flow : JVal) : Prop :=
  (flow.get "trigger").get "type" = .str "SCHEDULE" →
    ∃ s, orElse (getOpt ((flow.get "trigger").get "input") "cronExpression") (.str "") = .str s

/-- A schedule flow with one action and the given cron expression. -/
def scheduleFlow (cron : JVal) : JVal :=
  .obj [
    ("displayName", .str "report"),
    ("trigger", .obj [("type", .str "SCHEDULE"), ("displayName", .str "timer"),
      ("pieceName", .str "@activepieces/piece-schedule"),
      ("input", .obj [("cronExpression", cron)])]),
    ("actions", .arr [sendMail])]

/-- A webhook flow with the given actions. -/
def hookFlow (actions : List JVal) : JVal :=
  .obj [
    ("displayName", .str "intake"),
    ("trigger", .obj [("type", .str "WEBHOOK"), ("displayName", .str "hook")]),
    ("actions", .arr actions)]

/-- A `PIECE` action whose `pieceName` is a number. -/
def numberedPiece : JVal :=
  .obj [("type", .str "PIECE"), ("displayName", .str "send"),
    ("pieceName", .num 5), ("actionName", .str "send-email")]

/-- A structurally valid webhook flow with exactly 20 top-level actions. -/
def twentyStepFlow : JVal :=
  .obj [
    ("displayName", .str "intake"),
    ("trigger", .obj [("type", .str "WEBHOOK"), ("displayName", .str "hook")]),
    ("actions", .arr (List.replicate 20 sendMail))]

/-- Every string among `ws` begins with one of the characters `cs`. -/
def HeadsIn (cs : List Char) (ws : List JVal) : Prop :=
  ∀ w ∈ ws, ∃ t c, w = .str t ∧ t.data.head? = some c ∧ c ∈ cs

/-- A runtime whose `JSON.parse` reads `text` as `parsed`. -/
def answeringRuntime (text : String) (parsed : JVal) : Runtime :=
  { convertedGtZero := fun _ => false,
    jsonParse := fun s => if s == text then some parsed else none,
    jsonStringify := fun _ => "",
    jsonStringifyIndented := fun _ => "",
    toLowerCase := fun s => s }

/-- A producer that answers every request with `text`. -/
def constantProducer (text : String) : Producer :=
  fun _ _ => .ok { text := .str text, usage := .null }

/-- The JSON text of `missingPieceFlow`. -/
def missingPieceText : String :=
  "\x7b\"displayName\": \"mail\", \"trigger\": \x7b\"type\": \"WEBHOOK\", \"displayName\": \"hook\"\x7d, \"actions\": [\x7b\"type\": \"PIECE\", \"displayName\": \"send\"\x7d]\x7d"

/-- The JSON text of `declinedFlow`. -/
def declinedText : String :=
  "\x7b\"displayName\": \"mail\", \"trigger\": \x7b\"type\": \"WEBHOOK\", \"displayName\": \"hook\"\x7d, \"actions\": [\x7b\"type\": \"PIECE\", \"displayName\": \"send\", \"pieceName\": \"@activepieces/piece-gmail\", \"actionName\": \"send-email\"\x7d], \"error\": \"not possible\"\x7d"

/-- The children of a branch that the builder visits: the elements of the array, none
when the list is absent. -/
def childrenOf : JVal → List JVal
  | .arr ys => ys
  | _ => []

/-- A schedule trigger with a cron expression and no timezone. -/
def nightlyTrigger : JVal :=
  .obj [("type", .str "SCHEDULE"), ("displayName", .str "nightly"),
    ("input", .obj [("cronExpression", .str "0 2 * * *")])]

/-- The `request` object of a call. -/
def requestOf (c : ApiCall) : JVal :=
  c.body.get "request"

/-- The call `c` is the request that appends the top-level action `a` under the name
`stepName` after `parent`: the branch-node request for a `BRANCH`, the plain `ADD_ACTION`
request with the action's settings otherwise. -/
def IsTopLevelAppend (flowId : JVal) (parent stepName : String) (a : JVal) (c : ApiCall) :
    Prop :=
  ((a.get "type").isStr "BRANCH" = true ∧ c = addBranchCall flowId parent stepName a) ∨
  ((a.get "type").isStr "BRANCH" = false ∧
    ∃ s, buildActionSettings a = .ok s ∧ c = addActionCall flowId parent "AFTER" none stepName a s)

/-- A branch with two children on its true side and one on its false side. -/
def mailBranch : JVal :=
  .obj [("type", .str "BRANCH"), ("displayName", .str "check"),
    ("conditions", .arr [.arr [.obj [("firstValue", .str "a"),
      ("operator", .str "TEXT_CONTAINS"), ("secondValue", .str "b")]]]),
    ("onSuccessActions", .arr [sendMail, sendMail]),
    ("onFailureActions", .arr [sendMail])]

/-- A webhook flow whose actions are a branch followed by a `PIECE` action. -/
def branchThenMailFlow : JVal :=
  .obj [
    ("displayName", .str "triage"),
    ("trigger", .obj [("type", .str "WEBHOOK"), ("displayName", .str "hook")]),
    ("actions", .arr [mailBranch, sendMail])]

/-- The value is a string or absent. -/
def StringOrAbsent (v : JVal) : Prop :=
  v = .undefined ∨ ∃ s, v = .str s

/-- A webhook flow that posts to an HTTP piece. -/
def hookToHttpFlow : JVal :=
  .obj [
    ("displayName", .str "relay"),
    ("trigger", .obj [("type", .str "WEBHOOK"), ("displayName", .str "hook")]),
    ("actions", .arr [.obj [("type", .str "PIECE"), ("displayName", .str "post"),
      ("pieceName", .str "@activepieces/piece-http"), ("actionName", .str "send_request")]])]

/-- A `CODE` action whose `input.code` is the empty string. -/
def emptyCodeAction : JVal :=
  .obj [("type", .str "CODE"), ("displayName", .str "run"), ("input", .obj [("code", .str "")])]

/-- A `CODE` action without any source. -/
def sourcelessCodeAction : JVal :=
  .obj [("type", .str "CODE"), ("displayName", .str "run")]

/-- A branch with one child on its true side. -/
def innerBranch : JVal :=
  .obj [("type", .str "BRANCH"), ("displayName", .str "inner"),
    ("conditions", .arr [.arr [.obj [("firstValue", .str "x"),
      ("operator", .str "TEXT_CONTAINS"), ("secondValue", .str "y")]]]),
    ("onSuccessActions", .arr [sendMail])]

/-- A branch whose true side holds the branch `innerBranch`. -/
def outerBranch : JVal :=
  .obj [("type", .str "BRANCH"), ("displayName", .str "outer"),
    ("conditions", .arr [.arr [.obj [("firstValue", .str "a"),
      ("operator", .str "TEXT_CONTAINS"), ("secondValue", .str "b")]]]),
    ("onSuccessActions", .arr [innerBranch])]

/-- A webhook flow whose only action is `outerBranch`. -/
def nestedBranchFlow : JVal :=
  .obj [
    ("displayName", .str "nested"),
    ("trigger", .obj [("type", .str "WEBHOOK"), ("displayName", .str "hook")]),
    ("actions", .arr [outerBranch])]

/-- The compact entry number `i` of a catalog. -/
def catalogEntry (i : Nat) : JVal :=
  .obj [("name", .str ("@activepieces/piece-" ++ toString i)),
    ("displayName", .str ("Piece " ++ toString i)), ("description", .str ""),
    ("triggers", .arr []), ("actions", .arr [])]

/-- A catalog whose compact list has `n` entries and that knows every identifier. -/
def wideRegistry (n : Nat) : Registry :=
  { validate := fun _ _ => .ok { valid := true, error := .undefined },
    getCompactListForAI := .ok ((List.range n).map catalogEntry) }

/-- A runtime whose `JSON.parse` reads `text` as `parsed` and whose indented
`JSON.stringify` is `stringify`. -/
def promptRuntime (text : String) (parsed : JVal) (stringify : JVal → String) : Runtime :=
  { convertedGtZero := fun _ => false,
    jsonParse := fun s => if s == text then some parsed else none,
    jsonStringify := fun _ => "",
    jsonStringifyIndented := stringify,
    toLowerCase := fun s => s }

/-- A webhook flow whose only action is `a`. -/
def singleActionFlow (a : JVal) : JVal :=
  .obj [
    ("displayName", .str "job"),
    ("trigger", .obj [("type", .str "WEBHOOK"), ("displayName", .str "hook")]),
    ("actions", .arr [a])]

/-- The two actions are equal, or they are `BRANCH` objects that agree on every property
other than `onSuccessActions` and `onFailureActions`. -/
def SameButChildren (a b : JVal) : Prop :=
  a = b ∨ ∃ kvs1 kvs2, a = .obj kvs1 ∧ b = .obj kvs2 ∧ a.get "type" = .str "BRANCH" ∧
    ∀ k, k ≠ "onSuccessActions" → k ≠ "onFailureActions" → kvs1.lookup k = kvs2.lookup k

/-- The two flows are objects that agree on every property other than `actions`, and
their action lists agree element by element up to the children of `BRANCH` actions. -/
def DifferOnlyInBranchChildren (f1 f2 : JVal) : Prop :=
  ∃ kvs1 kvs2 xs ys, f1 = .obj kvs1 ∧ f2 = .obj kvs2 ∧
    (∀ k, k ≠ "actions" → kvs1.lookup k = kvs2.lookup k) ∧
    f1.get "actions" = .arr xs ∧ f2.get "actions" = .arr ys ∧
    List.Forall₂ SameButChildren xs ys

/-- A branch with a condition and the given children. -/
def guardedBranch (onSuccess onFailure : JVal) : JVal :=
  .obj [("type", .str "BRANCH"), ("displayName", .str "check"),
    ("conditions", .arr [.arr [.obj [("firstValue", .str "a"),
      ("operator", .str "TEXT_CONTAINS"), ("secondValue", .str "b")]]]),
    ("onSuccessActions", onSuccess), ("onFailureActions", onFailure)]

/-- Children that the top-level checks would report: a `PIECE` action without
`pieceName`, a branch without conditions, an action of the HTTP piece, and 31 more
actions. -/
def troublesomeChildren : JVal :=
  .arr ([actionWithoutPiece, branchWithoutConditions,
    .obj [("type", .str "PIECE"), ("displayName", .str "post"),
      ("pieceName", .str "@activepieces/piece-http"), ("actionName", .str "send_request")]]
    ++ List.replicate 31 sendMail)

/-- The number of children that `addBranch` visits on one side of a branch. -/
def sideCount (rt : Runtime) (children : JVal) : Nat :=
  if children.truthy && gtZero rt (children.get "length") then
    match iterate children with
    | .ok ys => ys.length
    | .error _ => 0
  else 0

/-- The names `stepName_side_1`, ..., `stepName_side_n`. -/
def sideNames (stepName side : String) (n : Nat) : List String :=
  (List.range n).map (fun j => stepName ++ "_" ++ side ++ "_" ++ toString (j + 1))

/-- The step names of the top-level action number `i`: `step_i`, then for a branch the
names of its true-children and of its false-children. -/
def actionNames (rt : Runtime) (i : Nat) (a : JVal) : List String :=
  ("step_" ++ toString i) ::
    (if (a.get "type").isStr "BRANCH" then
      sideNames ("step_" ++ toString i) "true" (sideCount rt (a.get "onSuccessActions")) ++
      sideNames ("step_" ++ toString i) "false" (sideCount rt (a.get "onFailureActions"))
     else [])

/-- The step names of a list of top-level actions numbered from `k` on. -/
def actionsNames (rt : Runtime) : Nat → List JVal → List String
  | _, [] => []
  | k, a :: rest => actionNames rt k a ++ actionsNames rt (k + 1) rest

/-- The step names of a flow, in the order of a complete build. -/
def stepNames (rt : Runtime) (flow : JVal) : List String :=
  match iterate (flow.get "actions") with
  | .ok xs => actionsNames rt 1 xs
  | .error _ => []

/-- The name carried by an `ADD_ACTION` request, none for any other call. -/
def appendName (c : ApiCall) : Option JVal :=
  if (c.body.get "type").isStr "ADD_ACTION" then some (((requestOf c).get "action").get "name")
  else none

/-- The names carried by the `ADD_ACTION` requests among the calls, in order. -/
def appendNames (cs : List ApiCall) : List JVal :=
  cs.filterMap appendName

/-- The string is `step_i` followed by nothing or by a suffix that does not begin with a
digit. -/
def NameOfStep (i : Nat) (s : String) : Prop :=
  ∃ r : List Char, s.data = "step_".data ++ (toString i).data ++ r ∧
    ∀ c ∈ r.head?, c.isDigit = false

/-- A computation started after the calls `tr` with outcome `out` issues `ADD_ACTION`
requests whose names are an initial part of `names`, and all of `names` when it
returns. -/
def NamesWithin (names : List JVal) (tr : List ApiCall) {α : Type}
    (out : List ApiCall × Except Thrown α) : Prop :=
  ∃ cs, out.1 = tr ++ cs ∧ appendNames cs <+: names ∧
    ∀ a, out.2 = .ok a → appendNames cs = names

/-- A flow with a trigger and no `actions` field. -/
def actionlessFlow : JVal :=
  .obj [
    ("displayName", .str "mail"),
    ("trigger", .obj [("type", .str "WEBHOOK"), ("displayName", .str "hook")])]

/-! ## Lemmas and claims -/

theorem validateSchemaAction_nil (i : Nat) (a : JVal) :
    validateSchemaAction i a = [] ↔
      (a.truthy = true ∧ a.typeOf = JType.object ∧ includes VALID_ACTION_TYPES (a.get "type") = true
        ∧ (a.get "displayName").truthy = true ∧ (a.get "displayName").typeOf = JType.string) := by
  unfold validateSchemaAction
  by_cases h1 : a.truthy = true <;> by_cases h2 : a.typeOf = JType.object <;>
    by_cases h3 : includes VALID_ACTION_TYPES (a.get "type") = true <;>
    by_cases h4 : (a.get "displayName").truthy = true <;>
    by_cases h5 : (a.get "displayName").typeOf = JType.string <;>
    simp [h1, h2, h3, h4, h5]

theorem validateSchemaActions_nil (xs : List JVal) : ∀ i : Nat,
    validateSchemaActions i xs = [] ↔ ∀ a ∈ xs, validateSchemaAction 0 a = [] := by
  induction xs with
  | nil => intro i; simp [validateSchemaActions]
  | cons x xs ih =>
    intro i
    simp only [validateSchemaActions, List.append_eq_nil, ih, List.mem_cons, forall_eq_or_imp]
    rw [validateSchemaAction_nil, validateSchemaAction_nil]

theorem includes_iff (l : List String) (v : JVal) :
    includes l v = true ↔ ∃ t ∈ l, v = .str t := by
  cases v <;> simp [includes]

theorem nonEmptyString_iff (v : JVal) :
    (v.truthy = true ∧ v.typeOf = JType.string) ↔ ∃ s, v = .str s ∧ s ≠ "" := by
  cases v with
  | str s =>
    rcases s with ⟨l⟩
    cases l with
    | nil => simp [truthy, typeOf, String.ext_iff]
    | cons c cs =>
      simp only [truthy, typeOf, List.isEmpty_cons, Bool.not_false, and_self, true_iff]
      exact ⟨⟨c :: cs⟩, rfl, by simp [String.ext_iff]⟩
  | _ => simp [truthy, typeOf]

theorem trimIsEmpty_false_iff (s : String) :
    trimIsEmpty (.str s) = false ↔ ∃ c ∈ s.data, isJsSpace c = false := by
  simp only [trimIsEmpty, jsTrim]
  rw [Bool.eq_false_iff]
  simp only [ne_eq, List.isEmpty_iff, List.reverse_eq_nil_iff, List.dropWhile_eq_nil_iff,
    List.mem_reverse]
  constructor
  · intro h
    by_contra hc
    push_neg at hc
    apply h
    have : s.data.dropWhile isJsSpace = [] := List.dropWhile_eq_nil_iff.mpr (by simpa using hc)
    simp [this]
  · rintro ⟨c, hc, hsp⟩ h
    have hd : s.data.dropWhile isJsSpace = [] := by
      cases hdw : s.data.dropWhile isJsSpace with
      | nil => rfl
      | cons d ds =>
        have h1 := h d (by simp [hdw])
        have h2 := List.head_dropWhile_not isJsSpace s.data (by simp [hdw])
        simp [hdw] at h2
        simp [h2] at h1
    have := List.dropWhile_eq_nil_iff.mp hd c hc
    simp [hsp] at this

theorem object_cases (v : JVal) :
    (v.truthy = true ∧ v.typeOf = JType.object) ↔ (∃ kvs, v = .obj kvs) ∨ (∃ xs, v = .arr xs) := by
  cases v <;> simp [truthy, typeOf]

theorem validateSchema_nil_iff (flow : JVal) :
    validateSchema flow = [] ↔
      (flow.truthy = true ∧ flow.typeOf = JType.object) ∧
      ((flow.get "displayName").truthy = true ∧ (flow.get "displayName").typeOf = JType.string
        ∧ trimIsEmpty (flow.get "displayName") = false) ∧
      ((flow.get "trigger").truthy = true ∧ (flow.get "trigger").typeOf = JType.object
        ∧ includes VALID_TRIGGER_TYPES ((flow.get "trigger").get "type") = true
        ∧ ((flow.get "trigger").get "displayName").truthy = true
        ∧ ((flow.get "trigger").get "displayName").typeOf = JType.string) ∧
      (∃ x xs, flow.get "actions" = .arr (x :: xs) ∧
        ∀ a ∈ x :: xs, validateSchemaAction 0 a = []) := by
  unfold validateSchema
  by_cases h0 : flow.truthy = true ∧ flow.typeOf = JType.object
  · obtain ⟨h0a, h0b⟩ := h0
    simp only [h0a, h0b, Bool.not_true, bne_self_eq_false, Bool.or_self, Bool.false_eq_true,
      ↓reduceIte, List.append_eq_nil, and_self, true_and]
    rw [and_assoc]
    refine and_congr ?_ (and_congr ?_ ?_)
    · by_cases h1 : (flow.get "displayName").truthy = true <;>
        by_cases h2 : (flow.get "displayName").typeOf = JType.string <;>
        by_cases h3 : trimIsEmpty (flow.get "displayName") = true <;>
        simp [h1, h2, h3]
    · by_cases h1 : (flow.get "trigger").truthy = true <;>
        by_cases h2 : (flow.get "trigger").typeOf = JType.object <;>
        by_cases h3 : includes VALID_TRIGGER_TYPES ((flow.get "trigger").get "type") = true <;>
        by_cases h4 : ((flow.get "trigger").get "displayName").truthy = true <;>
        by_cases h5 : ((flow.get "trigger").get "displayName").typeOf = JType.string <;>
        simp [h1, h2, h3, h4, h5]
    · cases hacts : flow.get "actions" with
      | arr ys =>
        cases ys with
        | nil => simp
        | cons y ys =>
          simp only [validateSchemaActions_nil, arr.injEq, List.cons.injEq]
          constructor
          · intro h; exact ⟨y, ys, ⟨rfl, rfl⟩, h⟩
          · rintro ⟨x, xs, ⟨rfl, rfl⟩, h⟩; exact h
      | _ => simp
  · have h0c : (!flow.truthy || flow.typeOf != JType.object) = true := by
      by_cases ha : flow.truthy = true <;> by_cases hb : flow.typeOf = JType.object <;>
        simp_all
    simp only [h0c, ↓reduceIte]
    simp [h0]

theorem schemaShape_of_action (a : JVal) :
    validateSchemaAction 0 a = [] ↔
      ((∃ kvs, a = .obj kvs) ∧ (∃ s, a.get "displayName" = .str s ∧ s ≠ "") ∧
        (∃ t ∈ VALID_ACTION_TYPES, a.get "type" = .str t)) := by
  rw [validateSchemaAction_nil, ← nonEmptyString_iff, ← includes_iff]
  constructor
  · rintro ⟨h1, h2, h3, h4, h5⟩
    refine ⟨?_, ⟨h4, h5⟩, h3⟩
    rcases (object_cases a).mp ⟨h1, h2⟩ with h | ⟨xs, rfl⟩
    · exact h
    · simp [JVal.get, includes] at h3
  · rintro ⟨⟨kvs, rfl⟩, ⟨h4, h5⟩, h3⟩
    exact ⟨rfl, rfl, h3, h4, h5⟩

/-- **C4 (amended).** `validateSchema` returns no error exactly for the candidates of the
structural shape whose action types are `PIECE`, `BRANCH`, `CODE` or `LOOP_ON_ITEMS`. -/
theorem validateSchema_iff_shape (flow : JVal) :
    validateSchema flow = [] ↔
      SchemaShape ["PIECE", "BRANCH", "CODE", "LOOP_ON_ITEMS"] flow := by
  rw [validateSchema_nil_iff]
  unfold SchemaShape
  constructor
  · rintro ⟨h0, ⟨h1, h2, h3⟩, ⟨h4, h5, h6, h7, h8⟩, ⟨x, xs, hx, hall⟩⟩
    have hobj : ∃ kvs, flow = .obj kvs := by
      rcases (object_cases flow).mp h0 with h | ⟨ys, rfl⟩
      · exact h
      · simp [JVal.get, truthy] at h1
    obtain ⟨s, hs, hne⟩ := (nonEmptyString_iff _).mp ⟨h1, h2⟩
    refine ⟨hobj, ⟨s, hs, ?_⟩, ?_, ⟨x :: xs, hx, by simp, ?_⟩⟩
    · rw [hs] at h3; exact (trimIsEmpty_false_iff s).mp h3
    · have htr : ∃ kvs, flow.get "trigger" = .obj kvs := by
        rcases (object_cases _).mp ⟨h4, h5⟩ with h | ⟨ys, hys⟩
        · exact h
        · rw [hys] at h6; simp [JVal.get, includes] at h6
      obtain ⟨kvs, hk⟩ := htr
      exact ⟨kvs, hk, (includes_iff _ _).mp h6, (nonEmptyString_iff _).mp ⟨h7, h8⟩⟩
    · intro a ha
      exact (schemaShape_of_action a).mp (hall a ha)
  · rintro ⟨⟨kvs, rfl⟩, ⟨s, hs, hc⟩, ⟨tk, ht, hty, hdn⟩, ⟨xs, hx, hlen, hall⟩⟩
    refine ⟨⟨rfl, rfl⟩, ?_, ?_, ?_⟩
    · rw [hs]
      refine ⟨?_, rfl, (trimIsEmpty_false_iff s).mpr hc⟩
      obtain ⟨c, hc1, _⟩ := hc
      cases hd : s.data with
      | nil => rw [hd] at hc1; simp at hc1
      | cons d ds => simp [truthy, hd]
    · obtain ⟨h7, h8⟩ := (nonEmptyString_iff _).mpr hdn
      refine ⟨?_, ?_, (includes_iff _ _).mpr hty, h7, h8⟩ <;> rw [ht] <;> rfl
    · cases xs with
      | nil => simp at hlen
      | cons y ys =>
        exact ⟨y, ys, hx, fun a ha => (schemaShape_of_action a).mpr (hall a ha)⟩

/-- **C4 (counterexample).** A flow whose action has type `LOOP_ON_ITEMS` passes
`validateSchema` although its action is none of `PIECE`, `CODE`, `BRANCH`. -/
theorem loop_on_items_passes_schema :
    validateSchema loopFlow = [] ∧ ¬ SchemaShape ["PIECE", "CODE", "BRANCH"] loopFlow := by
  refine ⟨rfl, ?_⟩
  rintro ⟨_, _, _, ⟨xs, hx, _, hall⟩⟩
  have hx2 : xs = [.obj [("type", .str "LOOP_ON_ITEMS"), ("displayName", .str "each")]] := by
    simp [loopFlow, JVal.get, List.lookup] at hx
    exact hx.symm
  subst hx2
  obtain ⟨_, _, ⟨t, ht, hty⟩⟩ := hall _ (List.mem_singleton.mpr rfl)
  simp [JVal.get, List.lookup] at hty
  subst hty
  simp at ht


@[simp] theorem except_ok_bind {ε α β : Type} (a : α) (f : α → Except ε β) :
    (Except.ok a >>= f) = f a := rfl

@[simp] theorem except_error_bind {ε α β : Type} (e : ε) (f : α → Except ε β) :
    (Except.error e >>= f) = Except.error e := rfl

@[simp] theorem except_pure {ε α : Type} (a : α) : (pure a : Except ε α) = Except.ok a := rfl

theorem except_bind_eq_ok {ε α β : Type} (m : Except ε α) (f : α → Except ε β) (b : β) :
    (m >>= f) = Except.ok b ↔ ∃ a, m = Except.ok a ∧ f a = Except.ok b := by
  cases m with
  | ok a => simp
  | error e => simp

theorem getProp_ok (v : JVal) (k : String) (h : v.isNullish = false) :
    getProp v k = Except.ok (v.get k) := by
  simp [getProp, h]

theorem getProp_eq_ok (v : JVal) (k : String) (w : JVal) :
    getProp v k = Except.ok w ↔ v.isNullish = false ∧ w = v.get k := by
  unfold getProp
  cases h : v.isNullish <;> simp [eq_comm]

theorem not_nullish_of_truthy (v : JVal) (h : v.truthy = true) : v.isNullish = false := by
  cases v <;> simp_all [truthy, isNullish]

/-- What the three tests of one loop iteration push for a `PIECE` action. -/
theorem checkAction_piece (reg : Option Registry) (i : Nat) (a : JVal) (f : Findings)
    (hty : a.get "type" = .str "PIECE") (h : checkAction reg i a = .ok f) :
    ((a.get "pieceName").truthy = false →
      f.errors = [.str ("Action " ++ toString (i + 1) ++ " (" ++ (a.get "displayName").toStr
        ++ ")" ++ ": يحتاج pieceName")]) ∧
    ((a.get "pieceName").truthy = true → (a.get "actionName").truthy = false →
      f.errors = [.str ("Action " ++ toString (i + 1) ++ " (" ++ (a.get "displayName").toStr
        ++ ")" ++ ": يحتاج actionName")]) ∧
    ((a.get "pieceName").truthy = true → (a.get "actionName").truthy = true →
      f.errors = []) := by
  unfold checkAction actionLabel at h
  rw [except_bind_eq_ok] at h
  obtain ⟨label, hl, h⟩ := h
  rw [except_bind_eq_ok] at hl
  obtain ⟨dn, hdn, hl⟩ := hl
  obtain ⟨hn, rfl⟩ := (getProp_eq_ok _ _ _).mp hdn
  simp only [except_pure, Except.ok.injEq] at hl
  subst hl
  rw [except_bind_eq_ok] at h
  obtain ⟨p, hp, h⟩ := h
  rw [except_bind_eq_ok] at h
  obtain ⟨b, hb, h⟩ := h
  rw [except_bind_eq_ok] at h
  obtain ⟨c, hc, h⟩ := h
  simp only [except_pure, Except.ok.injEq] at h
  subst h
  simp only [checkBranchAction, getProp_ok _ _ hn, hty, except_ok_bind, isStr] at hb
  simp only [checkCodeAction, getProp_ok _ _ hn, hty, except_ok_bind, isStr] at hc
  simp at hb hc
  subst hb hc
  simp only [checkPieceAction, getProp_ok _ _ hn, hty, except_ok_bind, isStr] at hp
  simp only [List.append_nil]
  refine ⟨?_, ?_, ?_⟩
  · intro h1
    simp [h1] at hp
    subst hp; rfl
  · intro h1 h2
    simp [h1, h2] at hp
    subst hp; rfl
  · intro h1 h2
    simp [h1, h2] at hp
    cases reg with
    | none => simp at hp; subst hp; rfl
    | some g =>
      simp only at hp
      rw [except_bind_eq_ok] at hp
      obtain ⟨chk, _, hp⟩ := hp
      by_cases hv : chk.valid = true <;> simp [hv] at hp <;> subst hp <;> rfl


/-- Structural validity makes every read of the semantic pass safe. -/
theorem schema_facts (flow : JVal) (hs : validateSchema flow = []) :
    flow.isNullish = false ∧ (flow.get "trigger").isNullish = false ∧
      ∃ x xs, flow.get "actions" = .arr (x :: xs) ∧ ∀ a ∈ x :: xs, a.isNullish = false := by
  obtain ⟨h0, _, h2, ⟨x, xs, hx, hall⟩⟩ := (validateSchema_nil_iff flow).mp hs
  refine ⟨not_nullish_of_truthy _ h0.1, not_nullish_of_truthy _ h2.1, x, xs, hx, ?_⟩
  intro a ha
  exact not_nullish_of_truthy _ ((validateSchemaAction_nil 0 a).mp (hall a ha)).1

theorem validateSchema_actions (flow : JVal) (hs : validateSchema flow = []) :
    ∃ xs, flow.get "actions" = .arr xs ∧ xs ≠ [] := by
  obtain ⟨_, _, x, xs, hx, _⟩ := schema_facts flow hs
  exact ⟨x :: xs, hx, by simp⟩

/-- The semantic pass of `validateFlowOutput`, reached when the structural pass is clean
and the candidate has no `error` field. -/
theorem validateFlowOutput_semantic (flow : JVal) (reg : Option Registry) (xs : List JVal)
    (hs : validateSchema flow = []) (he : (flow.get "error").truthy = false)
    (hx : flow.get "actions" = .arr xs) :
    validateFlowOutput flow reg =
      (checkTriggerPiece (flow.get "trigger") reg >>= fun f3 =>
       checkScheduleCron (flow.get "trigger") >>= fun f4 =>
       checkActions reg 0 xs >>= fun f5 =>
       Except.ok {
         valid := (f3.errors ++ f4.errors ++ f5.errors ++ (checkStepCount xs).errors).length == 0,
         errors := f3.errors ++ f4.errors ++ f5.errors ++ (checkStepCount xs).errors,
         warnings := f3.warnings ++ f4.warnings ++ f5.warnings ++ (checkStepCount xs).warnings,
         isUserError := false }) := by
  obtain ⟨h0, _, _⟩ := schema_facts flow hs
  unfold validateFlowOutput
  simp only [hs, List.length_nil, gt_iff_lt, lt_self_iff_false, ↓reduceIte, getProp_ok _ _ h0,
    except_ok_bind, he, Bool.false_eq_true, hx]
  rfl

theorem checkStepCount_errors (xs : List JVal) : (checkStepCount xs).errors = [] := by
  unfold checkStepCount
  split <;> rfl

theorem validateFlowOutput_eq_ok (flow : JVal) (reg : Option Registry) (xs : List JVal)
    (hs : validateSchema flow = []) (he : (flow.get "error").truthy = false)
    (hx : flow.get "actions" = .arr xs) (r : ValidationResult) :
    validateFlowOutput flow reg = .ok r ↔
      ∃ f3 f4 f5, checkTriggerPiece (flow.get "trigger") reg = .ok f3 ∧
        checkScheduleCron (flow.get "trigger") = .ok f4 ∧
        checkActions reg 0 xs = .ok f5 ∧
        r = { valid := (f3.errors ++ f4.errors ++ f5.errors).length == 0,
              errors := f3.errors ++ f4.errors ++ f5.errors,
              warnings := f3.warnings ++ f4.warnings ++ f5.warnings ++ (checkStepCount xs).warnings,
              isUserError := false } := by
  rw [validateFlowOutput_semantic flow reg xs hs he hx]
  simp only [checkStepCount_errors, List.append_nil]
  constructor
  · intro h
    rw [except_bind_eq_ok] at h
    obtain ⟨f3, h3, h⟩ := h
    rw [except_bind_eq_ok] at h
    obtain ⟨f4, h4, h⟩ := h
    rw [except_bind_eq_ok] at h
    obtain ⟨f5, h5, h⟩ := h
    exact ⟨f3, f4, f5, h3, h4, h5, (Except.ok.inj h).symm⟩
  · rintro ⟨f3, f4, f5, h3, h4, h5, rfl⟩
    rw [h3, h4, h5]
    rfl

/-- The loop over the actions splits around the iteration of index `k`. -/
theorem checkActions_split (reg : Option Registry) (xs : List JVal) :
    ∀ (i k : Nat) (a : JVal) (f : Findings), xs[k]? = some a →
      (checkActions reg i xs = .ok f ↔
        ∃ fb fk fa, checkActions reg i (xs.take k) = .ok fb ∧
          checkAction reg (i + k) a = .ok fk ∧
          checkActions reg (i + k + 1) (xs.drop (k + 1)) = .ok fa ∧
          f = ⟨fb.errors ++ fk.errors ++ fa.errors, fb.warnings ++ fk.warnings ++ fa.warnings⟩) := by
  induction xs with
  | nil => intro i k a f h; simp at h
  | cons x xs ih =>
    intro i k a f h
    cases k with
    | zero =>
      simp only [List.getElem?_cons_zero, Option.some.injEq] at h
      subst h
      simp only [checkActions, List.take_zero, add_zero, zero_add, List.drop_succ_cons,
        List.drop_zero]
      constructor
      · intro hh
        rw [except_bind_eq_ok] at hh
        obtain ⟨fk, hk, hh⟩ := hh
        rw [except_bind_eq_ok] at hh
        obtain ⟨fa, ha, hh⟩ := hh
        exact ⟨⟨[], []⟩, fk, fa, rfl, hk, ha, (Except.ok.inj hh).symm⟩
      · rintro ⟨fb, fk, fa, hb, hk, ha, rfl⟩
        rw [← Except.ok.inj hb, hk, ha]; rfl
    | succ k =>
      simp only [List.getElem?_cons_succ] at h
      simp only [checkActions, List.take_succ_cons, List.drop_succ_cons]
      constructor
      · intro hh
        rw [except_bind_eq_ok] at hh
        obtain ⟨f0, h0, hh⟩ := hh
        rw [except_bind_eq_ok] at hh
        obtain ⟨g, hg, hh⟩ := hh
        obtain ⟨fb, fk, fa, hb, hk, ha, rfl⟩ := (ih (i + 1) k a g h).mp hg
        refine ⟨⟨f0.errors ++ fb.errors, f0.warnings ++ fb.warnings⟩, fk, fa, ?_, ?_, ?_, ?_⟩
        · rw [h0, hb]; rfl
        · rw [show i + (k + 1) = i + 1 + k by omega]; exact hk
        · rw [show i + (k + 1) + 1 = i + 1 + k + 1 by omega]; exact ha
        · rw [← Except.ok.inj hh]; simp
      · rintro ⟨fb, fk, fa, hb, hk, ha, rfl⟩
        rw [except_bind_eq_ok] at hb
        obtain ⟨f0, h0, hb⟩ := hb
        rw [except_bind_eq_ok] at hb
        obtain ⟨fb0, hb0, hb⟩ := hb
        have hg := (ih (i + 1) k a ⟨fb0.errors ++ fk.errors ++ fa.errors,
          fb0.warnings ++ fk.warnings ++ fa.warnings⟩ h).mpr
          ⟨fb0, fk, fa, hb0, by rw [show i + 1 + k = i + (k + 1) by omega]; exact hk,
            by rw [show i + 1 + k + 1 = i + (k + 1) + 1 by omega]; exact ha, rfl⟩
        rw [h0, hg]
        rw [← Except.ok.inj hb]
        simp


theorem checkTriggerPiece_returns (t : JVal) (reg : Option Registry)
    (hn : t.isNullish = false)
    (hreg : RegistryReturnsOn reg (t.get "pieceName") (t.get "triggerName")) :
    ∃ f, checkTriggerPiece t reg = .ok f := by
  unfold checkTriggerPiece
  simp only [getProp_ok _ _ hn, except_ok_bind]
  split
  · split
    · exact ⟨_, rfl⟩
    · cases reg with
      | none => exact ⟨_, rfl⟩
      | some g =>
        obtain ⟨chk, hchk⟩ := hreg g rfl
        simp only [hchk, except_ok_bind]
        split <;> exact ⟨_, rfl⟩
  · exact ⟨_, rfl⟩

theorem checkScheduleCron_returns (t : JVal) (hn : t.isNullish = false)
    (hc : t.get "type" = .str "SCHEDULE" →
      (getOpt (t.get "input") "cronExpression").truthy = true →
      ∃ s, getOpt (t.get "input") "cronExpression" = .str s) :
    ∃ f, checkScheduleCron t = .ok f := by
  unfold checkScheduleCron
  simp only [getProp_ok _ _ hn, except_ok_bind]
  split
  · rename_i hty
    have hty2 : t.get "type" = .str "SCHEDULE" := by
      cases h : t.get "type" <;> simp_all [isStr]
    split
    · exact ⟨_, rfl⟩
    · rename_i hcr
      obtain ⟨s, hs⟩ := hc hty2 (by simpa using hcr)
      simp only [hs, isValidCron, except_ok_bind]
      split <;> exact ⟨_, rfl⟩
  · exact ⟨_, rfl⟩

theorem checkAction_returns (reg : Option Registry) (i : Nat) (a : JVal)
    (hn : a.isNullish = false)
    (hreg : RegistryReturnsOn reg (a.get "pieceName") (a.get "actionName")) :
    ∃ f, checkAction reg i a = .ok f := by
  have hp : ∀ l, ∃ p, checkPieceAction l a reg = .ok p := by
    intro l
    unfold checkPieceAction
    simp only [getProp_ok _ _ hn, except_ok_bind]
    split
    · split
      · exact ⟨_, rfl⟩
      · split
        · exact ⟨_, rfl⟩
        · cases reg with
          | none => exact ⟨_, rfl⟩
          | some g =>
            obtain ⟨chk, hchk⟩ := hreg g rfl
            simp only [hchk, except_ok_bind]
            split <;> exact ⟨_, rfl⟩
    · exact ⟨_, rfl⟩
  have hb : ∀ l, ∃ p, checkBranchAction l a = .ok p := by
    intro l
    unfold checkBranchAction
    simp only [getProp_ok _ _ hn, except_ok_bind]
    split
    · split <;> exact ⟨_, rfl⟩
    · exact ⟨_, rfl⟩
  have hc : ∀ l, ∃ p, checkCodeAction l a = .ok p := by
    intro l
    unfold checkCodeAction
    simp only [getProp_ok _ _ hn, except_ok_bind]
    split
    · split <;> exact ⟨_, rfl⟩
    · exact ⟨_, rfl⟩
  unfold checkAction actionLabel
  simp only [getProp_ok _ _ hn, except_ok_bind, except_pure]
  obtain ⟨p, hp⟩ := hp ("Action " ++ toString (i + 1) ++ " (" ++ (a.get "displayName").toStr ++ ")")
  obtain ⟨b, hb⟩ := hb ("Action " ++ toString (i + 1) ++ " (" ++ (a.get "displayName").toStr ++ ")")
  obtain ⟨c, hc⟩ := hc ("Action " ++ toString (i + 1) ++ " (" ++ (a.get "displayName").toStr ++ ")")
  rw [hp, hb, hc]
  exact ⟨_, rfl⟩

theorem checkActions_returns (reg : Option Registry) (xs : List JVal) :
    ∀ i : Nat, (∀ a ∈ xs, a.isNullish = false) →
      (∀ a ∈ xs, RegistryReturnsOn reg (a.get "pieceName") (a.get "actionName")) →
      ∃ f, checkActions reg i xs = .ok f := by
  induction xs with
  | nil => intro i _ _; exact ⟨_, rfl⟩
  | cons x xs ih =>
    intro i hall hreg
    obtain ⟨f, hf⟩ := checkAction_returns reg i x (hall x (List.mem_cons_self _ _))
      (hreg x (List.mem_cons_self _ _))
    obtain ⟨g, hg⟩ := ih (i + 1) (fun a ha => hall a (List.mem_cons_of_mem _ ha))
      (fun a ha => hreg a (List.mem_cons_of_mem _ ha))
    simp only [checkActions, hf, hg, except_ok_bind]
    exact ⟨_, rfl⟩

/-- On a structurally valid candidate the validator returns a result whenever the
catalog does and the cron expression, when present, is a string. -/
theorem validateFlowOutput_returns (flow : JVal) (reg : Option Registry)
    (hs : validateSchema flow = []) (hreg : RegistryAnswers reg flow) (hc : CronReadable flow) :
    ∃ r, validateFlowOutput flow reg = .ok r := by
  obtain ⟨h0, ht, x, xs, hx, hall⟩ := schema_facts flow hs
  by_cases he : (flow.get "error").truthy = true
  · unfold validateFlowOutput
    simp only [hs, List.length_nil, gt_iff_lt, lt_self_iff_false, ↓reduceIte, getProp_ok _ _ h0,
      except_ok_bind, he]
    exact ⟨_, rfl⟩
  · have he2 : (flow.get "error").truthy = false := by simpa using he
    obtain ⟨f3, h3⟩ := checkTriggerPiece_returns (flow.get "trigger") reg ht hreg.1
    obtain ⟨f4, h4⟩ := checkScheduleCron_returns (flow.get "trigger") ht hc
    obtain ⟨f5, h5⟩ := checkActions_returns reg (x :: xs) 0 hall (hreg.2 _ hx)
    exact ⟨_, (validateFlowOutput_eq_ok flow reg (x :: xs) hs he2 hx _).mpr
      ⟨f3, f4, f5, h3, h4, h5, rfl⟩⟩


theorem valid_false_of_mem (es : List JVal) (e : JVal) (h : e ∈ es) :
    (es.length == 0) = false := by
  cases es with
  | nil => simp at h
  | cons x xs => rfl

theorem validateFlowOutput_of_schema_errors (flowJson : JVal) (reg : Option Registry)
    (h : validateSchema flowJson ≠ []) :
    validateFlowOutput flowJson reg =
      .ok { valid := false, errors := validateSchema flowJson, warnings := [],
            isUserError := false } := by
  unfold validateFlowOutput
  have : (validateSchema flowJson).length > 0 := List.length_pos.mpr h
  simp [this]

/-- **C3.** When the structural pass reports at least one error, `validateFlowOutput`
returns `valid = false`, exactly the structural errors, no warnings and no
`isUserError` flag, whatever the catalog: the semantic pass does not run. -/
theorem structural_failure_short_circuits (flowJson : JVal) (reg : Option Registry)
    (h : validateSchema flowJson ≠ []) :
    validateFlowOutput flowJson reg =
      .ok { valid := false, errors := validateSchema flowJson, warnings := [],
            isUserError := false } :=
  validateFlowOutput_of_schema_errors flowJson reg h

/-- **C6.** On a structurally valid candidate without an `error` field, the iteration
for a top-level `PIECE` action at index `i` pushes exactly one error, prefixed
`Action i+1 (displayName)`, when `pieceName` is missing or empty, or when `pieceName` is
present and `actionName` is missing or empty, and then `valid` is false; it pushes no
error when both are present. The returned `errors` are the errors pushed before that
iteration, the ones of that iteration, and the ones pushed after it. The validator
returns a result whenever the catalog does and the cron expression is readable. -/
theorem piece_action_missing_identifier (flow : JVal) (reg : Option Registry)
    (xs : List JVal) (i : Nat) (a : JVal)
    (hs : validateSchema flow = []) (he : (flow.get "error").truthy = false)
    (hx : flow.get "actions" = .arr xs) (hi : xs[i]? = some a)
    (hty : a.get "type" = .str "PIECE") :
    (∀ r, validateFlowOutput flow reg = .ok r →
      ∃ f3 f4 fb fi fa,
        checkTriggerPiece (flow.get "trigger") reg = .ok f3 ∧
        checkScheduleCron (flow.get "trigger") = .ok f4 ∧
        checkActions reg 0 (xs.take i) = .ok fb ∧
        checkAction reg i a = .ok fi ∧
        checkActions reg (i + 1) (xs.drop (i + 1)) = .ok fa ∧
        r.errors = f3.errors ++ f4.errors ++ fb.errors ++ fi.errors ++ fa.errors ∧
        ((a.get "pieceName").truthy = false →
          fi.errors = [.str ("Action " ++ toString (i + 1) ++ " ("
            ++ (a.get "displayName").toStr ++ ")" ++ ": يحتاج pieceName")]
          ∧ r.valid = false) ∧
        ((a.get "pieceName").truthy = true → (a.get "actionName").truthy = false →
          fi.errors = [.str ("Action " ++ toString (i + 1) ++ " ("
            ++ (a.get "displayName").toStr ++ ")" ++ ": يحتاج actionName")]
          ∧ r.valid = false) ∧
        ((a.get "pieceName").truthy = true → (a.get "actionName").truthy = true →
          fi.errors = [])) ∧
    (RegistryAnswers reg flow → CronReadable flow →
      ∃ r, validateFlowOutput flow reg = .ok r) := by
  refine ⟨?_, fun hreg hc => validateFlowOutput_returns flow reg hs hreg hc⟩
  intro r hr
  obtain ⟨f3, f4, f5, h3, h4, h5, rfl⟩ := (validateFlowOutput_eq_ok flow reg xs hs he hx r).mp hr
  obtain ⟨fb, fi, fa, hb, hk, ha, rfl⟩ := (checkActions_split reg xs 0 i a f5 hi).mp h5
  simp only [zero_add] at hk ha
  obtain ⟨c1, c2, c3⟩ := checkAction_piece reg i a fi hty hk
  refine ⟨f3, f4, fb, fi, fa, h3, h4, hb, hk, ha, by simp, ?_, ?_, c3⟩
  · intro hp
    refine ⟨c1 hp, ?_⟩
    exact valid_false_of_mem _ (.str ("Action " ++ toString (i + 1) ++ " ("
      ++ (a.get "displayName").toStr ++ ")" ++ ": يحتاج pieceName")) (by simp [c1 hp])
  · intro hp hn
    refine ⟨c2 hp hn, ?_⟩
    exact valid_false_of_mem _ (.str ("Action " ++ toString (i + 1) ++ " ("
      ++ (a.get "displayName").toStr ++ ")" ++ ": يحتاج actionName")) (by simp [c2 hp hn])

/-- What one loop iteration pushes for a `BRANCH` action whose condition list is
missing, not a list, or empty. -/
theorem checkAction_branch (reg : Option Registry) (i : Nat) (a : JVal)
    (hn : a.isNullish = false) (hty : a.get "type" = .str "BRANCH")
    (hc : (a.get "conditions").truthy = false ∨ (a.get "conditions").isArray = false
      ∨ a.get "conditions" = .arr []) :
    checkAction reg i a = .ok ⟨[.str ("Action " ++ toString (i + 1) ++ " ("
      ++ (a.get "displayName").toStr ++ ")" ++ ": Branch يحتاج conditions")], []⟩ := by
  unfold checkAction actionLabel checkPieceAction checkBranchAction checkCodeAction
  simp only [getProp_ok _ _ hn, except_ok_bind, except_pure, hty, isStr]
  simp only [String.reduceBEq, Bool.false_eq_true, ↓reduceIte, except_ok_bind, beq_self_eq_true,
    List.nil_append, List.append_nil]
  rw [if_pos (by rcases hc with h | h | h <;> simp [h])]
  rfl

/-- **C7.** On a structurally valid candidate without an `error` field whose other
blocks push no error, a top-level `BRANCH` action at index `i` whose condition list is
empty, missing or not a list makes `validateFlowOutput` return `valid = false` with
exactly one error, prefixed `Action i+1 (displayName)`. -/
theorem branch_without_conditions (flow : JVal) (reg : Option Registry)
    (xs : List JVal) (i : Nat) (a : JVal) (f3 f4 fb fa : Findings)
    (hs : validateSchema flow = []) (he : (flow.get "error").truthy = false)
    (hx : flow.get "actions" = .arr xs) (hi : xs[i]? = some a)
    (hty : a.get "type" = .str "BRANCH")
    (hc : (a.get "conditions").truthy = false ∨ (a.get "conditions").isArray = false
      ∨ a.get "conditions" = .arr [])
    (h3 : checkTriggerPiece (flow.get "trigger") reg = .ok f3) (h3e : f3.errors = [])
    (h4 : checkScheduleCron (flow.get "trigger") = .ok f4) (h4e : f4.errors = [])
    (hb : checkActions reg 0 (xs.take i) = .ok fb) (hbe : fb.errors = [])
    (ha : checkActions reg (i + 1) (xs.drop (i + 1)) = .ok fa) (hae : fa.errors = []) :
    ∃ r, validateFlowOutput flow reg = .ok r ∧ r.valid = false ∧
      r.errors = [.str ("Action " ++ toString (i + 1) ++ " ("
        ++ (a.get "displayName").toStr ++ ")" ++ ": Branch يحتاج conditions")] := by
  obtain ⟨_, _, y, ys, hy, hall⟩ := schema_facts flow hs
  have hxy : xs = y :: ys := by rw [hx] at hy; exact JVal.arr.inj hy
  have hn : a.isNullish = false := by
    apply hall; rw [← hxy]; exact List.getElem?_mem hi
  have hk := checkAction_branch reg i a hn hty hc
  have h5 := (checkActions_split reg xs 0 i a _ hi).mpr
    ⟨fb, _, fa, hb, by rw [zero_add]; exact hk, by rw [zero_add]; exact ha, rfl⟩
  refine ⟨_, (validateFlowOutput_eq_ok flow reg xs hs he hx _).mpr
    ⟨f3, f4, _, h3, h4, h5, rfl⟩, ?_, ?_⟩
  · simp [h3e, h4e, hbe, hae]
  · simp [h3e, h4e, hbe, hae]

/-- A structurally valid candidate that carries a truthy `error` field. -/
theorem validateFlowOutput_user_error (flow : JVal) (reg : Option Registry)
    (hs : validateSchema flow = []) (he : (flow.get "error").truthy = true) :
    validateFlowOutput flow reg =
      .ok { valid := false, errors := [flow.get "error"], warnings := [], isUserError := true } := by
  obtain ⟨h0, _, _⟩ := schema_facts flow hs
  unfold validateFlowOutput
  simp only [hs, List.length_nil, gt_iff_lt, lt_self_iff_false, ↓reduceIte, getProp_ok _ _ h0,
    except_ok_bind, he]
  rfl


theorem checkScheduleCron_missing (t : JVal) (hn : t.isNullish = false)
    (hty : t.get "type" = .str "SCHEDULE")
    (hc : (getOpt (t.get "input") "cronExpression").truthy = false) :
    checkScheduleCron t = .ok ⟨[.str "Schedule trigger يحتاج cronExpression"], []⟩ := by
  unfold checkScheduleCron
  simp only [getProp_ok _ _ hn, except_ok_bind, hty, isStr, hc]
  rfl

theorem checkScheduleCron_string (t : JVal) (s : String) (hn : t.isNullish = false)
    (hty : t.get "type" = .str "SCHEDULE")
    (hc : getOpt (t.get "input") "cronExpression" = .str s) (hne : s ≠ "") :
    checkScheduleCron t = .ok
      (if 5 ≤ cronFieldCount s ∧ cronFieldCount s ≤ 6 then ⟨[], []⟩
       else ⟨[], [.str ("Cron expression \"" ++ s ++ "\" ممكن يكون غلط — تأكد منه")]⟩) := by
  have htr : (JVal.str s).truthy = true := ((nonEmptyString_iff (.str s)).mpr ⟨s, rfl, hne⟩).1
  unfold checkScheduleCron
  simp only [getProp_ok _ _ hn, except_ok_bind, hty, isStr, hc, htr, isValidCron, cronFieldCount]
  by_cases h : 5 ≤ (splitWs false [] (jsTrim s).data).length ∧
      (splitWs false [] (jsTrim s).data).length ≤ 6
  · simp only [h, and_self, if_true]
    simp [h.1, h.2, toStr]
  · rw [if_neg h]
    have : (decide ((splitWs false [] (jsTrim s).data).length ≥ 5) &&
        decide ((splitWs false [] (jsTrim s).data).length ≤ 6)) = false := by
      simpa using h
    simp [this, toStr]

theorem cronFieldCount_empty : cronFieldCount "" = 1 := by
  rfl

/-- **C8.** On a structurally valid candidate without an `error` field whose trigger is
a `SCHEDULE`: a missing or empty `cronExpression` pushes the missing-cron error and
`valid` is false; a non-empty string that does not split into 5 or 6 fields pushes one
warning and no error; a string of 5 or 6 fields pushes neither. In each case the other
entries of `errors` and `warnings` are those of the trigger-piece block, the action loop
and the step-count block. The validator returns a result whenever the catalog does and
the cron expression is readable. -/
theorem schedule_cron_findings (flow : JVal) (reg : Option Registry) (xs : List JVal)
    (hs : validateSchema flow = []) (he : (flow.get "error").truthy = false)
    (hx : flow.get "actions" = .arr xs)
    (hty : (flow.get "trigger").get "type" = .str "SCHEDULE") :
    (∀ r, validateFlowOutput flow reg = .ok r →
      ∃ f3 f5,
        checkTriggerPiece (flow.get "trigger") reg = .ok f3 ∧
        checkActions reg 0 xs = .ok f5 ∧
        ((getOpt ((flow.get "trigger").get "input") "cronExpression").truthy = false →
          r.errors = f3.errors ++ [.str "Schedule trigger يحتاج cronExpression"] ++ f5.errors
          ∧ r.valid = false
          ∧ r.warnings = f3.warnings ++ f5.warnings ++ (checkStepCount xs).warnings) ∧
        (∀ s, getOpt ((flow.get "trigger").get "input") "cronExpression" = .str s → s ≠ "" →
          ¬ (5 ≤ cronFieldCount s ∧ cronFieldCount s ≤ 6) →
          r.errors = f3.errors ++ f5.errors
          ∧ r.warnings = f3.warnings
              ++ [.str ("Cron expression \"" ++ s ++ "\" ممكن يكون غلط — تأكد منه")]
              ++ f5.warnings ++ (checkStepCount xs).warnings) ∧
        (∀ s, getOpt ((flow.get "trigger").get "input") "cronExpression" = .str s →
          5 ≤ cronFieldCount s ∧ cronFieldCount s ≤ 6 →
          r.errors = f3.errors ++ f5.errors
          ∧ r.warnings = f3.warnings ++ f5.warnings ++ (checkStepCount xs).warnings)) ∧
    (RegistryAnswers reg flow → CronReadable flow →
      ∃ r, validateFlowOutput flow reg = .ok r) := by
  refine ⟨?_, fun hreg hc => validateFlowOutput_returns flow reg hs hreg hc⟩
  obtain ⟨_, hn, _⟩ := schema_facts flow hs
  intro r hr
  obtain ⟨f3, f4, f5, h3, h4, h5, rfl⟩ := (validateFlowOutput_eq_ok flow reg xs hs he hx r).mp hr
  refine ⟨f3, f5, h3, h5, ?_, ?_, ?_⟩
  · intro hc
    rw [checkScheduleCron_missing _ hn hty hc] at h4
    have := Except.ok.inj h4
    subst this
    refine ⟨by simp, ?_, by simp⟩
    exact valid_false_of_mem _ (.str "Schedule trigger يحتاج cronExpression") (by simp)
  · intro s hc hne hcount
    rw [checkScheduleCron_string _ s hn hty hc hne, if_neg hcount] at h4
    have := Except.ok.inj h4
    subst this
    exact ⟨by simp, by simp⟩
  · intro s hc hcount
    have hne : s ≠ "" := by
      rintro rfl
      rw [cronFieldCount_empty] at hcount
      omega
    rw [checkScheduleCron_string _ s hn hty hc hne, if_pos hcount] at h4
    have := Except.ok.inj h4
    subst this
    exact ⟨by simp, by simp⟩


@[simp] theorem except_map_ok {ε α β : Type} (f : α → β) (a : α) :
    Except.map f (Except.ok a : Except ε α) = Except.ok (f a) := rfl

@[simp] theorem except_map_error {ε α β : Type} (f : α → β) (e : ε) :
    Except.map f (Except.error e : Except ε α) = Except.error e := rfl

theorem same_errors_cases (m1 m2 : Except Thrown Findings)
    (h : m1.map (fun f => f.errors) = m2.map (fun f => f.errors)) :
    (∃ e, m1 = .error e ∧ m2 = .error e) ∨
      (∃ f1 f2, m1 = .ok f1 ∧ m2 = .ok f2 ∧ f1.errors = f2.errors) := by
  cases m1 with
  | error e1 =>
    cases m2 with
    | error e2 => simp at h; exact Or.inl ⟨e1, rfl, by rw [h]⟩
    | ok f2 => simp at h
  | ok f1 =>
    cases m2 with
    | error e2 => simp at h
    | ok f2 => simp at h; exact Or.inr ⟨f1, f2, rfl, rfl, h⟩

/-- The errors of the trigger-piece block do not depend on the catalog. -/
theorem checkTriggerPiece_errors (t : JVal) (reg : Option Registry)
    (hreg : RegistryReturnsOn reg (t.get "pieceName") (t.get "triggerName")) :
    (checkTriggerPiece t reg).map (fun f => f.errors) =
      (checkTriggerPiece t none).map (fun f => f.errors) := by
  cases hn : t.isNullish with
  | true => simp [checkTriggerPiece, getProp, hn]
  | false =>
    unfold checkTriggerPiece
    simp only [getProp_ok _ _ hn, except_ok_bind]
    split
    · split
      · rfl
      · cases reg with
        | none => rfl
        | some g =>
          obtain ⟨chk, hchk⟩ := hreg g rfl
          simp only [hchk, except_ok_bind]
          split <;> rfl
    · rfl

/-- The errors of one loop iteration do not depend on the catalog. -/
theorem checkAction_errors (reg : Option Registry) (i : Nat) (a : JVal)
    (hreg : RegistryReturnsOn reg (a.get "pieceName") (a.get "actionName")) :
    (checkAction reg i a).map (fun f => f.errors) =
      (checkAction none i a).map (fun f => f.errors) := by
  cases hn : a.isNullish with
  | true => simp [checkAction, actionLabel, getProp, hn]
  | false =>
    have hb : ∀ l, ∃ p, checkBranchAction l a = .ok p := by
      intro l
      unfold checkBranchAction
      simp only [getProp_ok _ _ hn, except_ok_bind]
      split
      · split <;> exact ⟨_, rfl⟩
      · exact ⟨_, rfl⟩
    have hc : ∀ l, ∃ p, checkCodeAction l a = .ok p := by
      intro l
      unfold checkCodeAction
      simp only [getProp_ok _ _ hn, except_ok_bind]
      split
      · split <;> exact ⟨_, rfl⟩
      · exact ⟨_, rfl⟩
    have hp : ∀ l, ∃ p q, checkPieceAction l a reg = .ok p ∧ checkPieceAction l a none = .ok q
        ∧ p.errors = q.errors := by
      intro l
      unfold checkPieceAction
      simp only [getProp_ok _ _ hn, except_ok_bind]
      split
      · split
        · exact ⟨_, _, rfl, rfl, rfl⟩
        · split
          · exact ⟨_, _, rfl, rfl, rfl⟩
          · cases reg with
            | none => exact ⟨_, _, rfl, rfl, rfl⟩
            | some g =>
              obtain ⟨chk, hchk⟩ := hreg g rfl
              simp only [hchk, except_ok_bind]
              split <;> exact ⟨_, _, rfl, rfl, rfl⟩
      · exact ⟨_, _, rfl, rfl, rfl⟩
    unfold checkAction actionLabel
    simp only [getProp_ok _ _ hn, except_ok_bind, except_pure]
    obtain ⟨p, q, hp1, hp2, hpq⟩ :=
      hp ("Action " ++ toString (i + 1) ++ " (" ++ (a.get "displayName").toStr ++ ")")
    obtain ⟨b, hb⟩ := hb ("Action " ++ toString (i + 1) ++ " (" ++ (a.get "displayName").toStr ++ ")")
    obtain ⟨c, hc⟩ := hc ("Action " ++ toString (i + 1) ++ " (" ++ (a.get "displayName").toStr ++ ")")
    rw [hp1, hp2, hb, hc]
    simp [hpq]

/-- The errors of the action loop do not depend on the catalog. -/
theorem checkActions_errors (reg : Option Registry) (xs : List JVal) :
    (∀ a ∈ xs, RegistryReturnsOn reg (a.get "pieceName") (a.get "actionName")) →
    ∀ i : Nat,
    (checkActions reg i xs).map (fun f => f.errors) =
      (checkActions none i xs).map (fun f => f.errors) := by
  induction xs with
  | nil => intro _ i; rfl
  | cons x xs ih =>
    intro hreg i
    have ih := ih (fun a ha => hreg a (List.mem_cons_of_mem _ ha))
    simp only [checkActions]
    rcases same_errors_cases _ _
        (checkAction_errors reg i x (hreg x (List.mem_cons_self _ _))) with
      ⟨e, h1, h2⟩ | ⟨f1, f2, h1, h2, h12⟩
    · rw [h1, h2]; rfl
    · rw [h1, h2]
      simp only [except_ok_bind]
      rcases same_errors_cases _ _ (ih (i + 1)) with ⟨e, g1, g2⟩ | ⟨k1, k2, g1, g2, g12⟩
      · rw [g1, g2]; rfl
      · rw [g1, g2]; simp [h12, g12]

/-- The errors and the verdict of the validator do not depend on the catalog. -/
theorem validateFlowOutput_errors (flow : JVal) (reg : Option Registry)
    (hreg : RegistryAnswers reg flow) :
    (validateFlowOutput flow reg).map (fun r => (r.errors, r.valid)) =
      (validateFlowOutput flow none).map (fun r => (r.errors, r.valid)) := by
  by_cases hs : validateSchema flow = []
  · by_cases he : (flow.get "error").truthy = true
    · rw [validateFlowOutput_user_error flow reg hs he, validateFlowOutput_user_error flow none hs he]
    · have he2 : (flow.get "error").truthy = false := by simpa using he
      obtain ⟨xs, hx, _⟩ := validateSchema_actions flow hs
      rw [validateFlowOutput_semantic flow reg xs hs he2 hx,
        validateFlowOutput_semantic flow none xs hs he2 hx]
      rcases same_errors_cases _ _
          (checkTriggerPiece_errors (flow.get "trigger") reg hreg.1) with
        ⟨e, h1, h2⟩ | ⟨f1, f2, h1, h2, h12⟩
      · rw [h1, h2]; rfl
      · rw [h1, h2]
        simp only [except_ok_bind]
        cases h4 : checkScheduleCron (flow.get "trigger") with
        | error e => rfl
        | ok f4 =>
          simp only [except_ok_bind]
          rcases same_errors_cases _ _ (checkActions_errors reg xs (hreg.2 xs hx) 0) with
            ⟨e, g1, g2⟩ | ⟨k1, k2, g1, g2, g12⟩
          · rw [g1, g2]; rfl
          · rw [g1, g2]; simp [h12, g12]
  · rw [validateFlowOutput_of_schema_errors flow reg hs,
      validateFlowOutput_of_schema_errors flow none hs]

/-- **C5.** For any two catalogs whose `validate` operation returns a result on the
identifiers of the candidate, `validateFlowOutput` has the same outcome up to warnings:
the same `errors` list and the same `valid` flag (or the same exception). An identifier
unknown to the catalog therefore never adds a blocking error. -/
theorem catalog_never_blocks (flow : JVal) (c1 c2 : Registry)
    (h1 : RegistryAnswers (some c1) flow) (h2 : RegistryAnswers (some c2) flow) :
    (validateFlowOutput flow (some c1)).map (fun r => r.errors) =
        (validateFlowOutput flow (some c2)).map (fun r => r.errors) ∧
    (validateFlowOutput flow (some c1)).map (fun r => r.valid) =
        (validateFlowOutput flow (some c2)).map (fun r => r.valid) := by
  have k1 := validateFlowOutput_errors flow (some c1) h1
  have k2 := validateFlowOutput_errors flow (some c2) h2
  have k := k1.trans k2.symm
  cases r1 : validateFlowOutput flow (some c1) with
  | error e1 =>
    cases r2 : validateFlowOutput flow (some c2) with
    | error e2 => rw [r1, r2] at k; simp at k; simp [k]
    | ok v2 => rw [r1, r2] at k; simp at k
  | ok v1 =>
    cases r2 : validateFlowOutput flow (some c2) with
    | error e2 => rw [r1, r2] at k; simp at k
    | ok v2 => rw [r1, r2] at k; simp at k; simp [k.1, k.2]

/-! ### Computations that issue calls -/

theorem run_pure {κ α : Type} (a : α) (tr : List κ) :
    (pure a : Run κ α) tr = (tr, .ok a) := rfl

theorem run_bind_ok {κ α β : Type} (m : Run κ α) (f : α → Run κ β) (tr tr1 : List κ) (a : α)
    (h : m tr = (tr1, .ok a)) : (m >>= f) tr = f a tr1 := by
  show Run.andThen m f tr = _
  simp [Run.andThen, h]

theorem run_bind_error {κ α β : Type} (m : Run κ α) (f : α → Run κ β) (tr tr1 : List κ)
    (e : Thrown) (h : m tr = (tr1, .error e)) : (m >>= f) tr = (tr1, .error e) := by
  show Run.andThen m f tr = _
  simp [Run.andThen, h]

theorem run_lift_ok_bind {κ α β : Type} (a : α) (f : α → Run κ β) (tr : List κ) :
    ((Run.lift (.ok a) : Run κ α) >>= f) tr = f a tr := rfl

theorem run_call_ok_bind {κ ρ β : Type} (o : Oracle κ ρ) (c : κ) (f : ρ → Run κ β)
    (tr : List κ) (v : ρ) (h : o tr c = .ok v) :
    (Run.call o c >>= f) tr = f v (tr ++ [c]) :=
  run_bind_ok _ _ _ _ _ (by simp [Run.call, h])

theorem buildActionSettings_returns (a : JVal) (hn : a.isNullish = false) :
    ∃ s, buildActionSettings a = .ok s := by
  unfold buildActionSettings
  simp only [getProp_ok _ _ hn, except_ok_bind]
  split <;> exact ⟨_, rfl⟩

theorem buildTriggerSettings_returns (t : JVal) (hn : t.isNullish = false) :
    ∃ s, buildTriggerSettings t = .ok s := by
  unfold buildTriggerSettings
  simp only [getProp_ok _ _ hn, except_ok_bind]
  split
  · exact ⟨_, rfl⟩
  · split <;> exact ⟨_, rfl⟩

/-- One top-level step that is not a branch, on an engine that accepts the request. -/
theorem addAction_plain (rt : Runtime) (engine : Engine) (flowId a : JVal) (parent : String)
    (k : Nat) (tr : List ApiCall) (s v : JVal)
    (hn : a.isNullish = false) (hb : (a.get "type").isStr "BRANCH" = false)
    (hs : buildActionSettings a = .ok s)
    (hv : engine tr (addActionCall flowId parent "AFTER" none ("step_" ++ toString k) a s) = .ok v) :
    addAction rt engine flowId a parent k tr =
      (tr ++ [addActionCall flowId parent "AFTER" none ("step_" ++ toString k) a s],
        .ok ("step_" ++ toString k)) := by
  unfold addAction
  simp only [getProp_ok _ _ hn, run_lift_ok_bind, hb, Bool.false_eq_true, ↓reduceIte, hs]
  rw [run_call_ok_bind _ _ _ _ _ hv]
  rfl

/-- The top-level loop on actions none of which is a branch, on an engine that accepts
every request: the calls issued are described index by index. -/
theorem addActions_plain (rt : Runtime) (engine : Engine) (flowId : JVal)
    (hok : ∀ tr c, ∃ v, engine tr c = .ok v) (xs : List JVal) :
    ∀ (parent : String) (k : Nat) (tr : List ApiCall),
      (∀ a ∈ xs, a.isNullish = false ∧ (a.get "type").isStr "BRANCH" = false) →
      ∃ calls : List ApiCall,
        addActions rt engine flowId parent k xs tr = (tr ++ calls, .ok (k + xs.length)) ∧
        calls.length = xs.length ∧
        ∀ i a, xs[i]? = some a → ∃ s, buildActionSettings a = .ok s ∧
          calls[i]? = some (addActionCall flowId
            (if i = 0 then parent else "step_" ++ toString (k + i - 1)) "AFTER" none
            ("step_" ++ toString (k + i)) a s) := by
  induction xs with
  | nil =>
    intro parent k tr _
    exact ⟨[], by simp [addActions, run_pure], rfl, by simp⟩
  | cons x xs ih =>
    intro parent k tr hall
    obtain ⟨hn, hb⟩ := hall x (List.mem_cons_self _ _)
    obtain ⟨s, hs⟩ := buildActionSettings_returns x hn
    obtain ⟨v, hv⟩ := hok tr (addActionCall flowId parent "AFTER" none ("step_" ++ toString k) x s)
    obtain ⟨calls, hrun, hlen, hcalls⟩ := ih ("step_" ++ toString k) (k + 1)
      (tr ++ [addActionCall flowId parent "AFTER" none ("step_" ++ toString k) x s])
      (fun a ha => hall a (List.mem_cons_of_mem _ ha))
    refine ⟨addActionCall flowId parent "AFTER" none ("step_" ++ toString k) x s :: calls,
      ?_, by simp [hlen], ?_⟩
    · simp only [addActions]
      rw [run_bind_ok _ _ _ _ _ (addAction_plain rt engine flowId x parent k tr s v hn hb hs hv),
        hrun]
      simp [Nat.add_assoc, Nat.add_comm 1]
    · intro i a hi
      cases i with
      | zero =>
        simp only [List.getElem?_cons_zero, Option.some.injEq] at hi
        subst hi
        exact ⟨s, hs, by simp⟩
      | succ j =>
        simp only [List.getElem?_cons_succ] at hi
        obtain ⟨s2, hs2, hc⟩ := hcalls j a hi
        refine ⟨s2, hs2, ?_⟩
        simp only [List.getElem?_cons_succ, hc, Option.some.injEq, Nat.add_one_ne_zero, ↓reduceIte]
        cases j with
        | zero => simp
        | succ j2 =>
          simp only [Nat.add_one_ne_zero, ↓reduceIte]
          rw [show k + 1 + (j2 + 1) - 1 = k + (j2 + 1 + 1) - 1 by omega,
            show k + 1 + (j2 + 1) = k + (j2 + 1 + 1) by omega]


theorem run_bind_assoc {κ α β γ : Type} (m : Run κ α) (f : α → Run κ β) (g : β → Run κ γ) :
    (m >>= f >>= g) = (m >>= fun a => f a >>= g) := by
  funext tr
  show Run.andThen (Run.andThen m f) g tr = Run.andThen m (fun a => Run.andThen (f a) g) tr
  unfold Run.andThen
  rcases m tr with ⟨tr1, a | a⟩ <;> rfl

theorem run_tryCatch_ok {κ α : Type} (m : Run κ α) (h : Thrown → Run κ α) (tr tr1 : List κ)
    (a : α) (hm : m tr = (tr1, .ok a)) : Run.tryCatch m h tr = (tr1, .ok a) := by
  simp [Run.tryCatch, hm]

theorem run_tryCatch_error {κ α : Type} (m : Run κ α) (h : Thrown → Run κ α) (tr tr1 : List κ)
    (e : Thrown) (hm : m tr = (tr1, .error e)) : Run.tryCatch m h tr = h e tr1 := by
  simp [Run.tryCatch, hm]

/-- For a flow with a trigger and `N` top-level actions none of which is a
`BRANCH`, on an engine on which every call succeeds (the created shell being an
object), `buildFlow` issues the create-flow-shell call, the `UPDATE_TRIGGER` call, then
the `N` `ADD_ACTION` calls in the order of the actions list, and then the
`LOCK_AND_PUBLISH` call exactly when `autoPublish` is set; it returns with
`stepsCreated = N`. -/
theorem buildFlow_plain_trace (rt : Runtime) (fb : FlowBuilder) (engine : Engine)
    (flow : JVal) (options : BuildOptions) (xs : List JVal) (resp : JVal)
    (hflow : flow.isNullish = false) (htrig : (flow.get "trigger").isNullish = false)
    (hx : flow.get "actions" = .arr xs)
    (hall : ∀ a ∈ xs, a.isNullish = false ∧ (a.get "type").isStr "BRANCH" = false)
    (hok : ∀ tr c, ∃ v, engine tr c = .ok v)
    (hcreate : engine [] (createFlowCall fb flow options) = .ok resp)
    (hresp : resp.isNullish = false) :
    ∃ (settings : JVal) (calls : List ApiCall) (res : BuildResult),
      buildTriggerSettings (flow.get "trigger") = .ok settings ∧
      calls.length = xs.length ∧
      (∀ i a, xs[i]? = some a → ∃ s, buildActionSettings a = .ok s ∧
        calls[i]? = some (addActionCall (resp.get "id")
          (if i = 0 then "trigger" else "step_" ++ toString i) "AFTER" none
          ("step_" ++ toString (i + 1)) a s)) ∧
      buildFlow rt fb engine flow options [] =
        ([createFlowCall fb flow options,
          updateTriggerCall (resp.get "id") (flow.get "trigger") settings]
          ++ calls
          ++ (if options.autoPublish.truthy then [publishCall (resp.get "id")] else []),
         .ok res) ∧
      res.stepsCreated = xs.length := by
  obtain ⟨settings, hset⟩ := buildTriggerSettings_returns _ htrig
  obtain ⟨v1, hv1⟩ := hok ([] ++ [createFlowCall fb flow options])
    (updateTriggerCall (resp.get "id") (flow.get "trigger") settings)
  obtain ⟨calls, hrun, hlen, hcalls⟩ := addActions_plain rt engine (resp.get "id") hok xs
    "trigger" 1 ([] ++ [createFlowCall fb flow options] ++
      [updateTriggerCall (resp.get "id") (flow.get "trigger") settings]) hall
  obtain ⟨v2, hv2⟩ := hok ([] ++ [createFlowCall fb flow options] ++
      [updateTriggerCall (resp.get "id") (flow.get "trigger") settings] ++ calls)
    (publishCall (resp.get "id"))
  have hsteps : ∃ res : BuildResult,
      buildSteps rt fb engine flow options (resp.get "id") ([] ++ [createFlowCall fb flow options]) =
        ([createFlowCall fb flow options,
          updateTriggerCall (resp.get "id") (flow.get "trigger") settings]
          ++ calls
          ++ (if options.autoPublish.truthy then [publishCall (resp.get "id")] else []),
         .ok res) ∧ res.stepsCreated = xs.length := by
    unfold buildSteps updateTrigger
    simp only [getProp_ok _ _ hflow, run_lift_ok_bind, hset, run_bind_assoc]
    rw [run_call_ok_bind _ _ _ _ _ hv1]
    simp only [hx, iterate, run_lift_ok_bind]
    rw [run_bind_ok _ _ _ _ _ hrun]
    refine ⟨{ success := true, flowId := resp.get "id",
              flowUrl := fb.baseUrl.toStr ++ "/flows/" ++ (resp.get "id").toStr,
              status := if options.autoPublish.truthy then "PUBLISHED" else "DRAFT",
              stepsCreated := 1 + xs.length - 1 }, ?_, by simp⟩
    cases hp : options.autoPublish.truthy with
    | true =>
      simp only [↓reduceIte]
      rw [run_call_ok_bind _ _ _ _ _ hv2]
      rfl
    | false =>
      simp only [Bool.false_eq_true, ↓reduceIte, List.append_nil]
      rfl
  obtain ⟨res, hres, hcount⟩ := hsteps
  refine ⟨settings, calls, res, hset, hlen, ?_, ?_, hcount⟩
  · intro i a hi
    obtain ⟨s, hs, hc⟩ := hcalls i a hi
    refine ⟨s, hs, ?_⟩
    rw [hc, show 1 + i - 1 = i by omega, show 1 + i = i + 1 by omega]
  · unfold buildFlow
    simp only [getProp_ok _ _ hflow, run_lift_ok_bind]
    rw [run_call_ok_bind _ _ _ _ _ hcreate]
    simp only [getProp_ok _ _ hresp, run_lift_ok_bind]
    exact run_tryCatch_ok _ _ _ _ _ hres

/-- C3 at the candidate `null`, which fails the structural pass. -/
theorem structural_failure_short_circuits_witness :
    validateSchema JVal.null ≠ [] ∧
      validateFlowOutput JVal.null none =
        .ok { valid := false, errors := validateSchema JVal.null, warnings := [],
              isUserError := false } :=
  ⟨by simp [validateSchema, truthy],
   structural_failure_short_circuits JVal.null none (by simp [validateSchema, truthy])⟩

/-- C5 at a schedule flow, for a catalog that knows every identifier and one that knows
none. -/
theorem catalog_never_blocks_witness :
    (validateFlowOutput shortCronFlow (some knowsAll)).map (fun r => r.errors) =
        (validateFlowOutput shortCronFlow (some knowsNothing)).map (fun r => r.errors) ∧
    (validateFlowOutput shortCronFlow (some knowsAll)).map (fun r => r.valid) =
        (validateFlowOutput shortCronFlow (some knowsNothing)).map (fun r => r.valid) :=
  catalog_never_blocks shortCronFlow knowsAll knowsNothing
    ⟨fun g hg => by cases hg; exact ⟨_, rfl⟩, fun _ _ _ _ g hg => by cases hg; exact ⟨_, rfl⟩⟩
    ⟨fun g hg => by cases hg; exact ⟨_, rfl⟩, fun _ _ _ _ g hg => by cases hg; exact ⟨_, rfl⟩⟩

/-- C6 at a flow whose only action lacks `pieceName`: the validator returns and the flow
is invalid. -/
theorem piece_action_missing_identifier_witness :
    ∃ r, validateFlowOutput missingPieceFlow none = .ok r ∧ r.valid = false := by
  have h := piece_action_missing_identifier missingPieceFlow none [actionWithoutPiece] 0
    actionWithoutPiece rfl rfl rfl rfl rfl
  obtain ⟨r, hr⟩ := h.2 ⟨fun _ hg => (nomatch hg), fun _ _ _ _ _ hg => (nomatch hg)⟩
    (fun hty => by simp [missingPieceFlow, JVal.get, List.lookup] at hty)
  obtain ⟨_, _, _, _, _, _, _, _, _, _, _, hv, _, _⟩ := h.1 r hr
  exact ⟨r, hr, (hv rfl).2⟩

/-- C7 at a flow whose only action is a branch with an empty condition list. -/
theorem branch_without_conditions_witness :
    ∃ r, validateFlowOutput emptyBranchFlow none = .ok r ∧ r.valid = false ∧
      r.errors = [.str "Action 1 (check): Branch يحتاج conditions"] :=
  branch_without_conditions emptyBranchFlow none [branchWithoutConditions] 0
    branchWithoutConditions ⟨[], []⟩ ⟨[], []⟩ ⟨[], []⟩ ⟨[], []⟩ rfl rfl rfl rfl rfl
    (Or.inr (Or.inr rfl)) rfl rfl rfl rfl rfl rfl rfl rfl

/-- C8 at a schedule flow whose cron expression has three fields: one warning, no
error. -/
theorem schedule_cron_findings_witness :
    ∃ r, validateFlowOutput shortCronFlow none = .ok r ∧ r.errors = [] ∧
      r.warnings = [.str "Cron expression \"0 8 *\" ممكن يكون غلط — تأكد منه"] := by
  have h := schedule_cron_findings shortCronFlow none [sendMail] rfl rfl rfl rfl
  obtain ⟨r, hr⟩ := h.2 ⟨fun _ hg => (nomatch hg), fun _ _ _ _ _ hg => (nomatch hg)⟩
    (fun _ _ => ⟨"0 8 *", rfl⟩)
  obtain ⟨f3, f5, h3, h5, _, hb, _⟩ := h.1 r hr
  have h3v : f3 = ⟨[], []⟩ := (Except.ok.inj h3).symm
  have h5v : f5 = ⟨[], []⟩ := (Except.ok.inj h5).symm
  subst h3v h5v
  obtain ⟨he, hw⟩ := hb "0 8 *" rfl (by decide) (by decide)
  exact ⟨r, hr, he, hw⟩

theorem allOk_append (engine : Engine) (cs1 : List ApiCall) :
    ∀ (tr cs2 : List ApiCall),
      AllOk engine tr (cs1 ++ cs2) ↔ AllOk engine tr cs1 ∧ AllOk engine (tr ++ cs1) cs2 := by
  induction cs1 with
  | nil => intro tr cs2; simp [AllOk]
  | cons c cs1 ih =>
    intro tr cs2
    have h := ih (tr ++ [c]) cs2
    simp only [List.append_assoc, List.singleton_append] at h
    show (_ ∧ AllOk engine (tr ++ [c]) (cs1 ++ cs2)) ↔ _
    simp only [AllOk, h, and_assoc, List.append_assoc, List.singleton_append]

theorem allOk_split (engine : Engine) (tr cs p q : List ApiCall) (c : ApiCall)
    (h : AllOk engine tr cs) (hs : cs = p ++ c :: q) : ∃ v, engine (tr ++ p) c = .ok v := by
  subst hs
  exact ((allOk_append engine p tr (c :: q)).mp h).2.1

theorem failFast_pure (engine : Engine) (S : Prop) (tr : List ApiCall) {α : Type} (a : α) :
    FailFast engine S tr ((pure a : Run ApiCall α) tr) :=
  ⟨[], by simp [run_pure], by simp, Or.inl ⟨trivial, fun _ => ⟨a, rfl⟩⟩⟩

theorem failFast_lift (engine : Engine) (S : Prop) (tr : List ApiCall) {α : Type}
    (x : Except Thrown α) (h : S → ∃ a, x = .ok a) :
    FailFast engine S tr ((Run.lift x : Run ApiCall α) tr) :=
  ⟨[], by simp [Run.lift], by simp, Or.inl ⟨trivial, h⟩⟩

theorem failFast_call (engine : Engine) (S : Prop) (tr : List ApiCall) (c : ApiCall)
    (hc : c.method = "POST") :
    FailFast engine S tr (Run.call engine c tr) := by
  refine ⟨[c], rfl, by simpa using hc, ?_⟩
  cases h : engine tr c with
  | ok v =>
    exact Or.inl ⟨⟨⟨v, h⟩, trivial⟩, fun _ => ⟨v, by simp [Run.call, h]⟩⟩
  | error e =>
    exact Or.inr ⟨[], c, e, rfl, trivial, by simpa using h, by simp [Run.call, h]⟩

theorem failFast_bind (engine : Engine) (S : Prop) (tr : List ApiCall) {α β : Type}
    (m : Run ApiCall α) (f : α → Run ApiCall β)
    (hm : FailFast engine S tr (m tr))
    (hf : ∀ a tr1, m tr = (tr1, .ok a) → FailFast engine S tr1 (f a tr1)) :
    FailFast engine S tr ((m >>= f) tr) := by
  rcases hmt : m tr with ⟨tr1, a | a⟩
  · rw [run_bind_error _ _ _ _ _ hmt]
    rw [hmt] at hm
    obtain ⟨cs, h1, h2, h3⟩ := hm
    refine ⟨cs, h1, h2, ?_⟩
    rcases h3 with ⟨hok, hs⟩ | ⟨cs0, c, e, hcs, hok, he, hr⟩
    · refine Or.inl ⟨hok, fun s => ?_⟩
      obtain ⟨x, hx⟩ := hs s
      simp at hx
    · refine Or.inr ⟨cs0, c, e, hcs, hok, he, ?_⟩
      simp only [Except.error.injEq] at hr
      simp [hr]
  · rw [run_bind_ok _ _ _ _ _ hmt]
    rw [hmt] at hm
    obtain ⟨cs, h1, h2, h3⟩ := hm
    simp only at h1
    have hok1 : AllOk engine tr cs := by
      rcases h3 with ⟨hok, _⟩ | ⟨cs0, c, e, _, _, _, hr⟩
      · exact hok
      · simp at hr
    obtain ⟨cs2, g1, g2, g3⟩ := hf a tr1 hmt
    refine ⟨cs ++ cs2, by rw [g1, h1, List.append_assoc], ?_, ?_⟩
    · intro c hc
      rcases List.mem_append.mp hc with h | h
      · exact h2 c h
      · exact g2 c h
    · rcases g3 with ⟨gok, gs⟩ | ⟨cs0, c, e, gcs, gok, ge, gr⟩
      · refine Or.inl ⟨(allOk_append engine cs tr cs2).mpr ⟨hok1, by rw [← h1]; exact gok⟩, gs⟩
      · refine Or.inr ⟨cs ++ cs0, c, e, by rw [gcs, List.append_assoc], ?_, ?_, gr⟩
        · exact (allOk_append engine cs tr cs0).mpr ⟨hok1, by rw [← h1]; exact gok⟩
        · rw [← List.append_assoc, ← h1]; exact ge

theorem run_lift_eq_ok {α : Type} (x : Except Thrown α) (tr tr1 : List ApiCall) (a : α)
    (h : (Run.lift x : Run ApiCall α) tr = (tr1, .ok a)) : x = .ok a ∧ tr1 = tr := by
  simp only [Run.lift, Prod.mk.injEq] at h
  exact ⟨h.2, h.1.symm⟩

theorem failFast_addBranchChildren (engine : Engine) (S : Prop) (flowId : JVal)
    (stepName side inside : String) (ys : List JVal)
    (hys : S → ∀ y ∈ ys, y.isNullish = false) :
    ∀ (parent : String) (k : Nat) (tr : List ApiCall),
      FailFast engine S tr
        (addBranchChildren engine flowId stepName side inside parent k ys tr) := by
  induction ys with
  | nil => intro parent k tr; exact failFast_pure engine S tr ()
  | cons y ys ih =>
    intro parent k tr
    unfold addBranchChildren
    apply failFast_bind
    · apply failFast_lift
      intro s
      exact buildActionSettings_returns y (hys s y (List.mem_cons_self _ _))
    · intro settings tr1 _
      apply failFast_bind
      · exact failFast_call engine S tr1 _ rfl
      · intro _ tr2 _
        exact ih (fun s z hz => hys s z (List.mem_cons_of_mem _ hz)) _ _ tr2

theorem failFast_addBranchSide (rt : Runtime) (engine : Engine) (S : Prop) (flowId : JVal)
    (stepName side inside : String) (children : JVal)
    (hch : S → WellFormedChildren children) (tr : List ApiCall) :
    FailFast engine S tr
      (addBranchSide rt engine flowId stepName side inside children tr) := by
  unfold addBranchSide
  split
  · rename_i hcond
    have htruthy : children.truthy = true := by
      simp only [Bool.and_eq_true] at hcond
      exact hcond.1
    apply failFast_bind
    · apply failFast_lift
      intro s
      rcases hch s with h | ⟨ys, rfl, _⟩
      · rw [h] at htruthy; cases htruthy
      · exact ⟨ys, rfl⟩
    · intro subActions tr1 hrun
      obtain ⟨hit, _⟩ := run_lift_eq_ok _ _ _ _ hrun
      apply failFast_addBranchChildren
      intro s
      rcases hch s with h | ⟨ys, rfl, hall⟩
      · rw [h] at htruthy; cases htruthy
      · simp only [iterate, Except.ok.injEq] at hit
        subst hit
        exact hall
  · exact failFast_pure engine S tr ()

theorem failFast_addBranch (rt : Runtime) (engine : Engine) (S : Prop) (flowId action : JVal)
    (parentStep stepName : String)
    (hn : S → action.isNullish = false)
    (hch : S → WellFormedChildren (action.get "onSuccessActions") ∧
      WellFormedChildren (action.get "onFailureActions"))
    (tr : List ApiCall) :
    FailFast engine S tr (addBranch rt engine flowId action parentStep stepName tr) := by
  unfold addBranch
  apply failFast_bind
  · apply failFast_lift
    intro s
    exact ⟨_, getProp_ok _ _ (hn s)⟩
  · intro _ tr1 _
    apply failFast_bind
    · exact failFast_call engine S tr1 _ rfl
    · intro _ tr2 _
      apply failFast_bind
      · exact failFast_addBranchSide rt engine S flowId stepName _ _ _ (fun s => (hch s).1) tr2
      · intro _ tr3 _
        apply failFast_bind
        · exact failFast_addBranchSide rt engine S flowId stepName _ _ _ (fun s => (hch s).2) tr3
        · intro _ tr4 _
          exact failFast_pure engine S tr4 stepName

theorem failFast_addAction (rt : Runtime) (engine : Engine) (S : Prop) (flowId action : JVal)
    (parentStep : String) (index : Nat)
    (hn : S → action.isNullish = false)
    (hch : S → (action.get "type").isStr "BRANCH" = true →
      WellFormedChildren (action.get "onSuccessActions") ∧
      WellFormedChildren (action.get "onFailureActions"))
    (tr : List ApiCall) :
    FailFast engine S tr (addAction rt engine flowId action parentStep index tr) := by
  unfold addAction
  apply failFast_bind
  · apply failFast_lift
    intro s
    exact ⟨_, getProp_ok _ _ (hn s)⟩
  · intro ty tr1 hrun
    obtain ⟨hty, _⟩ := run_lift_eq_ok _ _ _ _ hrun
    have hty2 : action.isNullish = false ∧ ty = action.get "type" :=
      (getProp_eq_ok _ _ _).mp hty
    split
    · rename_i hb
      apply failFast_addBranch rt engine S flowId action parentStep _ hn
      intro s
      exact hch s (by rw [← hty2.2]; exact hb)
    · apply failFast_bind
      · apply failFast_lift
        intro _
        exact buildActionSettings_returns action hty2.1
      · intro settings tr2 _
        apply failFast_bind
        · exact failFast_call engine S tr2 _ rfl
        · intro _ tr3 _
          exact failFast_pure engine S tr3 _

theorem failFast_addActions (rt : Runtime) (engine : Engine) (S : Prop) (flowId : JVal)
    (xs : List JVal)
    (hxs : S → ∀ a ∈ xs, a.isNullish = false ∧
      ((a.get "type").isStr "BRANCH" = true →
        WellFormedChildren (a.get "onSuccessActions") ∧
        WellFormedChildren (a.get "onFailureActions"))) :
    ∀ (parent : String) (k : Nat) (tr : List ApiCall),
      FailFast engine S tr (addActions rt engine flowId parent k xs tr) := by
  induction xs with
  | nil => intro parent k tr; exact failFast_pure engine S tr k
  | cons x xs ih =>
    intro parent k tr
    unfold addActions
    apply failFast_bind
    · exact failFast_addAction rt engine S flowId x parent k
        (fun s => (hxs s x (List.mem_cons_self _ _)).1)
        (fun s => (hxs s x (List.mem_cons_self _ _)).2) tr
    · intro stepName tr1 _
      exact ih (fun s a ha => hxs s a (List.mem_cons_of_mem _ ha)) _ _ tr1

theorem failFast_buildSteps (rt : Runtime) (fb : FlowBuilder) (engine : Engine)
    (flow : JVal) (options : BuildOptions) (flowId : JVal) (tr : List ApiCall) :
    FailFast engine (WellFormedFlow flow) tr
      (buildSteps rt fb engine flow options flowId tr) := by
  unfold buildSteps
  apply failFast_bind
  · apply failFast_lift
    intro s
    exact ⟨_, getProp_ok _ _ s.1⟩
  · intro trigger tr1 hrun
    obtain ⟨htr, _⟩ := run_lift_eq_ok _ _ _ _ hrun
    have htr2 := (getProp_eq_ok _ _ _).mp htr
    apply failFast_bind
    · unfold updateTrigger
      apply failFast_bind
      · apply failFast_lift
        intro s
        apply buildTriggerSettings_returns
        rw [htr2.2]; exact s.2.1
      · intro settings tr2 _
        exact failFast_call engine _ tr2 _ rfl
    · intro _ tr2 _
      apply failFast_bind
      · apply failFast_lift
        intro s
        obtain ⟨_, _, xs, hx, _⟩ := s
        exact ⟨xs, by rw [hx]; rfl⟩
      · intro actions tr3 hrun3
        obtain ⟨hit, _⟩ := run_lift_eq_ok _ _ _ _ hrun3
        apply failFast_bind
        · apply failFast_addActions
          intro s
          obtain ⟨_, _, xs, hx, hall⟩ := s
          rw [hx] at hit
          simp only [iterate, Except.ok.injEq] at hit
          subst hit
          exact hall
        · intro stepIndex tr4 _
          split
          · apply failFast_bind
            · exact failFast_call engine _ tr4 _ rfl
            · intro _ tr5 _
              apply failFast_bind
              · exact failFast_pure engine _ tr5 _
              · intro _ tr6 _
                exact failFast_pure engine _ tr6 _
          · apply failFast_bind
            · exact failFast_pure engine _ tr4 _
            · intro _ tr5 _
              exact failFast_pure engine _ tr5 _

/-- The cleanup handler of `buildFlow`: one `DELETE`, whose outcome is ignored, then the
original error. -/
theorem cleanup_handler (engine : Engine) (flowId : JVal) (error : Thrown)
    (tr : List ApiCall) :
    ((do
        Run.tryCatch
          (do let _ ← Run.call engine (deleteCall flowId)
              pure ())
          (fun _ => pure ())
        Run.lift (.error error)) : Run ApiCall BuildResult) tr =
      (tr ++ [deleteCall flowId], .error error) := by
  have h : Run.tryCatch
      (do let _ ← Run.call engine (deleteCall flowId)
          pure ())
      (fun _ => (pure () : Run ApiCall Unit)) tr = (tr ++ [deleteCall flowId], .ok ()) := by
    cases hd : engine tr (deleteCall flowId) with
    | ok v =>
      apply run_tryCatch_ok
      rw [run_call_ok_bind _ _ _ _ _ hd]
      rfl
    | error e =>
      rw [run_tryCatch_error _ _ _ (tr ++ [deleteCall flowId]) e]
      · rfl
      · apply run_bind_error
        simp [Run.call, hd]
  rw [run_bind_ok _ _ _ _ _ h]
  rfl

theorem buildFlow_after_create (rt : Runtime) (fb : FlowBuilder) (engine : Engine)
    (flow : JVal) (options : BuildOptions) (resp : JVal)
    (hflow : flow.isNullish = false)
    (hcreate : engine [] (createFlowCall fb flow options) = .ok resp)
    (hresp : resp.isNullish = false) :
    buildFlow rt fb engine flow options [] =
      (match buildSteps rt fb engine flow options (resp.get "id")
          [createFlowCall fb flow options] with
       | (tr1, .ok r) => (tr1, .ok r)
       | (tr1, .error e) => (tr1 ++ [deleteCall (resp.get "id")], .error e)) := by
  unfold buildFlow
  simp only [getProp_ok _ _ hflow, run_lift_ok_bind]
  rw [run_call_ok_bind _ _ _ _ _ hcreate]
  simp only [getProp_ok _ _ hresp, run_lift_ok_bind, List.nil_append]
  rcases hsteps : buildSteps rt fb engine flow options (resp.get "id")
      [createFlowCall fb flow options] with ⟨tr1, e | r⟩
  · rw [run_tryCatch_error _ _ _ _ _ hsteps]
    exact cleanup_handler engine (resp.get "id") e tr1
  · rw [run_tryCatch_ok _ _ _ _ _ hsteps]

theorem buildFlow_create_fails (rt : Runtime) (fb : FlowBuilder) (engine : Engine)
    (flow : JVal) (options : BuildOptions) (e : Thrown)
    (hflow : flow.isNullish = false)
    (hcreate : engine [] (createFlowCall fb flow options) = .error e) :
    buildFlow rt fb engine flow options [] = ([createFlowCall fb flow options], .error e) := by
  unfold buildFlow
  simp only [getProp_ok _ _ hflow, run_lift_ok_bind]
  apply run_bind_error
  simp [Run.call, hcreate]

theorem post_ne_delete (c : ApiCall) (h : c.method = "POST") : c.method ≠ "DELETE" := by
  rw [h]; decide

theorem concat_eq_split {α : Type} (cs0 p q : List α) (c0 c : α)
    (h : cs0 ++ [c0] = p ++ c :: q) :
    (q = [] ∧ cs0 = p ∧ c0 = c) ∨ (∃ q0, cs0 = p ++ c :: q0 ∧ q = q0 ++ [c0]) := by
  rcases List.eq_nil_or_concat q with rfl | ⟨q0, x, rfl⟩
  · left
    have h2 : cs0 ++ [c0] = p ++ [c] := h
    obtain ⟨h3, h4⟩ := List.append_inj' h2 rfl
    exact ⟨rfl, h3, by simpa using h4⟩
  · right
    have h2 : cs0 ++ [c0] = (p ++ c :: q0) ++ [x] := by
      rw [h]; simp
    obtain ⟨h3, h4⟩ := List.append_inj' h2 rfl
    have h5 : c0 = x := by simpa using h4
    exact ⟨q0, h3, by rw [h5]; simp⟩

/-- The method `buildFlow` and the shell it created. When create-flow-shell fails, it is
the only call and its error is the outcome. When it succeeds with id `f`: a later call
`c` of the build that fails (a call other than the cleanup `DELETE`, issued after the
calls `pre`) is followed by exactly one call, the `DELETE` of flow `f`, whatever that
`DELETE` answers; no `DELETE` was issued up to `c`; and the outcome is the error of
`c`. When every call issued succeeds on a well-formed flow, no `DELETE` is issued and
the build returns. -/
theorem buildFlow_cleanup_trace (rt : Runtime) (fb : FlowBuilder) (engine : Engine)
    (flow : JVal) (options : BuildOptions) (hflow : flow.isNullish = false) :
    (∀ e, engine [] (createFlowCall fb flow options) = .error e →
      buildFlow rt fb engine flow options [] = ([createFlowCall fb flow options], .error e)) ∧
    (∀ resp, engine [] (createFlowCall fb flow options) = .ok resp → resp.isNullish = false →
      (∀ pre c post e,
        (buildFlow rt fb engine flow options []).1 = pre ++ c :: post →
        pre ≠ [] → c.method ≠ "DELETE" → engine pre c = .error e →
        post = [deleteCall (resp.get "id")] ∧
        (buildFlow rt fb engine flow options []).2 = .error e ∧
        ∀ d ∈ pre ++ [c], d.method ≠ "DELETE") ∧
      (WellFormedFlow flow →
        (∀ pre c post, (buildFlow rt fb engine flow options []).1 = pre ++ c :: post →
          ∃ v, engine pre c = .ok v) →
        (∀ d ∈ (buildFlow rt fb engine flow options []).1, d.method ≠ "DELETE") ∧
        ∃ res, (buildFlow rt fb engine flow options []).2 = .ok res)) := by
  refine ⟨fun e he => buildFlow_create_fails rt fb engine flow options e hflow he, ?_⟩
  intro resp hcreate hresp
  have hff := failFast_buildSteps rt fb engine flow options (resp.get "id")
    [createFlowCall fb flow options]
  rw [buildFlow_after_create rt fb engine flow options resp hflow hcreate hresp]
  rcases hsteps : buildSteps rt fb engine flow options (resp.get "id")
      [createFlowCall fb flow options] with ⟨tr1, e1 | r⟩
  · -- the steps threw: one `DELETE` follows
    rw [hsteps] at hff
    obtain ⟨cs, h1, hpost, hcases⟩ := hff
    simp only at h1
    subst h1
    simp only
    constructor
    · intro pre c post e hsplit hpre hcm hce
      obtain ⟨p0, pre1, rfl⟩ := List.exists_cons_of_ne_nil hpre
      simp only [List.singleton_append, List.cons_append, List.cons.injEq] at hsplit
      obtain ⟨rfl, hsplit⟩ := hsplit
      -- the failing call is not the cleanup call
      have hc_in : ∃ q, cs = pre1 ++ c :: q ∧ post = q ++ [deleteCall (resp.get "id")] := by
        rcases concat_eq_split cs pre1 post (deleteCall (resp.get "id")) c hsplit with
          ⟨_, _, hdc⟩ | ⟨q0, hq1, hq2⟩
        · exact absurd (by rw [← hdc]; rfl) hcm
        · exact ⟨q0, hq1, hq2⟩
      obtain ⟨q, hcs, hpostq⟩ := hc_in
      rcases hcases with ⟨hok, _⟩ | ⟨cs0, c0, e0, hcs0, hok0, he0, hr0⟩
      · obtain ⟨v, hv⟩ := allOk_split engine _ cs pre1 q c hok hcs
        simp only [List.singleton_append] at hv
        rw [hv] at hce; cases hce
      · rw [hcs0] at hcs
        rcases concat_eq_split cs0 pre1 q c0 c hcs with ⟨rfl, rfl, rfl⟩ | ⟨q0, hq1, _⟩
        · simp only [List.singleton_append] at he0
          rw [he0] at hce
          cases hce
          refine ⟨by simpa using hpostq, hr0, ?_⟩
          intro d hd
          simp only [List.cons_append, List.mem_cons, List.mem_append, List.mem_singleton] at hd
          rcases hd with rfl | hd
          · exact post_ne_delete _ rfl
          · exact post_ne_delete _ (hpost d (by rw [hcs0]; simpa using hd))
        · obtain ⟨v, hv⟩ := allOk_split engine _ cs0 pre1 q0 c hok0 hq1
          simp only [List.singleton_append] at hv
          rw [hv] at hce; cases hce
    · intro hwf hall
      exfalso
      rcases hcases with ⟨_, hs⟩ | ⟨cs0, c0, e0, hcs0, _, he0, _⟩
      · obtain ⟨a, ha⟩ := hs hwf
        simp at ha
      · obtain ⟨v, hv⟩ := hall ([createFlowCall fb flow options] ++ cs0) c0
          [deleteCall (resp.get "id")] (by rw [hcs0]; simp)
        rw [hv] at he0; cases he0
  · -- the steps returned: no `DELETE`
    rw [hsteps] at hff
    obtain ⟨cs, h1, hpost, hcases⟩ := hff
    simp only at h1
    subst h1
    simp only
    have hok : AllOk engine [createFlowCall fb flow options] cs := by
      rcases hcases with ⟨hok, _⟩ | ⟨_, _, _, _, _, _, hr0⟩
      · exact hok
      · simp at hr0
    constructor
    · intro pre c post e hsplit hpre _ hce
      exfalso
      obtain ⟨p0, pre1, rfl⟩ := List.exists_cons_of_ne_nil hpre
      simp only [List.singleton_append, List.cons_append, List.cons.injEq] at hsplit
      obtain ⟨rfl, hsplit⟩ := hsplit
      obtain ⟨v, hv⟩ := allOk_split engine _ cs pre1 post c hok hsplit
      simp only [List.singleton_append] at hv
      rw [hv] at hce; cases hce
    · intro _ _
      refine ⟨?_, r, rfl⟩
      intro d hd
      simp only [List.singleton_append, List.mem_cons] at hd
      rcases hd with rfl | hd
      · exact post_ne_delete _ rfl
      · exact post_ne_delete _ (hpost d hd)

/-- **C9.** A candidate that passes the structural pass and carries a truthy `error`
field makes `validateFlowOutput` return `valid = false`, `isUserError = true`, the
one-element list holding that error value and no warnings, whatever the catalog, the
trigger and the actions; and when the first candidate that `convertToFlow` obtains is
such a candidate, the initial call is the only call it makes to the IR producer. -/
theorem user_declared_error (flow : JVal) (hs : validateSchema flow = [])
    (he : (flow.get "error").truthy = true) :
    (∀ reg, validateFlowOutput flow reg =
      .ok { valid := false, errors := [flow.get "error"], warnings := [],
            isUserError := true }) ∧
    (∀ (rt : Runtime) (producer : Producer) (providerName : Except Thrown JVal)
        (userMessage : JVal) (registry : Registry) (history catalog : List JVal)
        (result : AIResult),
      registry.getCompactListForAI = .ok catalog →
      producer [] (initialCall rt userMessage catalog history) = .ok result →
      parseCandidate rt result.text = .ok flow →
      (convertToFlow rt producer providerName userMessage registry history []).1 =
        [initialCall rt userMessage catalog history]) := by
  refine ⟨fun reg => validateFlowOutput_user_error flow reg hs he, ?_⟩
  intro rt producer providerName userMessage registry history catalog result hcat hcall hparse
  have hfirst : Run.tryCatch
      (Run.call producer (initialCall rt userMessage catalog history))
      (fun err => Run.lift (.error
        (.aiEngineError ("AI call failed: " ++ err.message) "AI_CALL_FAILED"
          (.str err.message)))) [] =
      ([initialCall rt userMessage catalog history], .ok result) := by
    apply run_tryCatch_ok
    simp [Run.call, hcall]
  unfold convertToFlow
  simp only [hcat, run_lift_ok_bind]
  rw [run_bind_ok _ _ _ _ _ hfirst]
  simp only [hparse, run_lift_ok_bind, validateFlowOutput_user_error flow _ hs he]
  simp only [Bool.not_false, List.length_singleton, gt_iff_lt, zero_lt_one, decide_True,
    Bool.and_self, Bool.not_true, Bool.and_false, Bool.false_eq_true, ↓reduceIte]
  cases providerName with
  | ok p => rfl
  | error e => rfl

/-- C9 at a structurally valid flow that carries an `error` field. -/
theorem user_declared_error_witness :
    validateFlowOutput declinedFlow (some knowsNothing) =
      .ok { valid := false, errors := [.str "not possible"], warnings := [],
            isUserError := true } ∧
    (convertToFlow (refusalRuntime declinedFlow) refusingProducer (.ok (.str "Groq"))
        (.str "send a mail") knowsNothing [] []).1 =
      [initialCall (refusalRuntime declinedFlow) (.str "send a mail") [] []] :=
  ⟨(user_declared_error declinedFlow rfl rfl).1 (some knowsNothing),
   (user_declared_error declinedFlow rfl rfl).2 (refusalRuntime declinedFlow) refusingProducer
     (.ok (.str "Groq")) (.str "send a mail") knowsNothing [] [] _ rfl rfl rfl⟩

/-- **C10 (the code at the failing input).** A refusal `\x7b"error": reason\x7d` fails
the structural pass, whatever the reason and the catalog: `validateFlowOutput` returns
the three structural errors without `isUserError`. When the producer answers with the
refusal, `convertToFlow` issues the repair call after the initial one. -/
theorem refusal_shape_is_repaired :
    (∀ (reason : JVal) (reg : Option Registry),
      validateFlowOutput (.obj [("error", reason)]) reg =
        .ok { valid := false,
              errors := [.str "displayName مطلوب ولازم يكون نص", .str "trigger مطلوب",
                .str "actions مطلوبة ولازم تكون مصفوفة فيها عنصر واحد على الأقل"],
              warnings := [], isUserError := false }) ∧
    (convertToFlow (refusalRuntime refusal) refusingProducer (.ok (.str "Groq"))
        (.str "طلب") knowsAll [] []).1 =
      [initialCall (refusalRuntime refusal) (.str "طلب") [] [],
        retryCall (refusalRuntime refusal) (.str "طلب") refusal
          [.str "displayName مطلوب ولازم يكون نص", .str "trigger مطلوب",
            .str "actions مطلوبة ولازم تكون مصفوفة فيها عنصر واحد على الأقل"] []] := by
  constructor
  · intro reason reg
    rfl
  · rfl

/-- `PiecesRegistry.validate` returns a result for every piece identifier that is a
string, unless the string is the name of an inherited property and no piece bears it. -/
theorem PiecesRegistry.validate_returns (rt : Runtime) (this : PiecesRegistry) (p : String)
    (n : JVal) (hp : (this.pieces.lookup p).isSome = true ∨ inheritedNames.contains p = false) :
    ∃ chk, this.validate rt (.str p) n = .ok chk := by
  unfold PiecesRegistry.validate
  simp only [toStr]
  cases hl : this.pieces.lookup p with
  | some piece =>
    simp only
    split
    · split <;> exact ⟨_, rfl⟩
    · exact ⟨_, rfl⟩
  | none =>
    rcases hp with h | h
    · rw [hl] at h; cases h
    · simp only [h, Bool.false_eq_true, ↓reduceIte, PiecesRegistry.findSimilar]
      exact ⟨_, rfl⟩

/-! ### The safety guard -/

theorem parseInt_eq_ofDigits (ds : List Char) :
    parseInt ⟨ds⟩ = Nat.ofDigits 10 (ds.reverse.map (fun c => c.toNat - 48)) := by
  unfold parseInt
  simp only
  induction ds using List.reverseRecOn with
  | nil => simp
  | append_singleton ds c ih =>
    simp only [List.foldl_append, List.foldl_cons, List.foldl_nil, ih, List.reverse_append,
      List.reverse_cons, List.reverse_nil, List.nil_append, List.singleton_append, List.map_cons,
      Nat.ofDigits_cons]
    omega

theorem takeWhile_digits_append (ds rest : List Char) (hd : ∀ c ∈ ds, c.isDigit = true)
    (hr : ∀ c ∈ rest.head?, c.isDigit = false) :
    (ds ++ rest).takeWhile Char.isDigit = ds := by
  rw [List.takeWhile_append_of_pos hd]
  cases rest with
  | nil => simp
  | cons c cs =>
    have : c.isDigit = false := hr c (by simp)
    simp [List.takeWhile_cons, this]

/-- The step test of `safeguardFlow` in the words of the specification. -/
theorem matchStep_below_iff (cron : String) (bound : Nat) :
    (∃ d, matchStep cron = some d ∧ parseInt d < bound) ↔ BeginsWithStepBelow bound cron := by
  unfold matchStep BeginsWithStepBelow
  constructor
  · rintro ⟨d, hm, hv⟩
    rcases hdata : cron.data with _ | ⟨a, _ | ⟨b, rest0⟩⟩
    · rw [hdata] at hm; simp at hm
    · rw [hdata] at hm; simp at hm
    · rw [hdata] at hm
      simp only at hm
      split at hm
      · rename_i hc
        simp only [Bool.and_eq_true, beq_iff_eq, Bool.not_eq_true'] at hc
        obtain ⟨⟨rfl, rfl⟩, hne⟩ := hc
        simp only [Option.some.injEq] at hm
        subst hm
        refine ⟨rest0.takeWhile Char.isDigit, rest0.dropWhile Char.isDigit, ?_, ?_, ?_, ?_, ?_⟩
        · simp
        · intro h; rw [h] at hne; simp at hne
        · intro c hc; exact List.mem_takeWhile_imp hc
        · intro c hc
          have := List.head?_dropWhile_not Char.isDigit rest0
          rw [Option.mem_def.mp hc] at this
          simpa using this
        · rw [← parseInt_eq_ofDigits]; exact hv
      · simp at hm
  · rintro ⟨ds, rest, hdata, hne, hd, hr, hv⟩
    rw [hdata]
    simp only [takeWhile_digits_append ds rest hd hr]
    refine ⟨⟨ds⟩, ?_, ?_⟩
    · have : ds.isEmpty = false := by cases ds <;> simp_all
      simp [this]
    · rw [parseInt_eq_ofDigits]; exact hv

theorem jsStartsWith_iff (s t : String) : jsStartsWith s t = true ↔ t.data <+: s.data := by
  unfold jsStartsWith
  exact List.isPrefixOf_iff_prefix

theorem not_nullish_of_get_str (v : JVal) (k s : String) (h : v.get k = .str s) :
    v.isNullish = false := by
  cases v <;> simp_all [JVal.get, isNullish]

theorem isStr_iff (v : JVal) (lit : String) : v.isStr lit = true ↔ v = .str lit := by
  cases v <;> simp [isStr]

theorem safeguardFlow_ok_iff (flow : JVal) (r : SafetyResult) :
    safeguardFlow flow = .ok r ↔
      ∃ s xs b, safeguardSchedule flow = .ok s ∧ flow.isNullish = false ∧
        (flow.get "trigger").isNullish = false ∧ flow.get "actions" = .arr xs ∧
        someCallsHttp xs = .ok b ∧
        r = { safe := (s.blocks ++
                (if xs.length > 30 then [JVal.str "❌ أكثر من 30 خطوة — قسم الـ Flow"]
                 else [])).length == 0,
              blocks := s.blocks ++
                (if xs.length > 30 then [.str "❌ أكثر من 30 خطوة — قسم الـ Flow"] else []),
              warnings := s.warnings ++
                (if ((flow.get "trigger").get "type").isStr "WEBHOOK" && b then
                  [.str "⚠️ الـ Flow يستقبل webhook ويرسل HTTP — تأكد ما فيه حلقة"]
                 else []) } := by
  unfold safeguardFlow
  constructor
  · intro h
    rw [except_bind_eq_ok] at h
    obtain ⟨s, hs, h⟩ := h
    rw [except_bind_eq_ok] at h
    obtain ⟨t, ht, h⟩ := h
    obtain ⟨hn, rfl⟩ := (getProp_eq_ok _ _ _).mp ht
    rw [except_bind_eq_ok] at h
    obtain ⟨ty, hty, h⟩ := h
    obtain ⟨hn2, rfl⟩ := (getProp_eq_ok _ _ _).mp hty
    cases hx : flow.get "actions" with
    | arr xs =>
      rw [hx] at h
      simp only at h
      rw [except_bind_eq_ok] at h
      obtain ⟨b, hb, h⟩ := h
      exact ⟨s, xs, b, hs, hn, hn2, rfl, hb, (Except.ok.inj h).symm⟩
    | _ => rw [hx] at h; simp [throw, throwThe, MonadExceptOf.throw] at h
  · rintro ⟨s, xs, b, hs, hn, hn2, hx, hb, rfl⟩
    simp only [hs, except_ok_bind, getProp_ok _ _ hn, getProp_ok _ _ hn2, hx, hb]
    rfl

theorem safeguardSchedule_schedule (flow : JVal) (cron : String)
    (hty : (flow.get "trigger").get "type" = .str "SCHEDULE")
    (hcron : orElse (getOpt ((flow.get "trigger").get "input") "cronExpression") (.str "")
      = .str cron) :
    safeguardSchedule flow =
      .ok { blocks := underFiveBlocks cron, warnings := everyMinuteWarnings cron } := by
  have hn2 := not_nullish_of_get_str _ _ _ hty
  have hn : flow.isNullish = false := by
    cases flow <;> simp_all [JVal.get, isNullish]
  unfold safeguardSchedule
  simp only [getProp_ok _ _ hn, getProp_ok _ _ hn2, except_ok_bind, hty, isStr, hcron]
  simp

theorem safeguardSchedule_blocks (flow : JVal) (s : Cautions)
    (h : safeguardSchedule flow = .ok s) :
    s.blocks = [] ∨ s.blocks = [.str "❌ التكرار أقل من 5 دقائق — مرفوض"] := by
  unfold safeguardSchedule at h
  rw [except_bind_eq_ok] at h
  obtain ⟨t, ht, h⟩ := h
  rw [except_bind_eq_ok] at h
  obtain ⟨ty, hty, h⟩ := h
  split at h
  · split at h
    · have := Except.ok.inj h
      subst this
      simp only [underFiveBlocks]
      split
      · split
        · exact Or.inr rfl
        · exact Or.inl rfl
      · exact Or.inl rfl
    · simp [throw, throwThe, MonadExceptOf.throw] at h
  · have := Except.ok.inj h
    subst this
    exact Or.inl rfl

theorem safeguardSchedule_returns (flow : JVal) (hn : flow.isNullish = false)
    (hn2 : (flow.get "trigger").isNullish = false) (hs : ScheduleReadable flow) :
    ∃ s, safeguardSchedule flow = .ok s := by
  unfold safeguardSchedule
  simp only [getProp_ok _ _ hn, getProp_ok _ _ hn2, except_ok_bind]
  split
  · rename_i hty
    obtain ⟨c, hc⟩ := hs ((isStr_iff _ _).mp hty)
    rw [hc]
    exact ⟨_, rfl⟩
  · exact ⟨_, rfl⟩

theorem someCallsHttp_returns (xs : List JVal) (h : ∀ a ∈ xs, PieceNameReadable a) :
    ∃ b, someCallsHttp xs = .ok b := by
  induction xs with
  | nil => exact ⟨false, rfl⟩
  | cons x xs ih =>
    obtain ⟨hn, hr⟩ := h x (List.mem_cons_self _ _)
    have hinc : ∀ needle, ∃ b, pieceNameIncludes (x.get "pieceName") needle = .ok b := by
      intro needle
      cases hp : x.get "pieceName" <;> simp_all [includesReadable, pieceNameIncludes]
    obtain ⟨b1, hb1⟩ := hinc "http"
    obtain ⟨b2, hb2⟩ := hinc "webhook"
    obtain ⟨b3, hb3⟩ := ih (fun a ha => h a (List.mem_cons_of_mem _ ha))
    simp only [someCallsHttp, callsHttpAction, getProp_ok _ _ hn, except_ok_bind, hb1, hb2]
    cases b1 <;> cases b2 <;> simp [hb3]

/-- `safeguardFlow` returns a result on a flow with a trigger and an array of actions,
when the values it calls string or array methods on have them. -/
theorem safeguardFlow_returns (flow : JVal) (xs : List JVal) (hn : flow.isNullish = false)
    (hn2 : (flow.get "trigger").isNullish = false) (hx : flow.get "actions" = .arr xs)
    (hs : ScheduleReadable flow) (hp : ∀ a ∈ xs, PieceNameReadable a) :
    ∃ r, safeguardFlow flow = .ok r := by
  obtain ⟨s, hs2⟩ := safeguardSchedule_returns flow hn hn2 hs
  obtain ⟨b, hb⟩ := someCallsHttp_returns xs hp
  exact ⟨_, (safeguardFlow_ok_iff flow _).mpr ⟨s, xs, b, hs2, hn, hn2, hx, hb, rfl⟩⟩

theorem mem_underFiveBlocks (cron : String) :
    JVal.str "❌ التكرار أقل من 5 دقائق — مرفوض" ∈ underFiveBlocks cron ↔
      BeginsWithStepBelow 5 cron := by
  rw [← matchStep_below_iff]
  unfold underFiveBlocks
  cases hm : matchStep cron with
  | none => simp
  | some d =>
    by_cases hv : parseInt d < 5
    · simp [hv]
    · simp [hv]

theorem mem_everyMinuteWarnings (cron : String) :
    JVal.str "⚠️ التكرار كل دقيقة — ممكن يحمّل السيرفر" ∈ everyMinuteWarnings cron ↔
      ("* ".data <+: cron.data ∨ "*/1 ".data <+: cron.data) := by
  rw [← jsStartsWith_iff, ← jsStartsWith_iff]
  unfold everyMinuteWarnings
  by_cases h1 : jsStartsWith cron "* " = true <;> by_cases h2 : jsStartsWith cron "*/1 " = true <;>
    simp [h1, h2]

/-- **C11.** For a flow with a `SCHEDULE` trigger whose cron expression is the string
`cron` (the empty string when missing) and with at most 30 actions, every result of
`safeguardFlow` has the under-5-minutes block exactly when `cron` begins with `*/N` for a
decimal numeral `N` below 5, and the every-minute warning exactly when `cron` begins
with `* ` or `*/1 `. So `*/3 * * * *` is blocked, `*/10 * * * *` is not, and
`* * * * *` gets the warning and no block. `safeguardFlow` returns a result when the
actions have readable piece names. -/
theorem cron_frequency_classification (flow : JVal) (xs : List JVal) (cron : String)
    (hty : (flow.get "trigger").get "type" = .str "SCHEDULE")
    (hcron : orElse (getOpt ((flow.get "trigger").get "input") "cronExpression") (.str "")
      = .str cron)
    (hx : flow.get "actions" = .arr xs) (hlen : xs.length ≤ 30) :
    (∀ r, safeguardFlow flow = .ok r →
      (JVal.str "❌ التكرار أقل من 5 دقائق — مرفوض" ∈ r.blocks ↔ BeginsWithStepBelow 5 cron) ∧
      (JVal.str "⚠️ التكرار كل دقيقة — ممكن يحمّل السيرفر" ∈ r.warnings ↔
        ("* ".data <+: cron.data ∨ "*/1 ".data <+: cron.data)) ∧
      (cron = "*/3 * * * *" → r.blocks ≠ [] ∧ r.safe = false) ∧
      (cron = "*/10 * * * *" → r.blocks = []) ∧
      (cron = "* * * * *" →
        JVal.str "⚠️ التكرار كل دقيقة — ممكن يحمّل السيرفر" ∈ r.warnings ∧ r.blocks = [])) ∧
    ((∀ a ∈ xs, PieceNameReadable a) → ∃ r, safeguardFlow flow = .ok r) := by
  have hn2 := not_nullish_of_get_str _ _ _ hty
  have hn : flow.isNullish = false := by
    cases flow <;> simp_all [JVal.get, isNullish]
  refine ⟨?_, fun hp => safeguardFlow_returns flow xs hn hn2 hx (fun _ => ⟨cron, hcron⟩) hp⟩
  intro r hr
  obtain ⟨s, ys, b, hs, _, _, hy, _, rfl⟩ := (safeguardFlow_ok_iff flow r).mp hr
  have hxy : ys = xs := by rw [hx] at hy; exact (JVal.arr.inj hy).symm
  subst hxy
  rw [safeguardSchedule_schedule flow cron hty hcron] at hs
  have := Except.ok.inj hs
  subst this
  have hlen2 : ¬ ys.length > 30 := by omega
  simp only [hlen2, ↓reduceIte, List.append_nil, hty, isStr, String.reduceBEq,
    Bool.false_and, Bool.false_eq_true]
  refine ⟨mem_underFiveBlocks cron, mem_everyMinuteWarnings cron, ?_, ?_, ?_⟩
  · rintro rfl
    have h3 : underFiveBlocks "*/3 * * * *" = [.str "❌ التكرار أقل من 5 دقائق — مرفوض"] := rfl
    rw [h3]
    exact ⟨List.cons_ne_nil _ _, rfl⟩
  · rintro rfl
    rfl
  · rintro rfl
    have h1 : everyMinuteWarnings "* * * * *"
        = [.str "⚠️ التكرار كل دقيقة — ممكن يحمّل السيرفر"] := rfl
    rw [h1]
    exact ⟨List.mem_singleton.mpr rfl, rfl⟩

/-- The over-30-steps block is present in every result for more than 30 actions, with
`safe = false`, and absent from every result for at most 30 actions. -/
theorem safeguardFlow_step_block (flow : JVal) (xs : List JVal)
    (hx : flow.get "actions" = .arr xs) (r : SafetyResult) (hr : safeguardFlow flow = .ok r) :
    (30 < xs.length → JVal.str "❌ أكثر من 30 خطوة — قسم الـ Flow" ∈ r.blocks ∧ r.safe = false) ∧
    (xs.length ≤ 30 → JVal.str "❌ أكثر من 30 خطوة — قسم الـ Flow" ∉ r.blocks) := by
  obtain ⟨s, ys, b, hs, _, _, hy, _, rfl⟩ := (safeguardFlow_ok_iff flow r).mp hr
  have hxy : ys = xs := by rw [hx] at hy; exact (JVal.arr.inj hy).symm
  subst hxy
  constructor
  · intro h
    have h2 : ys.length > 30 := h
    simp only [h2, ↓reduceIte]
    refine ⟨by simp, ?_⟩
    simp
  · intro h
    have h2 : ¬ ys.length > 30 := by omega
    simp only [h2, ↓reduceIte, List.append_nil]
    rcases safeguardSchedule_blocks flow s hs with h0 | h1
    · rw [h0]; simp
    · rw [h1]
      intro hm
      have := List.mem_singleton.mp hm
      have h3 := JVal.str.inj this
      exact absurd h3 (by decide)

/-- **C12.** The cron expression `" */3 * * * *"`, with a leading blank, has five fields
after trimming, so `isValidCron` accepts it, and its minutes field is `*/3`; yet
`safeguardFlow` returns `safe = true` with no block for it, while it blocks the same
expression without the leading blank. -/
theorem leading_blank_step_not_blocked :
    isValidCron (.str " */3 * * * *") = .ok true ∧
    (splitWs false [] (jsTrim " */3 * * * *").data).head? = some "*/3" ∧
    safeguardFlow (scheduleFlow (.str " */3 * * * *"))
      = .ok { safe := true, blocks := [], warnings := [] } ∧
    safeguardFlow (scheduleFlow (.str "*/3 * * * *"))
      = .ok { safe := false, blocks := [.str "❌ التكرار أقل من 5 دقائق — مرفوض"],
              warnings := [] } :=
  ⟨rfl, rfl, rfl, rfl⟩

/-- **C13.** A webhook flow with 31 actions, the first of which has the number 5 as
`pieceName`, makes `safeguardFlow` throw a `TypeError` instead of returning
`safe = false`; with 31 well-formed actions it returns the over-30-steps block. -/
theorem over_thirty_with_unreadable_action_throws :
    (hookFlow (numberedPiece :: List.replicate 30 sendMail)).get "actions"
      = .arr (numberedPiece :: List.replicate 30 sendMail) ∧
    (numberedPiece :: List.replicate 30 sendMail).length = 31 ∧
    safeguardFlow (hookFlow (numberedPiece :: List.replicate 30 sendMail))
      = .error (.typeError "a.pieceName?.includes is not a function") ∧
    safeguardFlow (hookFlow (List.replicate 31 sendMail))
      = .ok { safe := false, blocks := [.str "❌ أكثر من 30 خطوة — قسم الـ Flow"],
              warnings := [] } :=
  ⟨rfl, rfl, rfl, rfl⟩

/-- **C15.** A structurally valid schedule flow whose `cronExpression` is the number 5
makes both `validateFlowOutput` and `safeguardFlow` throw a `TypeError`, and
`safeguardFlow` also throws on an object without a trigger. -/
theorem validators_throw_on_numeric_cron :
    validateSchema (scheduleFlow (.num 5)) = [] ∧
    validateFlowOutput (scheduleFlow (.num 5)) none
      = .error (.typeError "expression.trim is not a function") ∧
    validateFlowOutput (scheduleFlow (.num 5)) (some knowsAll)
      = .error (.typeError "expression.trim is not a function") ∧
    safeguardFlow (scheduleFlow (.num 5))
      = .error (.typeError "cron.startsWith is not a function") ∧
    (∃ e, safeguardFlow (.obj [("displayName", .str "x"), ("actions", .arr [sendMail])])
      = .error e) :=
  ⟨rfl, rfl, rfl, rfl, _, rfl⟩

theorem head_append (a b : String) (c : Char) (h : a.data.head? = some c) :
    (a ++ b).data.head? = some c := by
  rw [String.data_append]
  cases ha : a.data with
  | nil => rw [ha] at h; simp at h
  | cons x xs => rw [ha] at h; simpa using h

theorem headsIn_nil (cs : List Char) : HeadsIn cs [] := by
  intro w hw; cases hw

theorem headsIn_single (cs : List Char) (t : String) (c : Char)
    (h : t.data.head? = some c) (hc : c ∈ cs) : HeadsIn cs [.str t] := by
  intro w hw
  rw [List.mem_singleton] at hw
  exact ⟨t, c, hw, h, hc⟩

theorem headsIn_append (cs : List Char) (a b : List JVal) (ha : HeadsIn cs a)
    (hb : HeadsIn cs b) : HeadsIn cs (a ++ b) := by
  intro w hw
  rcases List.mem_append.mp hw with h | h
  · exact ha w h
  · exact hb w h

theorem checkTriggerPiece_warnings (t : JVal) (reg : Option Registry) (f : Findings)
    (h : checkTriggerPiece t reg = .ok f) : HeadsIn ['T', 'C', 'A'] f.warnings := by
  cases hn : t.isNullish with
  | true => simp [checkTriggerPiece, getProp, hn] at h
  | false =>
    unfold checkTriggerPiece at h
    simp only [getProp_ok _ _ hn, except_ok_bind] at h
    split at h
    · split at h
      · cases h; exact headsIn_nil _
      · cases reg with
        | none => cases h; exact headsIn_nil _
        | some g =>
          simp only at h
          cases hv : g.validate (t.get "pieceName") (t.get "triggerName") with
          | error e => rw [hv] at h; cases h
          | ok chk =>
            rw [hv] at h
            simp only [except_ok_bind] at h
            split at h
            · cases h
              exact headsIn_single _ _ 'T' (head_append _ _ _ (head_append _ _ _ rfl)) (by simp)
            · cases h; exact headsIn_nil _
    · cases h; exact headsIn_nil _

theorem checkScheduleCron_warnings (t : JVal) (f : Findings)
    (h : checkScheduleCron t = .ok f) : HeadsIn ['T', 'C', 'A'] f.warnings := by
  cases hn : t.isNullish with
  | true => simp [checkScheduleCron, getProp, hn] at h
  | false =>
    unfold checkScheduleCron at h
    simp only [getProp_ok _ _ hn, except_ok_bind] at h
    split at h
    · split at h
      · cases h; exact headsIn_nil _
      · cases hv : isValidCron (getOpt (t.get "input") "cronExpression") with
        | error e => rw [hv] at h; cases h
        | ok b =>
          rw [hv] at h
          simp only [except_ok_bind] at h
          split at h
          · cases h
            exact headsIn_single _ _ 'C' (head_append _ _ _ (head_append _ _ _ rfl)) (by simp)
          · cases h; exact headsIn_nil _
    · cases h; exact headsIn_nil _

theorem checkAction_warnings (reg : Option Registry) (i : Nat) (a : JVal) (f : Findings)
    (h : checkAction reg i a = .ok f) : HeadsIn ['T', 'C', 'A'] f.warnings := by
  cases hn : a.isNullish with
  | true => simp [checkAction, actionLabel, getProp, hn] at h
  | false =>
    have hl : ∀ x : String, ("Action " ++ toString (i + 1) ++ " (" ++
        (a.get "displayName").toStr ++ ")" ++ x).data.head? = some 'A' := fun x =>
      head_append _ _ _ (head_append _ _ _ (head_append _ _ _ (head_append _ _ _
        (head_append _ _ _ rfl))))
    unfold checkAction actionLabel at h
    simp only [getProp_ok _ _ hn, except_ok_bind, except_pure] at h
    rw [except_bind_eq_ok] at h
    obtain ⟨p, hp, h⟩ := h
    rw [except_bind_eq_ok] at h
    obtain ⟨b, hb, h⟩ := h
    rw [except_bind_eq_ok] at h
    obtain ⟨c, hc, h⟩ := h
    cases h
    refine headsIn_append _ _ _ (headsIn_append _ _ _ ?_ ?_) ?_
    · unfold checkPieceAction at hp
      simp only [getProp_ok _ _ hn, except_ok_bind] at hp
      split at hp
      · split at hp
        · cases hp; exact headsIn_nil _
        · split at hp
          · cases hp; exact headsIn_nil _
          · cases reg with
            | none => cases hp; exact headsIn_nil _
            | some g =>
              simp only at hp
              cases hv : g.validate (a.get "pieceName") (a.get "actionName") with
              | error e => rw [hv] at hp; cases hp
              | ok chk =>
                rw [hv] at hp
                simp only [except_ok_bind] at hp
                split at hp
                · cases hp
                  exact headsIn_single _ _ 'A'
                    (head_append _ _ _ (head_append _ _ _ (hl ": "))) (by simp)
                · cases hp; exact headsIn_nil _
      · cases hp; exact headsIn_nil _
    · unfold checkBranchAction at hb
      simp only [getProp_ok _ _ hn, except_ok_bind] at hb
      split at hb
      · split at hb <;> (cases hb; exact headsIn_nil _)
      · cases hb; exact headsIn_nil _
    · unfold checkCodeAction at hc
      simp only [getProp_ok _ _ hn, except_ok_bind] at hc
      split at hc
      · split at hc
        · cases hc
          exact headsIn_single _ _ 'A' (hl _) (by simp)
        · cases hc; exact headsIn_nil _
      · cases hc; exact headsIn_nil _

theorem checkActions_warnings (reg : Option Registry) (xs : List JVal) :
    ∀ (i : Nat) (f : Findings), checkActions reg i xs = .ok f →
      HeadsIn ['T', 'C', 'A'] f.warnings := by
  induction xs with
  | nil => intro i f h; cases h; exact headsIn_nil _
  | cons x xs ih =>
    intro i f h
    simp only [checkActions] at h
    rw [except_bind_eq_ok] at h
    obtain ⟨f1, h1, h⟩ := h
    rw [except_bind_eq_ok] at h
    obtain ⟨g, hg, h⟩ := h
    cases h
    exact headsIn_append _ _ _ (checkAction_warnings reg i x f1 h1) (ih (i + 1) g hg)

theorem stepCount_not_headsIn (ws : List JVal) (h : HeadsIn ['T', 'C', 'A'] ws) :
    JVal.str "⚠️ عدد الخطوات كثير (أكثر من 20) — فكر في تقسيم الـ Flow" ∉ ws := by
  intro hm
  obtain ⟨t, c, ht, hc, hmem⟩ := h _ hm
  have := JVal.str.inj ht
  subst this
  have hc2 : c = Char.ofNat 9888 := by
    have : ("⚠️ عدد الخطوات كثير (أكثر من 20) — فكر في تقسيم الـ Flow" : String).data.head?
        = some (Char.ofNat 9888) := by decide
    rw [this] at hc
    exact (Option.some.inj hc).symm
  subst hc2
  revert hmem
  decide

/-- **C14 (counterexample).** The structurally valid flow `twentyStepFlow` has no error
field and exactly 20 top-level actions, and `validateFlowOutput` returns no warning at
all for it. -/
theorem twenty_steps_no_warning :
    validateSchema twentyStepFlow = [] ∧ (twentyStepFlow.get "error").truthy = false ∧
    twentyStepFlow.get "actions" = .arr (List.replicate 20 sendMail) ∧
    (List.replicate 20 sendMail).length = 20 ∧
    validateFlowOutput twentyStepFlow none
      = .ok { valid := true, errors := [], warnings := [], isUserError := false } ∧
    validateFlowOutput twentyStepFlow (some knowsAll)
      = .ok { valid := true, errors := [], warnings := [], isUserError := false } :=
  ⟨rfl, rfl, rfl, rfl, rfl, rfl⟩

/-- **C14 (amended).** On a structurally valid flow without an `error` field, every
result of `validateFlowOutput` contains the step-count warning exactly when the flow
has more than 20 top-level actions, and the validator returns a result when the catalog
does and the cron expression is readable; every result of `safeguardFlow` for at most
30 actions is without the over-30-steps block. -/
theorem step_count_warning_above_twenty (flow : JVal) (reg : Option Registry)
    (xs : List JVal) (hs : validateSchema flow = [])
    (he : (flow.get "error").truthy = false) (hx : flow.get "actions" = .arr xs) :
    (∀ r, validateFlowOutput flow reg = .ok r →
      (JVal.str "⚠️ عدد الخطوات كثير (أكثر من 20) — فكر في تقسيم الـ Flow" ∈ r.warnings ↔
        20 < xs.length)) ∧
    (RegistryAnswers reg flow → CronReadable flow → ∃ r, validateFlowOutput flow reg = .ok r) ∧
    (∀ s, safeguardFlow flow = .ok s → xs.length ≤ 30 →
      JVal.str "❌ أكثر من 30 خطوة — قسم الـ Flow" ∉ s.blocks) := by
  refine ⟨?_, fun hreg hc => validateFlowOutput_returns flow reg hs hreg hc, ?_⟩
  · intro r hr
    obtain ⟨f3, f4, f5, h3, h4, h5, rfl⟩ := (validateFlowOutput_eq_ok flow reg xs hs he hx r).mp hr
    have hh : HeadsIn ['T', 'C', 'A'] (f3.warnings ++ f4.warnings ++ f5.warnings) :=
      headsIn_append _ _ _ (headsIn_append _ _ _ (checkTriggerPiece_warnings _ _ _ h3)
        (checkScheduleCron_warnings _ _ h4)) (checkActions_warnings _ _ _ _ h5)
    have hno := stepCount_not_headsIn _ hh
    simp only [checkStepCount]
    rw [List.mem_append]
    constructor
    · rintro (h | h)
      · exact absurd h hno
      · by_contra hlt
        have : ¬ xs.length > 20 := hlt
        simp [this] at h
    · intro hlt
      right
      have : xs.length > 20 := hlt
      simp [this]
  · intro s hsf hle
    exact (safeguardFlow_step_block flow xs hx s hsf).2 hle

/-- C11 at a schedule flow with one action and the expression `*/3 * * * *`. -/
theorem cron_frequency_classification_witness :
    ∃ r, safeguardFlow (scheduleFlow (.str "*/3 * * * *")) = .ok r ∧ r.blocks ≠ [] ∧
      r.safe = false := by
  have h := cron_frequency_classification (scheduleFlow (.str "*/3 * * * *")) [sendMail]
    "*/3 * * * *" rfl rfl rfl (by decide)
  obtain ⟨r, hr⟩ := h.2 (fun a ha => List.mem_singleton.mp ha ▸ ⟨rfl, rfl⟩)
  exact ⟨r, hr, (h.1 r hr).2.2.1 rfl⟩

/-- The amended C14 at a webhook flow with 21 actions. -/
theorem step_count_warning_above_twenty_witness :
    ∃ r, validateFlowOutput (hookFlow (List.replicate 21 sendMail)) none = .ok r ∧
      JVal.str "⚠️ عدد الخطوات كثير (أكثر من 20) — فكر في تقسيم الـ Flow" ∈ r.warnings := by
  have h := step_count_warning_above_twenty (hookFlow (List.replicate 21 sendMail)) none
    (List.replicate 21 sendMail) rfl rfl rfl
  obtain ⟨r, hr⟩ := h.2.1 ⟨fun _ hg => (nomatch hg), fun _ _ _ _ _ hg => (nomatch hg)⟩
    (fun h => absurd (JVal.str.inj h) (by decide))
  exact ⟨r, hr, (h.1 r hr).mpr (by simp)⟩

/-! ### The repair loop -/

set_option maxRecDepth 100000 in
/-- **C17.** With a producer that answers both requests with the text of
`missingPieceFlow`, `convertToFlow` returns `success: true` with that flow after the
repair, although the validator has a blocking error for it; with a producer that answers
with the text of `declinedFlow`, a user-declared error, it returns `success: true` with
that flow after one request. -/
theorem unvalidated_flow_returned_as_success :
    (convertToFlow (answeringRuntime missingPieceText missingPieceFlow)
        (constantProducer missingPieceText) (.ok (.str "Groq")) (.str "send mail")
        knowsAll [] []).2 =
      .ok { success := true, flow := missingPieceFlow, retried := true,
            warnings := [.str "تم إعادة التوليد بعد تصحيح أخطاء"], tokensUsed := .null,
            provider := none } ∧
    validateFlowOutput missingPieceFlow (some knowsAll) =
      .ok { valid := false, errors := [.str "Action 1 (send): يحتاج pieceName"],
            warnings := [], isUserError := false } ∧
    (convertToFlow (answeringRuntime declinedText declinedFlow)
        (constantProducer declinedText) (.ok (.str "Groq")) (.str "send mail")
        knowsAll [] []).2 =
      .ok { success := true, flow := declinedFlow, retried := false, warnings := [],
            tokensUsed := .null, provider := some (.str "Groq") } ∧
    validateFlowOutput declinedFlow (some knowsAll) =
      .ok { valid := false, errors := [.str "not possible"], warnings := [],
            isUserError := true } :=
  ⟨rfl, rfl, rfl, rfl⟩

theorem validateFlowOutput_valid (flow : JVal) (reg : Option Registry) (v : ValidationResult)
    (h : validateFlowOutput flow reg = .ok v) : v.valid = (v.errors.length == 0) := by
  unfold validateFlowOutput at h
  simp only at h
  split at h
  · rename_i hlen
    cases h
    cases hv : validateSchema flow with
    | nil => rw [hv] at hlen; simp at hlen
    | cons x xs => rfl
  · rw [except_bind_eq_ok] at h
    obtain ⟨err, _, h⟩ := h
    split at h
    · cases h; rfl
    · rw [except_bind_eq_ok] at h
      obtain ⟨t, _, h⟩ := h
      rw [except_bind_eq_ok] at h
      obtain ⟨f3, _, h⟩ := h
      rw [except_bind_eq_ok] at h
      obtain ⟨f4, _, h⟩ := h
      split at h
      · rw [except_bind_eq_ok] at h
        obtain ⟨f5, _, h⟩ := h
        cases h
        rfl
      · cases h

theorem retryWithErrors_trace (rt : Runtime) (producer : Producer) (msg failed : JVal)
    (errors catalog : List JVal) (tr : List AICall) :
    (retryWithErrors rt producer msg failed errors catalog tr).1 =
      tr ++ [retryCall rt msg failed errors catalog] := by
  unfold retryWithErrors
  cases hc : producer tr (retryCall rt msg failed errors catalog) with
  | error e =>
    rw [run_bind_error _ _ tr (tr ++ [retryCall rt msg failed errors catalog]) e
      (by simp [Run.call, hc])]
  | ok result =>
    rw [run_call_ok_bind _ _ _ _ _ hc]
    cases ht : trimText result.text with
    | error e => rfl
    | ok raw =>
      rw [run_lift_ok_bind]
      cases hm : matchBraces raw with
      | none => rfl
      | some m =>
        simp only
        cases hp : rt.jsonParse m with
        | none => rfl
        | some flow => rfl

/-- The function `convertToFlow` after its first candidate has been validated. -/
theorem convertToFlow_validated (rt : Runtime) (producer : Producer)
    (providerName : Except Thrown JVal) (userMessage : JVal) (registry : Registry)
    (history : List JVal) (tr0 : List AICall) (catalog : List JVal) (result : AIResult)
    (flowJson : JVal) (v : ValidationResult)
    (hcat : registry.getCompactListForAI = .ok catalog)
    (hcall : producer tr0 (initialCall rt userMessage catalog history) = .ok result)
    (hparse : parseCandidate rt result.text = .ok flowJson)
    (hval : validateFlowOutput flowJson (some registry) = .ok v) :
    convertToFlow rt producer providerName userMessage registry history tr0 =
      (if !v.valid && decide (v.errors.length > 0) && !v.isUserError then
        retryWithErrors rt producer userMessage flowJson v.errors catalog
      else
        (Run.lift providerName >>= fun provider =>
          (pure { success := true, flow := flowJson, retried := false,
                  warnings := v.warnings, tokensUsed := result.usage,
                  provider := some provider } : Run AICall ConvertResult)))
        (tr0 ++ [initialCall rt userMessage catalog history]) := by
  unfold convertToFlow
  rw [hcat, run_lift_ok_bind,
    run_bind_ok _ _ tr0 (tr0 ++ [initialCall rt userMessage catalog history]) result
      (run_tryCatch_ok _ _ _ _ _ (by simp [Run.call, hcall])),
    hparse, run_lift_ok_bind, hval, run_lift_ok_bind]

theorem retry_condition_iff (flow : JVal) (reg : Option Registry) (v : ValidationResult)
    (hval : validateFlowOutput flow reg = .ok v) :
    (!v.valid && decide (v.errors.length > 0) && !v.isUserError) = true ↔
      (v.errors ≠ [] ∧ v.isUserError = false) := by
  rw [validateFlowOutput_valid _ _ _ hval]
  constructor
  · intro h
    simp only [Bool.and_eq_true, Bool.not_eq_eq_eq_not, Bool.not_true,
      decide_eq_true_eq] at h
    exact ⟨List.length_pos.mp h.1.2, h.2⟩
  · rintro ⟨h1, h2⟩
    have hlen : v.errors.length > 0 := List.length_pos.mpr h1
    have hne : (v.errors.length == 0) = false := by
      simp only [beq_eq_false_iff_ne, ne_eq]; omega
    rw [hne, h2]; simp [hlen]

/-- The function `convertToFlow` issues no call, the initial call, or the initial call and
one further call. -/
theorem convertToFlow_calls (rt : Runtime) (producer : Producer)
    (providerName : Except Thrown JVal) (userMessage : JVal) (registry : Registry)
    (history : List JVal) (tr0 : List AICall) :
    ∃ calls, (convertToFlow rt producer providerName userMessage registry history tr0).1 =
      tr0 ++ calls ∧ calls.length ≤ 2 := by
  cases hcat : registry.getCompactListForAI with
  | error e =>
    refine ⟨[], ?_, by simp⟩
    unfold convertToFlow
    rw [hcat]
    simp only [List.append_nil]
    rfl
  | ok catalog =>
    cases hcall : producer tr0 (initialCall rt userMessage catalog history) with
    | error e =>
      refine ⟨[initialCall rt userMessage catalog history], ?_, by simp⟩
      unfold convertToFlow
      rw [hcat, run_lift_ok_bind,
        run_bind_error _ _ tr0 (tr0 ++ [initialCall rt userMessage catalog history]) _
          (by rw [run_tryCatch_error _ _ tr0 (tr0 ++ [initialCall rt userMessage catalog history])
            e (by simp [Run.call, hcall])]; rfl)]
    | ok result =>
      cases hparse : parseCandidate rt result.text with
      | error e =>
        refine ⟨[initialCall rt userMessage catalog history], ?_, by simp⟩
        unfold convertToFlow
        rw [hcat, run_lift_ok_bind,
          run_bind_ok _ _ tr0 (tr0 ++ [initialCall rt userMessage catalog history]) result
            (run_tryCatch_ok _ _ _ _ _ (by simp [Run.call, hcall])), hparse]
        rfl
      | ok flowJson =>
        cases hval : validateFlowOutput flowJson (some registry) with
        | error e =>
          refine ⟨[initialCall rt userMessage catalog history], ?_, by simp⟩
          unfold convertToFlow
          rw [hcat, run_lift_ok_bind,
            run_bind_ok _ _ tr0 (tr0 ++ [initialCall rt userMessage catalog history]) result
              (run_tryCatch_ok _ _ _ _ _ (by simp [Run.call, hcall])), hparse,
            run_lift_ok_bind, hval]
          rfl
        | ok v =>
          rw [convertToFlow_validated rt producer providerName userMessage registry history tr0
            catalog result flowJson v hcat hcall hparse hval]
          split
          · refine ⟨[initialCall rt userMessage catalog history,
              retryCall rt userMessage flowJson v.errors catalog], ?_, by simp⟩
            rw [retryWithErrors_trace]
            simp
          · refine ⟨[initialCall rt userMessage catalog history], ?_, by simp⟩
            cases providerName <;> rfl

/-- **C16.** One run of `convertToFlow` issues at most two calls to the IR producer,
whatever the producer answers. When the first candidate has been parsed and validated,
the run issues exactly the initial call if the candidate has no blocking error or is a
user-declared error, and exactly the initial call followed by one repair call if it has
blocking errors that are not user-declared. -/
theorem producer_invoked_at_most_twice (rt : Runtime) (producer : Producer)
    (providerName : Except Thrown JVal) (userMessage : JVal) (registry : Registry)
    (history : List JVal) (tr0 : List AICall) :
    (∃ calls, (convertToFlow rt producer providerName userMessage registry history tr0).1 =
      tr0 ++ calls ∧ calls.length ≤ 2) ∧
    (∀ (catalog : List JVal) (result : AIResult) (flowJson : JVal) (v : ValidationResult),
      registry.getCompactListForAI = .ok catalog →
      producer tr0 (initialCall rt userMessage catalog history) = .ok result →
      parseCandidate rt result.text = .ok flowJson →
      validateFlowOutput flowJson (some registry) = .ok v →
      ((v.errors = [] ∨ v.isUserError = true) →
        (convertToFlow rt producer providerName userMessage registry history tr0).1 =
          tr0 ++ [initialCall rt userMessage catalog history]) ∧
      ((v.errors ≠ [] ∧ v.isUserError = false) →
        (convertToFlow rt producer providerName userMessage registry history tr0).1 =
          tr0 ++ [initialCall rt userMessage catalog history,
            retryCall rt userMessage flowJson v.errors catalog])) := by
  refine ⟨convertToFlow_calls rt producer providerName userMessage registry history tr0, ?_⟩
  intro catalog result flowJson v hcat hcall hparse hval
  rw [convertToFlow_validated rt producer providerName userMessage registry history tr0
    catalog result flowJson v hcat hcall hparse hval]
  have hiff := retry_condition_iff _ _ _ hval
  constructor
  · intro h
    have hc : ¬ ((!v.valid && decide (v.errors.length > 0) && !v.isUserError) = true) := by
      intro hc
      obtain ⟨h1, h2⟩ := hiff.mp hc
      rcases h with h | h
      · exact h1 h
      · rw [h2] at h; cases h
    rw [if_neg hc]
    cases providerName <;> rfl
  · intro h
    rw [if_pos (hiff.mpr h), retryWithErrors_trace]
    simp

/-- C16 at a producer whose first candidate lacks a `pieceName`: two calls. -/
theorem producer_invoked_at_most_twice_witness :
    (convertToFlow (answeringRuntime missingPieceText missingPieceFlow)
        (constantProducer missingPieceText) (.ok (.str "Groq")) (.str "send mail")
        knowsAll [] []).1 =
      [initialCall (answeringRuntime missingPieceText missingPieceFlow) (.str "send mail") [] [],
        retryCall (answeringRuntime missingPieceText missingPieceFlow) (.str "send mail")
          missingPieceFlow [.str "Action 1 (send): يحتاج pieceName"] []] :=
  ((producer_invoked_at_most_twice (answeringRuntime missingPieceText missingPieceFlow)
      (constantProducer missingPieceText) (.ok (.str "Groq")) (.str "send mail")
      knowsAll [] []).2 [] ⟨.str missingPieceText, .null⟩ missingPieceFlow
      { valid := false, errors := [.str "Action 1 (send): يحتاج pieceName"],
        warnings := [], isUserError := false } rfl rfl rfl rfl).2
    ⟨List.cons_ne_nil _ _, rfl⟩

/-! ### The calls of the builder, step by step -/

/-- **C18.** For a trigger that is not `null` or `undefined`, `buildTriggerSettings`
returns settings as follows. `SCHEDULE`: the schedule piece, with `input.cronExpression`
the trigger's cron expression, or `0 8 * * *` when that is absent (falsy), and
`input.timezone` the trigger's timezone, or `Asia/Riyadh` when that is absent (falsy).
`WEBHOOK`: the webhook piece with trigger name `catch_request`. `PIECE_TRIGGER`: the
trigger's own `pieceName` and `triggerName`, and its `input`, or the empty object when
that is absent (falsy). `updateTrigger` issues one request, carrying these settings. -/
theorem trigger_settings_by_variant (trigger : JVal) (hn : trigger.isNullish = false) :
    ∃ settings, buildTriggerSettings trigger = .ok settings ∧
      (trigger.get "type" = .str "SCHEDULE" →
        settings.get "pieceName" = .str "@activepieces/piece-schedule" ∧
        (settings.get "input").get "cronExpression" =
          (if (getOpt (trigger.get "input") "cronExpression").truthy
            then getOpt (trigger.get "input") "cronExpression" else .str "0 8 * * *") ∧
        (settings.get "input").get "timezone" =
          (if (getOpt (trigger.get "input") "timezone").truthy
            then getOpt (trigger.get "input") "timezone" else .str "Asia/Riyadh") ∧
        (getOpt (trigger.get "input") "cronExpression" = .undefined →
          (settings.get "input").get "cronExpression" = .str "0 8 * * *") ∧
        (getOpt (trigger.get "input") "timezone" = .undefined →
          (settings.get "input").get "timezone" = .str "Asia/Riyadh")) ∧
      (trigger.get "type" = .str "WEBHOOK" →
        settings.get "pieceName" = .str "@activepieces/piece-webhook" ∧
        settings.get "triggerName" = .str "catch_request") ∧
      (trigger.get "type" = .str "PIECE_TRIGGER" →
        settings.get "pieceName" = trigger.get "pieceName" ∧
        settings.get "triggerName" = trigger.get "triggerName" ∧
        settings.get "input" =
          (if (trigger.get "input").truthy then trigger.get "input" else .obj []) ∧
        (trigger.get "input" = .undefined → settings.get "input" = .obj [])) ∧
      (∀ (engine : Engine) (flowId : JVal) (tr : List ApiCall),
        (updateTrigger engine flowId trigger tr).1 =
          tr ++ [updateTriggerCall flowId trigger settings] ∧
        (((updateTriggerCall flowId trigger settings).body.get "request").get "settings"
          = settings)) := by
  unfold buildTriggerSettings
  simp only [getProp_ok _ _ hn, except_ok_bind]
  by_cases h1 : trigger.get "type" = .str "SCHEDULE"
  · refine ⟨_, by rw [h1]; rfl, ?_, ?_, ?_, ?_⟩
    · intro _
      refine ⟨rfl, rfl, rfl, ?_, ?_⟩
      · intro hu
        show orElse _ _ = _
        rw [hu]; rfl
      · intro hu
        show orElse _ _ = _
        rw [hu]; rfl
    · intro h2; rw [h1] at h2; exact absurd (JVal.str.inj h2) (by decide)
    · intro h2; rw [h1] at h2; exact absurd (JVal.str.inj h2) (by decide)
    · intro engine flowId tr
      refine ⟨?_, rfl⟩
      unfold updateTrigger buildTriggerSettings
      simp only [getProp_ok _ _ hn, except_ok_bind, h1]
      rfl
  · have h1b : (trigger.get "type").isStr "SCHEDULE" = false := by
      cases hb : (trigger.get "type").isStr "SCHEDULE" with
      | false => rfl
      | true => exact absurd ((isStr_iff _ _).mp hb) h1
    by_cases h2 : trigger.get "type" = .str "WEBHOOK"
    · refine ⟨_, by rw [h2]; rfl, ?_, ?_, ?_, ?_⟩
      · intro h; exact absurd h h1
      · intro _; exact ⟨rfl, rfl⟩
      · intro h3; rw [h2] at h3; exact absurd (JVal.str.inj h3) (by decide)
      · intro engine flowId tr
        refine ⟨?_, rfl⟩
        unfold updateTrigger buildTriggerSettings
        simp only [getProp_ok _ _ hn, except_ok_bind, h2]
        rfl
    · have h2b : (trigger.get "type").isStr "WEBHOOK" = false := by
        cases hb : (trigger.get "type").isStr "WEBHOOK" with
        | false => rfl
        | true => exact absurd ((isStr_iff _ _).mp hb) h2
      refine ⟨_, by rw [h1b, h2b]; rfl, ?_, ?_, ?_, ?_⟩
      · intro h; exact absurd h h1
      · intro h; exact absurd h h2
      · intro _
        refine ⟨rfl, rfl, rfl, ?_⟩
        intro hu
        show orElse _ _ = _
        rw [hu]; rfl
      · intro engine flowId tr
        refine ⟨?_, rfl⟩
        unfold updateTrigger buildTriggerSettings
        simp only [getProp_ok _ _ hn, except_ok_bind, h1b, h2b]
        rfl

/-- C18 at a schedule trigger with a cron expression and no timezone. -/
theorem trigger_settings_by_variant_witness :
    ∃ settings, buildTriggerSettings nightlyTrigger = .ok settings ∧
      (settings.get "input").get "cronExpression" = .str "0 2 * * *" ∧
      (settings.get "input").get "timezone" = .str "Asia/Riyadh" := by
  obtain ⟨settings, h, hs, _⟩ := trigger_settings_by_variant nightlyTrigger rfl
  obtain ⟨_, hc, _, _, ht⟩ := hs rfl
  exact ⟨settings, h, hc, ht rfl⟩

theorem getElem?_cons_pos {α : Type} (x : α) (xs : List α) (j : Nat) (h : j ≠ 0) :
    (x :: xs)[j]? = xs[j - 1]? := by
  cases j with
  | zero => exact absurd rfl h
  | succ n => simp

/-- One child loop of `addBranch` on an engine that accepts every call. -/
theorem addBranchChildren_ok (engine : Engine) (flowId : JVal) (stepName side inside : String)
    (hok : ∀ tr c, ∃ v, engine tr c = .ok v) (ys : List JVal) :
    ∀ (parent : String) (k : Nat) (tr : List ApiCall), (∀ y ∈ ys, y.isNullish = false) →
      ∃ calls : List ApiCall,
        addBranchChildren engine flowId stepName side inside parent k ys tr
          = (tr ++ calls, .ok ()) ∧
        calls.length = ys.length ∧
        ∀ j y, ys[j]? = some y → ∃ s, buildActionSettings y = .ok s ∧
          calls[j]? = some (addActionCall flowId
            (if j = 0 then parent else stepName ++ "_" ++ side ++ "_" ++ toString (k + j - 1))
            (if k + j = 1 then inside else "AFTER") (some 0)
            (stepName ++ "_" ++ side ++ "_" ++ toString (k + j)) y s) := by
  induction ys with
  | nil =>
    intro parent k tr _
    exact ⟨[], by simp [addBranchChildren, run_pure], rfl, by simp⟩
  | cons y ys ih =>
    intro parent k tr hall
    obtain ⟨s, hs⟩ := buildActionSettings_returns y (hall y (List.mem_cons_self _ _))
    obtain ⟨v, hv⟩ := hok tr (addActionCall flowId parent (if k = 1 then inside else "AFTER")
      (some 0) (stepName ++ "_" ++ side ++ "_" ++ toString k) y s)
    obtain ⟨calls, hrun, hlen, hcalls⟩ := ih (stepName ++ "_" ++ side ++ "_" ++ toString k)
      (k + 1) (tr ++ [addActionCall flowId parent (if k = 1 then inside else "AFTER")
        (some 0) (stepName ++ "_" ++ side ++ "_" ++ toString k) y s])
      (fun a ha => hall a (List.mem_cons_of_mem _ ha))
    refine ⟨addActionCall flowId parent (if k = 1 then inside else "AFTER")
        (some 0) (stepName ++ "_" ++ side ++ "_" ++ toString k) y s :: calls, ?_, by simp [hlen], ?_⟩
    · unfold addBranchChildren
      simp only [hs, run_lift_ok_bind, beq_iff_eq]
      rw [run_call_ok_bind _ _ _ _ _ hv, hrun]
      simp
    · intro j a hj
      by_cases hj0 : j = 0
      · subst hj0
        simp only [List.getElem?_cons_zero, Option.some.injEq] at hj
        subst hj
        exact ⟨s, hs, by simp⟩
      · rw [getElem?_cons_pos _ _ _ hj0] at hj
        obtain ⟨s2, hs2, hc2⟩ := hcalls (j - 1) a hj
        refine ⟨s2, hs2, ?_⟩
        rw [getElem?_cons_pos _ _ _ hj0, hc2]
        have e1 : k + 1 + (j - 1) = k + j := by omega
        have e2 : (k + 1 + (j - 1) = 1) = (k + j = 1) := by rw [e1]
        simp only [e1, hj0, ↓reduceIte]
        by_cases hj1 : j - 1 = 0
        · have : j = 1 := by omega
          subst this
          simp
        · have e3 : k + 1 + (j - 1) - 1 = k + j - 1 := by omega
          simp only [hj1, ↓reduceIte, e1]

/-- One side of a branch on an engine that accepts every call. -/
theorem addBranchSide_ok (rt : Runtime) (engine : Engine) (flowId : JVal)
    (stepName side inside : String) (hok : ∀ tr c, ∃ v, engine tr c = .ok v)
    (children : JVal) (hch : WellFormedChildren children) (tr : List ApiCall) :
    ∃ calls : List ApiCall,
      addBranchSide rt engine flowId stepName side inside children tr = (tr ++ calls, .ok ()) ∧
      calls.length = (childrenOf children).length ∧
      ∀ j y, (childrenOf children)[j]? = some y → ∃ s, buildActionSettings y = .ok s ∧
        calls[j]? = some (addActionCall flowId
          (if j = 0 then stepName else stepName ++ "_" ++ side ++ "_" ++ toString j)
          (if j = 0 then inside else "AFTER") (some 0)
          (stepName ++ "_" ++ side ++ "_" ++ toString (j + 1)) y s) := by
  rcases hch with hf | ⟨ys, rfl, hall⟩
  · refine ⟨[], ?_, ?_, ?_⟩
    · unfold addBranchSide
      simp [hf, run_pure]
    · cases children <;> first | rfl | skip
      rename_i xs
      cases xs <;> simp [truthy] at hf
    · intro j y hj
      cases children <;> first | (simp [childrenOf] at hj; done) | skip
      simp [truthy] at hf
  · cases ys with
    | nil =>
      refine ⟨[], ?_, rfl, by simp [childrenOf]⟩
      unfold addBranchSide
      simp [truthy, JVal.get, gtZero, run_pure]
    | cons y ys =>
      obtain ⟨calls, hrun, hlen, hcalls⟩ := addBranchChildren_ok engine flowId stepName side
        inside hok (y :: ys) stepName 1 tr hall
      refine ⟨calls, ?_, hlen, ?_⟩
      · unfold addBranchSide
        simp only [truthy, JVal.get, gtZero, iterate, run_lift_ok_bind]
        simpa using hrun
      · intro j a hj
        obtain ⟨s, hs, hc⟩ := hcalls j a hj
        refine ⟨s, hs, ?_⟩
        rw [hc]
        cases j with
        | zero => rfl
        | succ n =>
          have e1 : 1 + (n + 1) - 1 = n + 1 := by omega
          have e3 : 1 + (n + 1) = n + 1 + 1 := by omega
          rw [e1, e3]
          simp

theorem side_name (stepName side : String) (n : Nat) :
    stepName ++ "_" ++ side ++ "_" ++ toString n = stepName ++ ("_" ++ side ++ "_") ++ toString n := by
  simp only [String.append_assoc]

/-- The method `addBranch` on an engine that accepts every call. -/
theorem addBranch_ok (rt : Runtime) (engine : Engine) (flowId a : JVal)
    (parent stepName : String) (hok : ∀ tr c, ∃ v, engine tr c = .ok v)
    (hn : a.isNullish = false)
    (ht : WellFormedChildren (a.get "onSuccessActions"))
    (hf : WellFormedChildren (a.get "onFailureActions")) (tr : List ApiCall) :
    ∃ tcalls fcalls : List ApiCall,
      addBranch rt engine flowId a parent stepName tr =
        (tr ++ addBranchCall flowId parent stepName a :: (tcalls ++ fcalls), .ok stepName) ∧
      tcalls.length = (childrenOf (a.get "onSuccessActions")).length ∧
      fcalls.length = (childrenOf (a.get "onFailureActions")).length ∧
      (∀ j y, (childrenOf (a.get "onSuccessActions"))[j]? = some y →
        ∃ s, buildActionSettings y = .ok s ∧
          tcalls[j]? = some (addActionCall flowId
            (if j = 0 then stepName else stepName ++ "_true_" ++ toString j)
            (if j = 0 then "INSIDE_TRUE_BRANCH" else "AFTER") (some 0)
            (stepName ++ "_true_" ++ toString (j + 1)) y s)) ∧
      (∀ j y, (childrenOf (a.get "onFailureActions"))[j]? = some y →
        ∃ s, buildActionSettings y = .ok s ∧
          fcalls[j]? = some (addActionCall flowId
            (if j = 0 then stepName else stepName ++ "_false_" ++ toString j)
            (if j = 0 then "INSIDE_FALSE_BRANCH" else "AFTER") (some 0)
            (stepName ++ "_false_" ++ toString (j + 1)) y s)) := by
  obtain ⟨v, hv⟩ := hok tr (addBranchCall flowId parent stepName a)
  obtain ⟨tcalls, htrun, htlen, htcalls⟩ := addBranchSide_ok rt engine flowId stepName "true"
    "INSIDE_TRUE_BRANCH" hok _ ht (tr ++ [addBranchCall flowId parent stepName a])
  obtain ⟨fcalls, hfrun, hflen, hfcalls⟩ := addBranchSide_ok rt engine flowId stepName "false"
    "INSIDE_FALSE_BRANCH" hok _ hf (tr ++ [addBranchCall flowId parent stepName a] ++ tcalls)
  refine ⟨tcalls, fcalls, ?_, htlen, hflen, ?_, ?_⟩
  · unfold addBranch
    simp only [getProp_ok _ _ hn, run_lift_ok_bind]
    rw [run_call_ok_bind _ _ _ _ _ hv, run_bind_ok _ _ _ _ _ htrun,
      run_bind_ok _ _ _ _ _ hfrun]
    simp [run_pure]
  · intro j y hj
    obtain ⟨s, hs, hc⟩ := htcalls j y hj
    refine ⟨s, hs, ?_⟩
    rw [hc, side_name, side_name]
    rfl
  · intro j y hj
    obtain ⟨s, hs, hc⟩ := hfcalls j y hj
    refine ⟨s, hs, ?_⟩
    rw [hc, side_name, side_name]
    rfl

/-- **C20.** For a `BRANCH` action at top-level position `i` whose child lists are absent
or arrays of actions, with `t` true-children and `f` false-children, on an engine that
accepts every call, `addAction` is `addBranch` under the name `step_i` and issues exactly
`1 + t + f` calls: the branch node `step_i` carrying the action's conditions (the
default list when the action has none), the true-children in list order, then the
false-children in list order. The first child of a side is inserted under `step_i` at
`INSIDE_TRUE_BRANCH` or `INSIDE_FALSE_BRANCH`; child `j ≥ 2` is named `step_i_true_j` or
`step_i_false_j` and inserted `AFTER` the child before it. -/
theorem branch_children_calls (rt : Runtime) (engine : Engine) (flowId a : JVal)
    (parent : String) (i : Nat) (tr : List ApiCall)
    (hok : ∀ tr c, ∃ v, engine tr c = .ok v)
    (hty : a.get "type" = .str "BRANCH")
    (ht : WellFormedChildren (a.get "onSuccessActions"))
    (hf : WellFormedChildren (a.get "onFailureActions")) :
    ∃ tcalls fcalls : List ApiCall,
      addAction rt engine flowId a parent i tr =
        addBranch rt engine flowId a parent ("step_" ++ toString i) tr ∧
      addBranch rt engine flowId a parent ("step_" ++ toString i) tr =
        (tr ++ addBranchCall flowId parent ("step_" ++ toString i) a :: (tcalls ++ fcalls),
          .ok ("step_" ++ toString i)) ∧
      (addBranchCall flowId parent ("step_" ++ toString i) a :: (tcalls ++ fcalls)).length =
        1 + (childrenOf (a.get "onSuccessActions")).length
          + (childrenOf (a.get "onFailureActions")).length ∧
      tcalls.length = (childrenOf (a.get "onSuccessActions")).length ∧
      (((requestOf (addBranchCall flowId parent ("step_" ++ toString i) a)).get "action").get
          "name" = .str ("step_" ++ toString i)) ∧
      ((((requestOf (addBranchCall flowId parent ("step_" ++ toString i) a)).get "action").get
          "settings").get "conditions" =
        (if (a.get "conditions").truthy then a.get "conditions" else defaultConditions)) ∧
      (∀ j y, (childrenOf (a.get "onSuccessActions"))[j]? = some y →
        ∃ s, buildActionSettings y = .ok s ∧
          tcalls[j]? = some (addActionCall flowId
            (if j = 0 then "step_" ++ toString i
              else "step_" ++ toString i ++ "_true_" ++ toString j)
            (if j = 0 then "INSIDE_TRUE_BRANCH" else "AFTER") (some 0)
            ("step_" ++ toString i ++ "_true_" ++ toString (j + 1)) y s)) ∧
      (∀ j y, (childrenOf (a.get "onFailureActions"))[j]? = some y →
        ∃ s, buildActionSettings y = .ok s ∧
          fcalls[j]? = some (addActionCall flowId
            (if j = 0 then "step_" ++ toString i
              else "step_" ++ toString i ++ "_false_" ++ toString j)
            (if j = 0 then "INSIDE_FALSE_BRANCH" else "AFTER") (some 0)
            ("step_" ++ toString i ++ "_false_" ++ toString (j + 1)) y s)) := by
  have hn : a.isNullish = false := not_nullish_of_get_str _ _ _ hty
  obtain ⟨tcalls, fcalls, hrun, htlen, hflen, htc, hfc⟩ :=
    addBranch_ok rt engine flowId a parent ("step_" ++ toString i) hok hn ht hf tr
  refine ⟨tcalls, fcalls, ?_, hrun, ?_, htlen, rfl, rfl, htc, hfc⟩
  · unfold addAction
    simp only [getProp_ok _ _ hn, run_lift_ok_bind, hty, isStr]
    rfl
  · simp only [List.length_cons, List.length_append, htlen, hflen]
    omega

/-- C20 at a branch with two true-children and one false-child, at position 1. -/
theorem branch_children_calls_witness :
    ∃ s, buildActionSettings sendMail = .ok s ∧
      (addAction plainRuntime acceptingEngine (.str "f1") mailBranch "trigger" 1 []).1 =
        [addBranchCall (.str "f1") "trigger" "step_1" mailBranch,
          addActionCall (.str "f1") "step_1" "INSIDE_TRUE_BRANCH" (some 0) "step_1_true_1"
            sendMail s,
          addActionCall (.str "f1") "step_1_true_1" "AFTER" (some 0) "step_1_true_2"
            sendMail s,
          addActionCall (.str "f1") "step_1" "INSIDE_FALSE_BRANCH" (some 0) "step_1_false_1"
            sendMail s] := by
  obtain ⟨tcalls, fcalls, h1, h2, h3, h4, _, _, ht, hf⟩ :=
    branch_children_calls plainRuntime acceptingEngine (.str "f1") mailBranch "trigger" 1 []
      (fun _ _ => ⟨_, rfl⟩) rfl
      (Or.inr ⟨[sendMail, sendMail], rfl, by
        intro y hy
        simp only [List.mem_cons, List.mem_singleton, List.not_mem_nil, or_false, or_self] at hy
        subst hy; rfl⟩)
      (Or.inr ⟨[sendMail], rfl, by
        intro y hy
        simp only [List.mem_singleton] at hy
        subst hy; rfl⟩)
  obtain ⟨s, hs, _⟩ := ht 0 sendMail rfl
  refine ⟨s, hs, ?_⟩
  have hs2 : _ = s := Except.ok.inj hs
  subst hs2
  rfl

theorem topLevel_fields (flowId : JVal) (parent stepName : String) (a : JVal) (c : ApiCall)
    (h : IsTopLevelAppend flowId parent stepName a c) :
    (requestOf c).get "parentStep" = .str parent ∧
    (requestOf c).get "stepLocationRelativeToParent" = .str "AFTER" ∧
    ((requestOf c).get "action").get "name" = .str stepName ∧
    (requestOf c).get "branchIndex" = .undefined := by
  rcases h with ⟨_, rfl⟩ | ⟨_, s, _, rfl⟩
  · exact ⟨rfl, rfl, rfl, rfl⟩
  · exact ⟨rfl, rfl, rfl, rfl⟩

theorem child_name_ne (stepName mid : String) (n : Nat) (hmid : 0 < mid.length) :
    JVal.str (stepName ++ mid ++ toString n) ≠ .str stepName := by
  intro h
  have h2 := congrArg String.length (JVal.str.inj h)
  simp only [String.length_append] at h2
  omega

theorem mem_pointwise {α β : Type} (ys : List β) (calls : List α) (P : α → Prop)
    (hlen : calls.length = ys.length)
    (hp : ∀ (j : Nat) (y : β), ys[j]? = some y → ∃ c, calls[j]? = some c ∧ P c) :
    ∀ c ∈ calls, P c := by
  intro c hc
  obtain ⟨j, hget⟩ := List.getElem?_of_mem hc
  have hj : j < calls.length := by
    by_contra h
    rw [List.getElem?_eq_none (by omega)] at hget
    cases hget
  have hj2 : j < ys.length := by omega
  obtain ⟨c2, hc2, hP⟩ := hp j (ys.get ⟨j, hj2⟩) (by simp)
  rw [hget] at hc2
  cases hc2
  exact hP

/-- The calls of `addAction` for one top-level action on an engine that accepts every
call: the request that appends the action, then the requests for the children of a
branch, which carry `branchIndex` 0 and names other than the branch's own. -/
theorem addAction_segment (rt : Runtime) (engine : Engine) (flowId a : JVal)
    (parent : String) (k : Nat) (tr : List ApiCall)
    (hok : ∀ tr c, ∃ v, engine tr c = .ok v)
    (hn : a.isNullish = false)
    (hch : (a.get "type").isStr "BRANCH" = true →
      WellFormedChildren (a.get "onSuccessActions") ∧
      WellFormedChildren (a.get "onFailureActions")) :
    ∃ (top : ApiCall) (rest : List ApiCall),
      addAction rt engine flowId a parent k tr =
        (tr ++ top :: rest, .ok ("step_" ++ toString k)) ∧
      IsTopLevelAppend flowId parent ("step_" ++ toString k) a top ∧
      (∀ c ∈ rest, (requestOf c).get "branchIndex" = .num 0 ∧
        ((requestOf c).get "action").get "name" ≠ .str ("step_" ++ toString k)) ∧
      rest.length = (if (a.get "type").isStr "BRANCH" then
        (childrenOf (a.get "onSuccessActions")).length
          + (childrenOf (a.get "onFailureActions")).length else 0) := by
  cases hb : (a.get "type").isStr "BRANCH" with
  | true =>
    obtain ⟨ht, hf⟩ := hch hb
    obtain ⟨tcalls, fcalls, hrun, htlen, hflen, htc, hfc⟩ :=
      addBranch_ok rt engine flowId a parent ("step_" ++ toString k) hok hn ht hf tr
    refine ⟨addBranchCall flowId parent ("step_" ++ toString k) a, tcalls ++ fcalls, ?_,
      Or.inl ⟨hb, rfl⟩, ?_, ?_⟩
    · unfold addAction
      simp only [getProp_ok _ _ hn, run_lift_ok_bind, hb, ↓reduceIte]
      exact hrun
    · intro c hc
      rcases List.mem_append.mp hc with h | h
      · refine mem_pointwise _ tcalls (fun c => (requestOf c).get "branchIndex" = .num 0 ∧
          ((requestOf c).get "action").get "name" ≠ .str ("step_" ++ toString k)) htlen ?_ c h
        intro j y hj
        obtain ⟨s, _, hcj⟩ := htc j y hj
        exact ⟨_, hcj, rfl, child_name_ne _ "_true_" _ (by decide)⟩
      · refine mem_pointwise _ fcalls (fun c => (requestOf c).get "branchIndex" = .num 0 ∧
          ((requestOf c).get "action").get "name" ≠ .str ("step_" ++ toString k)) hflen ?_ c h
        intro j y hj
        obtain ⟨s, _, hcj⟩ := hfc j y hj
        exact ⟨_, hcj, rfl, child_name_ne _ "_false_" _ (by decide)⟩
    · simp [htlen, hflen]
  | false =>
    obtain ⟨s, hs⟩ := buildActionSettings_returns a hn
    obtain ⟨v, hv⟩ := hok tr (addActionCall flowId parent "AFTER" none ("step_" ++ toString k) a s)
    refine ⟨addActionCall flowId parent "AFTER" none ("step_" ++ toString k) a s, [],
      addAction_plain rt engine flowId a parent k tr s v hn hb hs hv,
      Or.inr ⟨hb, s, hs, rfl⟩, by simp, by simp⟩

/-- The loop of `buildFlow` over the top-level actions on an engine that accepts every
call: one segment of calls per action. -/
theorem addActions_segments (rt : Runtime) (engine : Engine) (flowId : JVal)
    (hok : ∀ tr c, ∃ v, engine tr c = .ok v) (xs : List JVal) :
    ∀ (parent : String) (k : Nat) (tr : List ApiCall),
      (∀ a ∈ xs, a.isNullish = false ∧
        ((a.get "type").isStr "BRANCH" = true →
          WellFormedChildren (a.get "onSuccessActions") ∧
          WellFormedChildren (a.get "onFailureActions"))) →
      ∃ segs : List (List ApiCall),
        addActions rt engine flowId parent k xs tr = (tr ++ segs.flatten, .ok (k + xs.length)) ∧
        segs.length = xs.length ∧
        ∀ i a, xs[i]? = some a → ∃ top rest, segs[i]? = some (top :: rest) ∧
          IsTopLevelAppend flowId (if i = 0 then parent else "step_" ++ toString (k + i - 1))
            ("step_" ++ toString (k + i)) a top ∧
          (∀ c ∈ rest, (requestOf c).get "branchIndex" = .num 0 ∧
            ((requestOf c).get "action").get "name" ≠ .str ("step_" ++ toString (k + i))) ∧
          rest.length = (if (a.get "type").isStr "BRANCH" then
            (childrenOf (a.get "onSuccessActions")).length
              + (childrenOf (a.get "onFailureActions")).length else 0) := by
  induction xs with
  | nil =>
    intro parent k tr _
    exact ⟨[], by simp [addActions, run_pure], rfl, by simp⟩
  | cons x xs ih =>
    intro parent k tr hall
    obtain ⟨hn, hch⟩ := hall x (List.mem_cons_self _ _)
    obtain ⟨top, rest, hrun, htop, hrest, hlen⟩ :=
      addAction_segment rt engine flowId x parent k tr hok hn hch
    obtain ⟨segs, hruns, hlens, hsegs⟩ := ih ("step_" ++ toString k) (k + 1)
      (tr ++ top :: rest) (fun a ha => hall a (List.mem_cons_of_mem _ ha))
    refine ⟨(top :: rest) :: segs, ?_, by simp [hlens], ?_⟩
    · unfold addActions
      rw [run_bind_ok _ _ _ _ _ hrun, hruns]
      simp only [List.flatten_cons, List.append_assoc, List.length_cons, Prod.mk.injEq,
        Except.ok.injEq, true_and]
      omega
    · intro i a hi
      by_cases hi0 : i = 0
      · subst hi0
        simp only [List.getElem?_cons_zero, Option.some.injEq] at hi
        subst hi
        exact ⟨top, rest, by simp, by simpa using htop, by simpa using hrest, hlen⟩
      · rw [getElem?_cons_pos _ _ _ hi0] at hi
        obtain ⟨top2, rest2, hs2, ht2, hr2, hl2⟩ := hsegs (i - 1) a hi
        have e1 : k + 1 + (i - 1) = k + i := by omega
        refine ⟨top2, rest2, by rw [getElem?_cons_pos _ _ _ hi0]; exact hs2, ?_, ?_, hl2⟩
        · rw [e1] at ht2
          simp only [hi0, ↓reduceIte]
          by_cases hi1 : i - 1 = 0
          · have : i = 1 := by omega
            subst this
            simpa using ht2
          · have e3 : k + 1 + (i - 1) - 1 = k + i - 1 := by omega
            simpa only [hi1, ↓reduceIte, e3] using ht2
        · rw [e1] at hr2
          exact hr2

/-- **C19.** For a flow with a trigger and `N` top-level actions of any kinds, the child
lists of a branch being absent or arrays of actions, on an engine that accepts every
call (the created shell being an object), `buildFlow` issues the create-flow-shell call,
the `UPDATE_TRIGGER` call, one segment of calls per top-level action in list order, and
the publish call when `autoPublish` is set. The segment of the `i`-th action (counted
from 1) begins with the request that appends it: it names the step `step_i`, uses
location `AFTER`, has parentStep `trigger` when `i = 1` and `step_(i-1)` otherwise, and
has no `branchIndex`. The other calls of the segment are those of a branch's children:
they carry `branchIndex` 0 and none of them bears the name `step_i`, under which the
next sibling is attached. -/
theorem top_level_steps_chain (rt : Runtime) (fb : FlowBuilder) (engine : Engine)
    (flow : JVal) (options : BuildOptions) (xs : List JVal) (resp : JVal)
    (hwf : WellFormedFlow flow) (hx : flow.get "actions" = .arr xs)
    (hok : ∀ tr c, ∃ v, engine tr c = .ok v)
    (hcreate : engine [] (createFlowCall fb flow options) = .ok resp)
    (hresp : resp.isNullish = false) :
    ∃ (settings : JVal) (segs : List (List ApiCall)) (res : BuildResult),
      buildTriggerSettings (flow.get "trigger") = .ok settings ∧
      buildFlow rt fb engine flow options [] =
        ([createFlowCall fb flow options,
          updateTriggerCall (resp.get "id") (flow.get "trigger") settings]
          ++ segs.flatten
          ++ (if options.autoPublish.truthy then [publishCall (resp.get "id")] else []),
         .ok res) ∧
      segs.length = xs.length ∧
      ∀ i a, xs[i]? = some a → ∃ top rest, segs[i]? = some (top :: rest) ∧
        IsTopLevelAppend (resp.get "id") (if i = 0 then "trigger" else "step_" ++ toString i)
          ("step_" ++ toString (i + 1)) a top ∧
        ((requestOf top).get "action").get "name" = .str ("step_" ++ toString (i + 1)) ∧
        (requestOf top).get "stepLocationRelativeToParent" = .str "AFTER" ∧
        (requestOf top).get "parentStep" =
          .str (if i = 0 then "trigger" else "step_" ++ toString i) ∧
        (requestOf top).get "branchIndex" = .undefined ∧
        (∀ c ∈ rest, (requestOf c).get "branchIndex" = .num 0 ∧
          ((requestOf c).get "action").get "name" ≠ .str ("step_" ++ toString (i + 1))) ∧
        rest.length = (if (a.get "type").isStr "BRANCH" then
          (childrenOf (a.get "onSuccessActions")).length
            + (childrenOf (a.get "onFailureActions")).length else 0) := by
  obtain ⟨hflow, htrig, ys, hy, hall⟩ := hwf
  have hxy : ys = xs := by rw [hx] at hy; exact (JVal.arr.inj hy).symm
  subst hxy
  obtain ⟨settings, hset⟩ := buildTriggerSettings_returns _ htrig
  obtain ⟨v1, hv1⟩ := hok ([] ++ [createFlowCall fb flow options])
    (updateTriggerCall (resp.get "id") (flow.get "trigger") settings)
  obtain ⟨segs, hrun, hlen, hsegs⟩ := addActions_segments rt engine (resp.get "id") hok ys
    "trigger" 1 ([] ++ [createFlowCall fb flow options] ++
      [updateTriggerCall (resp.get "id") (flow.get "trigger") settings]) hall
  obtain ⟨v2, hv2⟩ := hok ([] ++ [createFlowCall fb flow options] ++
      [updateTriggerCall (resp.get "id") (flow.get "trigger") settings] ++ segs.flatten)
    (publishCall (resp.get "id"))
  have hsteps : ∃ res : BuildResult,
      buildSteps rt fb engine flow options (resp.get "id") ([] ++ [createFlowCall fb flow options]) =
        ([createFlowCall fb flow options,
          updateTriggerCall (resp.get "id") (flow.get "trigger") settings]
          ++ segs.flatten
          ++ (if options.autoPublish.truthy then [publishCall (resp.get "id")] else []),
         .ok res) := by
    unfold buildSteps updateTrigger
    simp only [getProp_ok _ _ hflow, run_lift_ok_bind, hset, run_bind_assoc]
    rw [run_call_ok_bind _ _ _ _ _ hv1]
    simp only [hx, iterate, run_lift_ok_bind]
    rw [run_bind_ok _ _ _ _ _ hrun]
    refine ⟨{ success := true, flowId := resp.get "id",
              flowUrl := fb.baseUrl.toStr ++ "/flows/" ++ (resp.get "id").toStr,
              status := if options.autoPublish.truthy then "PUBLISHED" else "DRAFT",
              stepsCreated := 1 + ys.length - 1 }, ?_⟩
    cases hp : options.autoPublish.truthy with
    | true =>
      simp only [↓reduceIte]
      rw [run_call_ok_bind _ _ _ _ _ hv2]
      rfl
    | false =>
      simp only [Bool.false_eq_true, ↓reduceIte, List.append_nil]
      rfl
  obtain ⟨res, hres⟩ := hsteps
  refine ⟨settings, segs, res, hset, ?_, hlen, ?_⟩
  · unfold buildFlow
    simp only [getProp_ok _ _ hflow, run_lift_ok_bind]
    rw [run_call_ok_bind _ _ _ _ _ hcreate]
    simp only [getProp_ok _ _ hresp, run_lift_ok_bind]
    exact run_tryCatch_ok _ _ _ _ _ hres
  · intro i a hi
    obtain ⟨top, rest, hs, ht, hr, hl⟩ := hsegs i a hi
    rw [show 1 + i - 1 = i by omega, show 1 + i = i + 1 by omega] at ht
    rw [show 1 + i = i + 1 by omega] at hr
    obtain ⟨f1, f2, f3, f4⟩ := topLevel_fields _ _ _ _ _ ht
    exact ⟨top, rest, hs, ht, f3, f2, f1, f4, hr, hl⟩

/-- C19 at a webhook flow whose actions are a branch with three children and then a
`PIECE` action: the action after the branch is attached to `step_1`. -/
theorem top_level_steps_chain_witness :
    ∃ s, buildActionSettings sendMail = .ok s ∧
      (buildFlow plainRuntime sampleBuilder acceptingEngine branchThenMailFlow
          { autoPublish := .bool false, folderId := .null } []).1.drop 2 =
        [addBranchCall (.str "f1") "trigger" "step_1" mailBranch,
          addActionCall (.str "f1") "step_1" "INSIDE_TRUE_BRANCH" (some 0) "step_1_true_1"
            sendMail s,
          addActionCall (.str "f1") "step_1_true_1" "AFTER" (some 0) "step_1_true_2"
            sendMail s,
          addActionCall (.str "f1") "step_1" "INSIDE_FALSE_BRANCH" (some 0) "step_1_false_1"
            sendMail s,
          addActionCall (.str "f1") "step_1" "AFTER" none "step_2" sendMail s] := by
  obtain ⟨settings, segs, res, _, _, _, hsegs⟩ :=
    top_level_steps_chain plainRuntime sampleBuilder acceptingEngine branchThenMailFlow
      { autoPublish := .bool false, folderId := .null } [mailBranch, sendMail]
      (.obj [("id", .str "f1")])
      ⟨rfl, rfl, [mailBranch, sendMail], rfl, by
        intro a ha
        simp only [List.mem_cons, List.mem_singleton, List.not_mem_nil, or_false] at ha
        rcases ha with rfl | rfl
        · refine ⟨rfl, fun _ => ⟨Or.inr ⟨[sendMail, sendMail], rfl, ?_⟩,
            Or.inr ⟨[sendMail], rfl, ?_⟩⟩⟩
          · intro y hy
            simp only [List.mem_cons, List.mem_singleton, List.not_mem_nil, or_false,
              or_self] at hy
            subst hy; rfl
          · intro y hy
            simp only [List.mem_singleton] at hy
            subst hy; rfl
        · exact ⟨rfl, fun h => by cases h⟩⟩
      rfl (fun _ _ => ⟨_, rfl⟩) rfl rfl
  obtain ⟨top, rest, _, ht, _⟩ := hsegs 1 sendMail rfl
  rcases ht with ⟨hb, _⟩ | ⟨_, s, hs, _⟩
  · cases hb
  · refine ⟨s, hs, ?_⟩
    have hs2 : _ = s := Except.ok.inj hs
    subst hs2
    rfl

/-! ### Verdict flags and the loop heuristic -/

/-- **C27.** Every result of `validateFlowOutput` has `valid = true` exactly when its
`errors` list is empty, and every result of `safeguardFlow` has `safe = true` exactly
when its `blocks` list is empty. -/
theorem verdict_flags_match_findings (flow : JVal) (reg : Option Registry) :
    (∀ v, validateFlowOutput flow reg = .ok v → (v.valid = true ↔ v.errors = [])) ∧
    (∀ r, safeguardFlow flow = .ok r → (r.safe = true ↔ r.blocks = [])) := by
  constructor
  · intro v hv
    rw [validateFlowOutput_valid flow reg v hv]
    simp [List.length_eq_zero]
  · intro r hr
    obtain ⟨s, xs, b, _, _, _, _, _, rfl⟩ := (safeguardFlow_ok_iff flow r).mp hr
    simp only [beq_iff_eq, List.length_eq_zero]

theorem safeguardSchedule_warnings (flow : JVal) (s : Cautions)
    (h : safeguardSchedule flow = .ok s) :
    s.warnings = [] ∨ s.warnings = [.str "⚠️ التكرار كل دقيقة — ممكن يحمّل السيرفر"] := by
  unfold safeguardSchedule at h
  rw [except_bind_eq_ok] at h
  obtain ⟨t, ht, h⟩ := h
  rw [except_bind_eq_ok] at h
  obtain ⟨ty, hty, h⟩ := h
  split at h
  · split at h
    · have := Except.ok.inj h
      subst this
      simp only [everyMinuteWarnings]
      split
      · exact Or.inr rfl
      · exact Or.inl rfl
    · cases h
  · have := Except.ok.inj h
    subst this
    exact Or.inl rfl

theorem safeguardSchedule_other (flow : JVal) (s : Cautions)
    (hty : ((flow.get "trigger").get "type").isStr "SCHEDULE" = false)
    (h : safeguardSchedule flow = .ok s) : s.blocks = [] ∧ s.warnings = [] := by
  unfold safeguardSchedule at h
  rw [except_bind_eq_ok] at h
  obtain ⟨t, ht, h⟩ := h
  rw [except_bind_eq_ok] at h
  obtain ⟨ty, hty2, h⟩ := h
  have e1 := ((getProp_eq_ok _ _ _).mp ht).2
  subst e1
  have e2 := ((getProp_eq_ok _ _ _).mp hty2).2
  subst e2
  rw [hty] at h
  have := Except.ok.inj h
  subst this
  exact ⟨rfl, rfl⟩

theorem someCallsHttp_iff (xs : List JVal)
    (hall : ∀ a ∈ xs, a.isNullish = false ∧ StringOrAbsent (a.get "pieceName")) (b : Bool)
    (h : someCallsHttp xs = .ok b) :
    b = true ↔ ∃ a ∈ xs, ∃ s, a.get "pieceName" = .str s ∧
      ("http".data <:+: s.data ∨ "webhook".data <:+: s.data) := by
  induction xs with
  | nil =>
    cases h
    simp
  | cons x xs ih =>
    obtain ⟨hn, hp⟩ := hall x (List.mem_cons_self _ _)
    have ih := ih (fun a ha => hall a (List.mem_cons_of_mem _ ha))
    simp only [someCallsHttp, callsHttpAction, getProp_ok _ _ hn, except_ok_bind] at h
    rcases hp with hu | ⟨s, hs⟩
    · rw [hu] at h
      simp only [pieceNameIncludes, except_ok_bind, Bool.false_eq_true, ↓reduceIte,
        except_pure] at h
      rw [ih h]
      constructor
      · rintro ⟨a, ha, s, hs, hinc⟩
        exact ⟨a, List.mem_cons_of_mem _ ha, s, hs, hinc⟩
      · rintro ⟨a, ha, s, hs, hinc⟩
        rcases List.mem_cons.mp ha with rfl | ha
        · rw [hu] at hs; cases hs
        · exact ⟨a, ha, s, hs, hinc⟩
    · rw [hs] at h
      simp only [pieceNameIncludes, except_ok_bind, jsIncludes] at h
      by_cases h1 : "http".data <:+: s.data
      · simp only [h1, decide_True, ↓reduceIte, except_pure] at h
        cases h
        simp only [true_iff]
        exact ⟨x, List.mem_cons_self _ _, s, hs, Or.inl h1⟩
      · simp only [h1, decide_False, Bool.false_eq_true, ↓reduceIte, except_pure,
          except_ok_bind] at h
        by_cases h2 : "webhook".data <:+: s.data
        · simp only [h2, decide_True, ↓reduceIte] at h
          cases h
          simp only [true_iff]
          exact ⟨x, List.mem_cons_self _ _, s, hs, Or.inr h2⟩
        · simp only [h2, decide_False, Bool.false_eq_true, ↓reduceIte] at h
          rw [ih h]
          constructor
          · rintro ⟨a, ha, t, ht, hinc⟩
            exact ⟨a, List.mem_cons_of_mem _ ha, t, ht, hinc⟩
          · rintro ⟨a, ha, t, ht, hinc⟩
            rcases List.mem_cons.mp ha with rfl | ha
            · rw [hs] at ht
              have := JVal.str.inj ht
              subst this
              rcases hinc with h | h
              · exact absurd h h1
              · exact absurd h h2
            · exact ⟨a, ha, t, ht, hinc⟩

/-- **C26.** For a flow with a trigger and an array of actions, each an object whose
`pieceName` is a string or absent, every result of `safeguardFlow` contains the
self-triggering-loop warning exactly when the trigger type is `WEBHOOK` and some
top-level action has a `pieceName` containing `http` or `webhook`. The warning never
appears among the blocks, which for a webhook trigger are the over-30-steps block or
nothing. `safeguardFlow` returns a result when the cron expression of a schedule
trigger is readable. -/
theorem loop_warning_iff_webhook_calls_http (flow : JVal) (xs : List JVal)
    (htrig : (flow.get "trigger").isNullish = false)
    (hx : flow.get "actions" = .arr xs)
    (hall : ∀ a ∈ xs, a.isNullish = false ∧ StringOrAbsent (a.get "pieceName")) :
    (∀ r, safeguardFlow flow = .ok r →
      (JVal.str "⚠️ الـ Flow يستقبل webhook ويرسل HTTP — تأكد ما فيه حلقة" ∈ r.warnings ↔
        ((flow.get "trigger").get "type" = .str "WEBHOOK" ∧
          ∃ a ∈ xs, ∃ s, a.get "pieceName" = .str s ∧
            ("http".data <:+: s.data ∨ "webhook".data <:+: s.data))) ∧
      JVal.str "⚠️ الـ Flow يستقبل webhook ويرسل HTTP — تأكد ما فيه حلقة" ∉ r.blocks ∧
      ((flow.get "trigger").get "type" = .str "WEBHOOK" →
        r.blocks = (if xs.length > 30 then [.str "❌ أكثر من 30 خطوة — قسم الـ Flow"]
          else []))) ∧
    (ScheduleReadable flow → ∃ r, safeguardFlow flow = .ok r) := by
  have hn : flow.isNullish = false := by
    cases flow <;> simp_all [JVal.get, isNullish]
  constructor
  · intro r hr
    obtain ⟨s, ys, b, hs, _, _, hy, hb, rfl⟩ := (safeguardFlow_ok_iff flow r).mp hr
    have hxy : ys = xs := by rw [hx] at hy; exact (JVal.arr.inj hy).symm
    subst hxy
    have hbiff := someCallsHttp_iff ys hall b hb
    refine ⟨?_, ?_, ?_⟩
    · simp only [List.mem_append]
      constructor
      · rintro (h | h)
        · rcases safeguardSchedule_warnings flow s hs with h0 | h1
          · rw [h0] at h; cases h
          · rw [h1] at h
            exact absurd (JVal.str.inj (List.mem_singleton.mp h)) (by decide)
        · by_cases hc : (((flow.get "trigger").get "type").isStr "WEBHOOK" && b) = true
          · simp only [Bool.and_eq_true] at hc
            exact ⟨(isStr_iff _ _).mp hc.1, hbiff.mp hc.2⟩
          · rw [if_neg hc] at h; cases h
      · rintro ⟨hty, hex⟩
        right
        have hc : (((flow.get "trigger").get "type").isStr "WEBHOOK" && b) = true := by
          simp only [Bool.and_eq_true]
          exact ⟨(isStr_iff _ _).mpr hty, hbiff.mpr hex⟩
        rw [if_pos hc]
        exact List.mem_singleton.mpr rfl
    · simp only [List.mem_append, not_or]
      constructor
      · rcases safeguardSchedule_blocks flow s hs with h0 | h1
        · rw [h0]; simp
        · rw [h1]
          intro h
          exact absurd (JVal.str.inj (List.mem_singleton.mp h)) (by decide)
      · split
        · intro h
          exact absurd (JVal.str.inj (List.mem_singleton.mp h)) (by decide)
        · simp
    · intro hty
      have hns : ((flow.get "trigger").get "type").isStr "SCHEDULE" = false := by
        rw [hty]; rfl
      rw [(safeguardSchedule_other flow s hns hs).1]
      rfl
  · intro hsr
    refine safeguardFlow_returns flow xs hn htrig hx hsr ?_
    intro a ha
    obtain ⟨h1, h2⟩ := hall a ha
    refine ⟨h1, ?_⟩
    rcases h2 with h | ⟨s, h⟩ <;> rw [h] <;> rfl

/-- C26 at a webhook flow whose action uses the HTTP piece. -/
theorem loop_warning_iff_webhook_calls_http_witness :
    ∃ r, safeguardFlow hookToHttpFlow = .ok r ∧
      JVal.str "⚠️ الـ Flow يستقبل webhook ويرسل HTTP — تأكد ما فيه حلقة" ∈ r.warnings ∧
      r.blocks = [] := by
  have h := loop_warning_iff_webhook_calls_http hookToHttpFlow
    [.obj [("type", .str "PIECE"), ("displayName", .str "post"),
      ("pieceName", .str "@activepieces/piece-http"), ("actionName", .str "send_request")]]
    rfl rfl (fun a ha => List.mem_singleton.mp ha ▸ ⟨rfl, Or.inr ⟨_, rfl⟩⟩)
  obtain ⟨r, hr⟩ := h.2 (fun hty => absurd (JVal.str.inj hty) (by decide))
  obtain ⟨h1, _, h3⟩ := h.1 r hr
  refine ⟨r, hr, h1.mpr ⟨rfl, _, List.mem_singleton.mpr rfl, _, rfl, Or.inl ?_⟩, h3 rfl⟩
  decide

/-! ### Settings of the compiled steps -/

theorem run_call_error_bind {κ ρ β : Type} (o : Oracle κ ρ) (c : κ) (f : ρ → Run κ β)
    (tr : List κ) (e : Thrown) (h : o tr c = .error e) :
    (Run.call o c >>= f) tr = (tr ++ [c], .error e) :=
  run_bind_error _ _ _ _ _ (by simp [Run.call, h])

theorem run_call_then_pure {κ ρ β : Type} (o : Oracle κ ρ) (c : κ) (x : β) (tr : List κ) :
    ((Run.call o c >>= fun _ => (pure x : Run κ β)) tr).1 = tr ++ [c] := by
  cases h : o tr c with
  | ok v => rw [run_call_ok_bind _ _ _ _ _ h]; rfl
  | error e => rw [run_call_error_bind _ _ _ _ _ h]

/-- **C23.** For a `PIECE` action, `buildActionSettings` returns settings whose
`pieceName` and `actionName` are the action's own and whose `input` is the action's
input, or the empty object when that is absent (falsy). The request that `addAction`
issues for it, and the request that a child loop of `addBranch` issues for it, carry
these settings, on every engine. None of these functions takes a catalog. -/
theorem piece_step_carries_own_settings (a : JVal) (hty : a.get "type" = .str "PIECE") :
    ∃ s, buildActionSettings a = .ok s ∧
      s.get "pieceName" = a.get "pieceName" ∧
      s.get "actionName" = a.get "actionName" ∧
      s.get "input" = (if (a.get "input").truthy then a.get "input" else .obj []) ∧
      (a.get "input" = .undefined → s.get "input" = .obj []) ∧
      (∀ (rt : Runtime) (engine : Engine) (flowId : JVal) (parent : String) (k : Nat)
          (tr : List ApiCall),
        (addAction rt engine flowId a parent k tr).1 =
          tr ++ [addActionCall flowId parent "AFTER" none ("step_" ++ toString k) a s]) ∧
      (∀ (engine : Engine) (flowId : JVal) (stepName side inside parent : String) (k : Nat)
          (rest : List JVal) (tr : List ApiCall),
        ∃ more, (addBranchChildren engine flowId stepName side inside parent k (a :: rest)
            tr).1 =
          tr ++ addActionCall flowId parent (if k = 1 then inside else "AFTER") (some 0)
            (stepName ++ "_" ++ side ++ "_" ++ toString k) a s :: more) ∧
      (∀ (flowId : JVal) (parent location stepName : String) (b : Option Int),
        ((requestOf (addActionCall flowId parent location b stepName a s)).get "action").get
            "settings" = s ∧
        ((requestOf (addActionCall flowId parent location b stepName a s)).get "action").get
            "type" = .str "PIECE") := by
  have hn : a.isNullish = false := not_nullish_of_get_str _ _ _ hty
  have hs : buildActionSettings a = .ok (.obj [
      ("pieceName", a.get "pieceName"),
      ("pieceVersion", .str "~0.0.0"),
      ("pieceType", .str "OFFICIAL"),
      ("packageType", .str "REGISTRY"),
      ("actionName", a.get "actionName"),
      ("input", orElse (a.get "input") (.obj [])),
      ("inputUiInfo", .obj []),
      ("propertySettings", .obj [])]) := by
    unfold buildActionSettings
    simp only [getProp_ok _ _ hn, except_ok_bind, hty, isStr]
    rfl
  refine ⟨_, hs, rfl, rfl, rfl, ?_, ?_, ?_, ?_⟩
  · intro hu
    show orElse _ _ = _
    rw [hu]; rfl
  · intro rt engine flowId parent k tr
    unfold addAction
    simp only [getProp_ok _ _ hn, run_lift_ok_bind, hty, isStr, hs, String.reduceBEq,
      Bool.false_eq_true, ↓reduceIte]
    exact run_call_then_pure _ _ _ _
  · intro engine flowId stepName side inside parent k rest tr
    unfold addBranchChildren
    simp only [hs, beq_iff_eq]
    rw [run_lift_ok_bind]
    cases hc : engine tr (addActionCall flowId parent (if k = 1 then inside else "AFTER")
      (some 0) (stepName ++ "_" ++ side ++ "_" ++ toString k) a
      (.obj [
        ("pieceName", a.get "pieceName"),
        ("pieceVersion", .str "~0.0.0"),
        ("pieceType", .str "OFFICIAL"),
        ("packageType", .str "REGISTRY"),
        ("actionName", a.get "actionName"),
        ("input", orElse (a.get "input") (.obj [])),
        ("inputUiInfo", .obj []),
        ("propertySettings", .obj [])])) with
    | ok v =>
      rw [run_call_ok_bind _ _ _ _ _ hc]
      obtain ⟨cs, hcs, _⟩ := failFast_addBranchChildren engine False flowId stepName side
        inside rest (fun h => h.elim) (stepName ++ "_" ++ side ++ "_" ++ toString k) (k + 1)
        (tr ++ [addActionCall flowId parent (if k = 1 then inside else "AFTER")
          (some 0) (stepName ++ "_" ++ side ++ "_" ++ toString k) a
          (.obj [
            ("pieceName", a.get "pieceName"),
            ("pieceVersion", .str "~0.0.0"),
            ("pieceType", .str "OFFICIAL"),
            ("packageType", .str "REGISTRY"),
            ("actionName", a.get "actionName"),
            ("input", orElse (a.get "input") (.obj [])),
            ("inputUiInfo", .obj []),
            ("propertySettings", .obj [])])])
      exact ⟨cs, by rw [hcs]; simp⟩
    | error e =>
      rw [run_call_error_bind _ _ _ _ _ hc]
      exact ⟨[], rfl⟩
  · intro flowId parent location stepName b
    constructor
    · cases b <;> rfl
    · have hcode : (a.get "type").isStr "CODE" = false := by rw [hty]; rfl
      cases b
      · show (if (a.get "type").isStr "CODE" then JVal.str "CODE" else .str "PIECE") = _
        rw [hcode]; rfl
      · show (if (a.get "type").isStr "CODE" then JVal.str "CODE" else .str "PIECE") = _
        rw [hcode]; rfl

/-- C23 at the action `sendMail`. -/
theorem piece_step_carries_own_settings_witness :
    ∃ s, buildActionSettings sendMail = .ok s ∧
      s.get "pieceName" = .str "@activepieces/piece-gmail" ∧
      s.get "actionName" = .str "send-email" ∧ s.get "input" = .obj [] := by
  obtain ⟨s, hs, h1, h2, _, h4, _⟩ := piece_step_carries_own_settings sendMail rfl
  exact ⟨s, hs, h1, h2, h4 rfl⟩

/-- **C24.** The `CODE` action with `input.code` the empty string gets the
code-without-source warning and no error from the validator, yet `buildActionSettings`
gives it `settings.input.code` the empty string: the spread of `action.input` writes
over the placeholder. A `CODE` action without `input` gets the placeholder. -/
theorem empty_code_overrides_placeholder :
    validateFlowOutput (singleActionFlow emptyCodeAction) none =
      .ok { valid := true, errors := [],
            warnings := [.str "Action 1 (run): Code action بدون كود — سيحتاج تعبئة يدوية"],
            isUserError := false } ∧
    buildActionSettings emptyCodeAction =
      .ok (.obj [("input", .obj [("code", .str "")]), ("inputUiInfo", .obj []),
        ("propertySettings", .obj [])]) ∧
    buildActionSettings sourcelessCodeAction =
      .ok (.obj [("input", .obj [("code", .str "// Add your code here")]),
        ("inputUiInfo", .obj []), ("propertySettings", .obj [])]) :=
  ⟨rfl, rfl, rfl⟩

/-- **C21.** For a flow whose only action is a branch holding another branch on its true
side, on an engine that accepts every call, `buildFlow` issues four calls: the shell,
the trigger, the outer branch node, and one request for the inner branch. That request
has type `PIECE` and piece settings with `pieceName` undefined, carries no conditions,
and no request is issued for the child of the inner branch. -/
theorem nested_branch_compiled_as_piece :
    (buildFlow plainRuntime sampleBuilder acceptingEngine nestedBranchFlow
        { autoPublish := .bool false, folderId := .null } []).1 =
      [createFlowCall sampleBuilder nestedBranchFlow
          { autoPublish := .bool false, folderId := .null },
        updateTriggerCall (.str "f1") (nestedBranchFlow.get "trigger")
          (.obj [("pieceName", .str "@activepieces/piece-webhook"),
            ("pieceVersion", .str "~0.0.0"), ("pieceType", .str "OFFICIAL"),
            ("packageType", .str "REGISTRY"), ("triggerName", .str "catch_request"),
            ("input", .obj []), ("inputUiInfo", .obj []), ("propertySettings", .obj [])]),
        addBranchCall (.str "f1") "trigger" "step_1" outerBranch,
        addActionCall (.str "f1") "step_1" "INSIDE_TRUE_BRANCH" (some 0) "step_1_true_1"
          innerBranch
          (.obj [("pieceName", .undefined), ("pieceVersion", .str "~0.0.0"),
            ("pieceType", .str "OFFICIAL"), ("packageType", .str "REGISTRY"),
            ("actionName", .undefined), ("input", .obj []), ("inputUiInfo", .obj []),
            ("propertySettings", .obj [])])] ∧
    ((requestOf (addActionCall (.str "f1") "step_1" "INSIDE_TRUE_BRANCH" (some 0)
        "step_1_true_1" innerBranch
        (.obj [("pieceName", .undefined), ("pieceVersion", .str "~0.0.0"),
          ("pieceType", .str "OFFICIAL"), ("packageType", .str "REGISTRY"),
          ("actionName", .undefined), ("input", .obj []), ("inputUiInfo", .obj []),
          ("propertySettings", .obj [])]))).get "action").get "type" = .str "PIECE" ∧
    innerBranch.get "onSuccessActions" = .arr [sendMail] :=
  ⟨rfl, rfl, rfl⟩

/-- **C25.** With a catalog of 51 entries and a first candidate that has a blocking
error, `convertToFlow` sends two requests, for every implementation `stringify` of the
indented `JSON.stringify`: the initial request embeds the listing of the first 50
entries, the repair request embeds the listing of all 51. -/
theorem repair_request_embeds_whole_catalog (stringify : JVal → String) :
    ((List.range 51).map catalogEntry).length = 51 ∧
    ((convertToFlow (promptRuntime missingPieceText missingPieceFlow stringify)
        (constantProducer missingPieceText) (.ok (.str "Groq")) (.str "send mail")
        (wideRegistry 51) [] []).1.map (fun c => c.systemPrompt)) =
      [SYSTEM_PROMPT ++ "\n\n## PIECES_CATALOG (" ++ toString 51 ++ " total, showing top "
          ++ toString 50 ++ "):\n" ++ stringify (.arr ((List.range 50).map catalogEntry)),
       SYSTEM_PROMPT ++ "\n\n## PIECES_CATALOG:\n"
          ++ stringify (.arr ((List.range 51).map catalogEntry))] :=
  ⟨rfl, rfl⟩

/-! ### Independence from the children of a branch -/

theorem sameButChildren_get (a b : JVal) (h : SameButChildren a b) (k : String)
    (h1 : k ≠ "onSuccessActions") (h2 : k ≠ "onFailureActions") : a.get k = b.get k := by
  rcases h with rfl | ⟨kvs1, kvs2, rfl, rfl, _, hk⟩
  · rfl
  · simp only [JVal.get, hk k h1 h2]

theorem sameButChildren_shape (a b : JVal) (h : SameButChildren a b) :
    a.truthy = b.truthy ∧ a.typeOf = b.typeOf ∧ a.isNullish = b.isNullish := by
  rcases h with rfl | ⟨kvs1, kvs2, rfl, rfl, _, _⟩
  · exact ⟨rfl, rfl, rfl⟩
  · exact ⟨rfl, rfl, rfl⟩

theorem sameButChildren_getProp (a b : JVal) (h : SameButChildren a b) (k : String)
    (h1 : k ≠ "onSuccessActions") (h2 : k ≠ "onFailureActions") :
    getProp a k = getProp b k := by
  unfold getProp
  rw [(sameButChildren_shape a b h).2.2, sameButChildren_get a b h k h1 h2]

theorem validateSchemaAction_children (i : Nat) (a b : JVal) (h : SameButChildren a b) :
    validateSchemaAction i a = validateSchemaAction i b := by
  unfold validateSchemaAction
  rw [(sameButChildren_shape a b h).1, (sameButChildren_shape a b h).2.1,
    sameButChildren_get a b h "type" (by decide) (by decide),
    sameButChildren_get a b h "displayName" (by decide) (by decide)]

theorem validateSchemaActions_children (xs ys : List JVal)
    (h : List.Forall₂ SameButChildren xs ys) :
    ∀ i, validateSchemaActions i xs = validateSchemaActions i ys := by
  induction h with
  | nil => intro i; rfl
  | cons hab _ ih =>
    intro i
    simp only [validateSchemaActions, validateSchemaAction_children i _ _ hab, ih]

theorem checkAction_children (reg : Option Registry) (i : Nat) (a b : JVal)
    (h : SameButChildren a b) : checkAction reg i a = checkAction reg i b := by
  unfold checkAction actionLabel checkPieceAction checkBranchAction checkCodeAction
  simp only [sameButChildren_getProp a b h "type" (by decide) (by decide),
    sameButChildren_getProp a b h "displayName" (by decide) (by decide),
    sameButChildren_getProp a b h "pieceName" (by decide) (by decide),
    sameButChildren_getProp a b h "actionName" (by decide) (by decide),
    sameButChildren_getProp a b h "conditions" (by decide) (by decide),
    sameButChildren_getProp a b h "input" (by decide) (by decide),
    sameButChildren_getProp a b h "code" (by decide) (by decide)]

theorem checkActions_children (reg : Option Registry) (xs ys : List JVal)
    (h : List.Forall₂ SameButChildren xs ys) :
    ∀ i, checkActions reg i xs = checkActions reg i ys := by
  induction h with
  | nil => intro i; rfl
  | cons hab _ ih =>
    intro i
    simp only [checkActions, checkAction_children reg i _ _ hab, ih]

theorem someCallsHttp_children (xs ys : List JVal)
    (h : List.Forall₂ SameButChildren xs ys) : someCallsHttp xs = someCallsHttp ys := by
  induction h with
  | nil => rfl
  | cons hab _ ih =>
    simp only [someCallsHttp, callsHttpAction,
      sameButChildren_getProp _ _ hab "pieceName" (by decide) (by decide), ih]

/-- **C28.** For two flows that differ only in the `onSuccessActions` and
`onFailureActions` of their `BRANCH` actions, `validateFlowOutput` (with any catalog or
none) and `safeguardFlow` have the same outcome. -/
theorem validators_ignore_branch_children (f1 f2 : JVal)
    (h : DifferOnlyInBranchChildren f1 f2) :
    (∀ reg, validateFlowOutput f1 reg = validateFlowOutput f2 reg) ∧
    validateSchema f1 = validateSchema f2 ∧
    safeguardFlow f1 = safeguardFlow f2 := by
  obtain ⟨kvs1, kvs2, xs, ys, rfl, rfl, hk, hx, hy, hall⟩ := h
  have hget : ∀ k, k ≠ "actions" → (JVal.obj kvs1).get k = (JVal.obj kvs2).get k := by
    intro k hne
    simp only [JVal.get, hk k hne]
  have hgp : ∀ k, k ≠ "actions" → getProp (JVal.obj kvs1) k = getProp (JVal.obj kvs2) k := by
    intro k hne
    simp only [getProp, isNullish, hget k hne]
  have hlen : xs.length = ys.length := hall.length_eq
  have hS : validateSchema (.obj kvs1) = validateSchema (.obj kvs2) := by
    unfold validateSchema
    rw [hget "displayName" (by decide), hget "trigger" (by decide), hx, hy]
    simp only [truthy, typeOf]
    cases hall with
    | nil => rfl
    | cons hab htl =>
      simp only [validateSchemaActions_children _ _ (List.Forall₂.cons hab htl) 0]
  have hC : checkStepCount xs = checkStepCount ys := by
    unfold checkStepCount
    rw [hlen]
  refine ⟨?_, hS, ?_⟩
  · intro reg
    unfold validateFlowOutput
    simp only [hS, hgp "error" (by decide), hgp "trigger" (by decide), hx, hy,
      checkActions_children reg xs ys hall 0, hC]
  · unfold safeguardFlow safeguardSchedule
    simp only [hgp "trigger" (by decide), hx, hy, someCallsHttp_children xs ys hall, hlen]

/-- C28 at a webhook flow whose branch holds a `PIECE` action without `pieceName`, a
branch without conditions, an action of the HTTP piece and 31 further actions: no error,
warning or block. -/
theorem validators_ignore_branch_children_witness :
    validateFlowOutput (singleActionFlow (guardedBranch troublesomeChildren troublesomeChildren))
        none =
      .ok { valid := true, errors := [], warnings := [], isUserError := false } ∧
    safeguardFlow (singleActionFlow (guardedBranch troublesomeChildren troublesomeChildren)) =
      .ok { safe := true, blocks := [], warnings := [] } := by
  obtain ⟨h1, _, h3⟩ := validators_ignore_branch_children
    (singleActionFlow (guardedBranch troublesomeChildren troublesomeChildren))
    (singleActionFlow (guardedBranch .undefined .undefined))
    ⟨_, _, _, _, rfl, rfl, by
      intro k hk
      simp only [List.lookup]
      by_cases h1 : k = "displayName"
      · subst h1; rfl
      · by_cases h2 : k = "trigger"
        · subst h2; rfl
        · have e1 : (k == "displayName") = false := by simpa using h1
          have e2 : (k == "trigger") = false := by simpa using h2
          have e3 : (k == "actions") = false := by simpa using hk
          simp [e1, e2, e3],
      rfl, rfl,
      List.Forall₂.cons (Or.inr ⟨_, _, rfl, rfl, rfl, by
        intro k hs hf
        have e1 : (k == "onSuccessActions") = false := by simpa using hs
        have e2 : (k == "onFailureActions") = false := by simpa using hf
        simp only [List.lookup, e1, e2]⟩) List.Forall₂.nil⟩
  rw [h1 none, h3]
  exact ⟨rfl, rfl⟩

/-! ### Step names -/

theorem digitChar_facts (m : Nat) (h : m < 10) :
    (Nat.digitChar m).isDigit = true ∧ (Nat.digitChar m).toNat - 48 = m := by
  interval_cases m <;> exact ⟨by decide, by decide⟩

theorem toDigitsCore_facts (fuel : Nat) :
    ∀ (n : Nat) (ds : List Char), n < fuel →
      ∃ d, Nat.toDigitsCore 10 fuel n ds = d ++ ds ∧ d ≠ [] ∧
        (∀ c ∈ d, c.isDigit = true) ∧
        d.foldl (fun acc c => 10 * acc + (c.toNat - 48)) 0 = n := by
  induction fuel with
  | zero => intro n ds h; omega
  | succ fuel ih =>
    intro n ds h
    obtain ⟨hd1, hd2⟩ := digitChar_facts (n % 10) (Nat.mod_lt _ (by decide))
    unfold Nat.toDigitsCore
    simp only
    by_cases h0 : n / 10 = 0
    · rw [if_pos h0]
      refine ⟨[Nat.digitChar (n % 10)], rfl, by simp, ?_, ?_⟩
      · intro c hc
        rw [List.mem_singleton.mp hc]; exact hd1
      · simp only [List.foldl_cons, List.foldl_nil, hd2]
        omega
    · rw [if_neg h0]
      have hlt : n / 10 < fuel := by omega
      obtain ⟨d, he, hne, hall, hval⟩ := ih (n / 10) (Nat.digitChar (n % 10) :: ds) hlt
      refine ⟨d ++ [Nat.digitChar (n % 10)], by rw [he]; simp, by simp, ?_, ?_⟩
      · intro c hc
        rcases List.mem_append.mp hc with h1 | h1
        · exact hall c h1
        · rw [List.mem_singleton.mp h1]; exact hd1
      · simp only [List.foldl_append, List.foldl_cons, List.foldl_nil, hval, hd2]
        omega

/-- The decimal numeral of a natural number: a non-empty run of digits that reads back as
the number. -/
theorem toString_nat_facts (n : Nat) :
    (toString n).data ≠ [] ∧ (∀ c ∈ (toString n).data, c.isDigit = true) ∧
      parseInt (toString n) = n := by
  obtain ⟨d, he, hne, hall, hval⟩ := toDigitsCore_facts (n + 1) n [] (Nat.lt_succ_self n)
  have hdata : (toString n).data = d := by
    show (Nat.toDigits 10 n).asString.data = d
    unfold Nat.toDigits
    rw [he]
    simp [List.asString]
  refine ⟨by rw [hdata]; exact hne, by rw [hdata]; exact hall, ?_⟩
  unfold parseInt
  rw [hdata]
  exact hval

theorem toString_nat_injective (n m : Nat) (h : toString n = toString m) : n = m := by
  have h1 := (toString_nat_facts n).2.2
  have h2 := (toString_nat_facts m).2.2
  rw [h] at h1
  omega

theorem step_name_inj (i k : Nat) (r q : List Char)
    (hr : ∀ c ∈ r.head?, c.isDigit = false) (hq : ∀ c ∈ q.head?, c.isDigit = false)
    (h : "step_".data ++ (toString i).data ++ r = "step_".data ++ (toString k).data ++ q) :
    i = k ∧ r = q := by
  rw [List.append_assoc, List.append_assoc] at h
  have h2 := List.append_cancel_left h
  have e1 := takeWhile_digits_append _ r (toString_nat_facts i).2.1 hr
  have e2 := takeWhile_digits_append _ q (toString_nat_facts k).2.1 hq
  rw [h2, e2] at e1
  have hik : i = k := by
    apply toString_nat_injective
    rcases hs : toString i with ⟨l1⟩
    rcases ht : toString k with ⟨l2⟩
    rw [hs, ht] at e1
    simp only at e1
    rw [e1]
  subst hik
  exact ⟨rfl, List.append_cancel_left h2⟩

theorem nameOfStep_unique (i k : Nat) (s : String) (h1 : NameOfStep i s) (h2 : NameOfStep k s) :
    i = k := by
  obtain ⟨r, hr, hr2⟩ := h1
  obtain ⟨q, hq, hq2⟩ := h2
  rw [hr] at hq
  exact (step_name_inj i k r q hr2 hq2 hq).1

theorem side_name_data (i : Nat) (side : String) (n : Nat) :
    ("step_" ++ toString i ++ "_" ++ side ++ "_" ++ toString n).data =
      "step_".data ++ (toString i).data ++
        (Char.ofNat 95 :: (side.data ++ Char.ofNat 95 :: (toString n).data)) := by
  simp only [String.data_append, List.append_assoc]
  rfl

theorem top_name_data (i : Nat) :
    ("step_" ++ toString i).data = "step_".data ++ (toString i).data ++ [] := by
  simp only [String.data_append, List.append_nil]

theorem mem_sideNames (i : Nat) (side : String) (n : Nat) (s : String)
    (h : s ∈ sideNames ("step_" ++ toString i) side n) :
    ∃ j : Nat, s.data = "step_".data ++ (toString i).data ++
      (Char.ofNat 95 :: (side.data ++ Char.ofNat 95 :: (toString j).data)) := by
  unfold sideNames at h
  obtain ⟨j, _, rfl⟩ := List.mem_map.mp h
  exact ⟨j + 1, side_name_data i side (j + 1)⟩

theorem sideNames_nodup (i : Nat) (side : String) (n : Nat) :
    (sideNames ("step_" ++ toString i) side n).Nodup := by
  unfold sideNames
  refine List.Nodup.map ?_ (List.nodup_range n)
  intro j k hjk
  have h := congrArg String.data hjk
  rw [side_name_data, side_name_data] at h
  have h2 := (step_name_inj i i _ _ (by simp) (by simp) h).2
  simp only [List.cons.injEq, true_and] at h2
  have h3 := List.append_cancel_left h2
  simp only [List.cons.injEq, true_and] at h3
  have h4 : toString (j + 1) = toString (k + 1) := by
    rcases hs : toString (j + 1) with ⟨l1⟩
    rcases ht : toString (k + 1) with ⟨l2⟩
    rw [hs, ht] at h3
    simp only at h3
    rw [h3]
  have := toString_nat_injective _ _ h4
  omega

theorem actionNames_spec (rt : Runtime) (i : Nat) (a : JVal) :
    (actionNames rt i a).Nodup ∧ ∀ s ∈ actionNames rt i a, NameOfStep i s := by
  have hside : ∀ side n s, s ∈ sideNames ("step_" ++ toString i) side n → NameOfStep i s := by
    intro side n s hs
    obtain ⟨j, hj⟩ := mem_sideNames i side n s hs
    exact ⟨_, hj, by simp⟩
  have htop : NameOfStep i ("step_" ++ toString i) := ⟨[], top_name_data i, by simp⟩
  have hnot : ∀ side n, ("step_" ++ toString i) ∉ sideNames ("step_" ++ toString i) side n := by
    intro side n hmem
    obtain ⟨j, hj⟩ := mem_sideNames i side n _ hmem
    rw [top_name_data] at hj
    have := (step_name_inj i i _ _ (by simp) (by simp) hj).2
    cases this
  unfold actionNames
  split
  · constructor
    · rw [List.nodup_cons]
      constructor
      · intro hmem
        rcases List.mem_append.mp hmem with h | h
        · exact hnot _ _ h
        · exact hnot _ _ h
      · rw [List.nodup_append]
        refine ⟨sideNames_nodup i _ _, sideNames_nodup i _ _, ?_⟩
        intro s hs1 hs2
        obtain ⟨j, hj⟩ := mem_sideNames i _ _ s hs1
        obtain ⟨k, hk⟩ := mem_sideNames i _ _ s hs2
        rw [hj] at hk
        have := (step_name_inj i i _ _ (by simp) (by simp) hk).2
        revert this
        simp only [List.cons.injEq, true_and]
        intro h
        have h5 : ("true".data ++ Char.ofNat 95 :: (toString j).data).head? =
            ("false".data ++ Char.ofNat 95 :: (toString k).data).head? := by rw [h]
        have h6 : ("true".data ++ Char.ofNat 95 :: (toString j).data).head? = some 't' := rfl
        have h7 : ("false".data ++ Char.ofNat 95 :: (toString k).data).head? = some 'f' := rfl
        rw [h6, h7] at h5
        exact absurd h5 (by decide)
    · intro s hs
      rcases List.mem_cons.mp hs with rfl | hs
      · exact htop
      · rcases List.mem_append.mp hs with h | h
        · exact hside _ _ s h
        · exact hside _ _ s h
  · constructor
    · simp
    · intro s hs
      have : s = "step_" ++ toString i := by simpa using hs
      subst this
      exact htop

theorem actionsNames_spec (rt : Runtime) (xs : List JVal) :
    ∀ k, (actionsNames rt k xs).Nodup ∧
      ∀ s ∈ actionsNames rt k xs, ∃ i, k ≤ i ∧ NameOfStep i s := by
  induction xs with
  | nil => intro k; exact ⟨List.nodup_nil, by intro s hs; cases hs⟩
  | cons a rest ih =>
    intro k
    obtain ⟨hn1, hf1⟩ := actionNames_spec rt k a
    obtain ⟨hn2, hf2⟩ := ih (k + 1)
    constructor
    · show (actionNames rt k a ++ actionsNames rt (k + 1) rest).Nodup
      rw [List.nodup_append]
      refine ⟨hn1, hn2, ?_⟩
      intro s hs1 hs2
      obtain ⟨i, hi, hname⟩ := hf2 s hs2
      have := nameOfStep_unique k i s (hf1 s hs1) hname
      omega
    · intro s hs
      rcases List.mem_append.mp hs with h | h
      · exact ⟨k, le_refl k, hf1 s h⟩
      · obtain ⟨i, hi, hname⟩ := hf2 s h
        exact ⟨i, by omega, hname⟩

/-- The step names of a flow are pairwise distinct, and none of them is `trigger`. -/
theorem stepNames_nodup (rt : Runtime) (flow : JVal) :
    ("trigger" :: stepNames rt flow).Nodup := by
  have key : ∀ xs, ("trigger" :: actionsNames rt 1 xs).Nodup := by
    intro xs
    obtain ⟨hn, hf⟩ := actionsNames_spec rt xs 1
    rw [List.nodup_cons]
    refine ⟨?_, hn⟩
    intro hmem
    obtain ⟨i, _, r, hr, _⟩ := hf _ hmem
    have h5 : ("trigger" : String).data.head? = ("step_".data ++ (toString i).data ++ r).head? := by
      rw [hr]
    have h6 : ("step_".data ++ (toString i).data ++ r).head? = some 's' := rfl
    have h7 : ("trigger" : String).data.head? = some 't' := rfl
    rw [h6, h7] at h5
    exact absurd h5 (by decide)
  unfold stepNames
  cases iterate (flow.get "actions") with
  | ok xs => exact key xs
  | error e => simp

theorem appendNames_append (cs ds : List ApiCall) :
    appendNames (cs ++ ds) = appendNames cs ++ appendNames ds := by
  simp [appendNames, List.filterMap_append]

theorem namesWithin_pure {α : Type} (tr : List ApiCall) (a : α) :
    NamesWithin [] tr ((pure a : Run ApiCall α) tr) :=
  ⟨[], by simp [run_pure], by simp [appendNames], fun _ _ => rfl⟩

theorem namesWithin_lift {α : Type} (tr : List ApiCall) (x : Except Thrown α) :
    NamesWithin [] tr ((Run.lift x : Run ApiCall α) tr) :=
  ⟨[], by simp [Run.lift], by simp [appendNames], fun _ _ => rfl⟩

theorem namesWithin_lift_error {α β : Type} (l : List JVal) (tr : List ApiCall) (e : Thrown)
    (f : α → Run ApiCall β) :
    NamesWithin l tr (((Run.lift (.error e) : Run ApiCall α) >>= f) tr) := by
  rw [run_bind_error _ _ tr tr e rfl]
  exact ⟨[], by simp, List.nil_prefix, fun _ h => by cases h⟩

theorem namesWithin_call (engine : Engine) (tr : List ApiCall) (c : ApiCall) :
    NamesWithin (appendNames [c]) tr (Run.call engine c tr) :=
  ⟨[c], rfl, List.prefix_refl _, fun _ _ => rfl⟩

theorem namesWithin_bind {α β : Type} (l1 l2 : List JVal) (tr : List ApiCall)
    (m : Run ApiCall α) (f : α → Run ApiCall β)
    (hm : NamesWithin l1 tr (m tr))
    (hf : ∀ a tr1, m tr = (tr1, .ok a) → NamesWithin l2 tr1 (f a tr1)) :
    NamesWithin (l1 ++ l2) tr ((m >>= f) tr) := by
  rcases hmt : m tr with ⟨tr1, e | a⟩
  · rw [run_bind_error _ _ _ _ _ hmt]
    rw [hmt] at hm
    obtain ⟨cs, h1, h2, _⟩ := hm
    exact ⟨cs, h1, h2.trans (List.prefix_append _ _), fun _ h => by cases h⟩
  · rw [run_bind_ok _ _ _ _ _ hmt]
    have hf2 := hf a tr1 hmt
    rw [hmt] at hm
    obtain ⟨cs, h1, _, h3⟩ := hm
    obtain ⟨ds, g1, g2, g3⟩ := hf2
    have h4 : appendNames cs = l1 := h3 a rfl
    simp only at h1
    refine ⟨cs ++ ds, by rw [g1, h1, List.append_assoc], ?_, ?_⟩
    · rw [appendNames_append, h4]
      exact (List.prefix_append_right_inj l1).mpr g2
    · intro b hb
      rw [appendNames_append, h4, g3 b hb]

theorem namesWithin_eq {α : Type} (l1 l2 : List JVal) (h : l1 = l2) (tr : List ApiCall)
    (out : List ApiCall × Except Thrown α) (hn : NamesWithin l1 tr out) :
    NamesWithin l2 tr out := h ▸ hn

theorem range_succ_map {α : Type} (f : Nat → α) (n : Nat) :
    (List.range (n + 1)).map f = f 0 :: (List.range n).map (fun j => f (j + 1)) := by
  rw [List.range_succ_eq_map]
  simp [List.map_map, Function.comp_def]

theorem appendNames_addActionCall (flowId : JVal) (parent location : String)
    (b : Option Int) (stepName : String) (a settings : JVal) :
    appendNames [addActionCall flowId parent location b stepName a settings] =
      [.str stepName] := by
  cases b <;> rfl

theorem appendNames_addBranchCall (flowId : JVal) (parent stepName : String) (a : JVal) :
    appendNames [addBranchCall flowId parent stepName a] = [.str stepName] := rfl

theorem namesWithin_addBranchChildren (engine : Engine) (flowId : JVal)
    (stepName side inside : String) (ys : List JVal) :
    ∀ (parent : String) (k : Nat) (tr : List ApiCall),
      NamesWithin ((List.range ys.length).map
          (fun j => JVal.str (stepName ++ "_" ++ side ++ "_" ++ toString (k + j)))) tr
        (addBranchChildren engine flowId stepName side inside parent k ys tr) := by
  induction ys with
  | nil => intro parent k tr; exact namesWithin_pure tr ()
  | cons y ys ih =>
    intro parent k tr
    have hL : [] ++ ([JVal.str (stepName ++ "_" ++ side ++ "_" ++ toString k)] ++
        (List.range ys.length).map
          (fun j => JVal.str (stepName ++ "_" ++ side ++ "_" ++ toString (k + 1 + j)))) =
        (List.range (y :: ys).length).map
          (fun j => JVal.str (stepName ++ "_" ++ side ++ "_" ++ toString (k + j))) := by
      rw [List.length_cons, range_succ_map]
      simp only [List.nil_append, List.singleton_append, Nat.add_zero, List.cons.injEq, true_and]
      apply List.map_congr_left
      intro j _
      rw [show k + (j + 1) = k + 1 + j by omega]
    refine namesWithin_eq _ _ hL _ _ ?_
    unfold addBranchChildren
    apply namesWithin_bind [] _ tr _ _ (namesWithin_lift tr _)
    intro s tr1 _
    apply namesWithin_bind _ _ tr1 _ _
      (namesWithin_eq _ _ (appendNames_addActionCall _ _ _ _ _ _ _) _ _
        (namesWithin_call engine tr1 _))
    intro _ tr2 _
    exact ih _ (k + 1) tr2

theorem sideNames_map (stepName side : String) (n : Nat) :
    (sideNames stepName side n).map JVal.str =
      (List.range n).map (fun j => JVal.str (stepName ++ "_" ++ side ++ "_" ++ toString (1 + j))) := by
  unfold sideNames
  rw [List.map_map]
  apply List.map_congr_left
  intro j _
  simp only [Function.comp_apply]
  rw [Nat.add_comm]

theorem namesWithin_addBranchSide (rt : Runtime) (engine : Engine) (flowId : JVal)
    (stepName side inside : String) (children : JVal) (tr : List ApiCall) :
    NamesWithin ((sideNames stepName side (sideCount rt children)).map JVal.str) tr
      (addBranchSide rt engine flowId stepName side inside children tr) := by
  unfold addBranchSide sideCount
  split
  · cases hi : iterate children with
    | error e =>
      simp only
      exact namesWithin_lift_error _ tr e _
    | ok ys =>
      simp only
      rw [run_lift_ok_bind, sideNames_map]
      exact namesWithin_addBranchChildren engine flowId stepName side inside ys stepName 1 tr
  · exact namesWithin_pure tr ()

theorem namesWithin_addBranch (rt : Runtime) (engine : Engine) (flowId a : JVal)
    (parent stepName : String) (tr : List ApiCall) :
    NamesWithin ((stepName ::
        (sideNames stepName "true" (sideCount rt (a.get "onSuccessActions")) ++
         sideNames stepName "false" (sideCount rt (a.get "onFailureActions")))).map JVal.str) tr
      (addBranch rt engine flowId a parent stepName tr) := by
  have hL : [] ++ ([JVal.str stepName] ++
      ((sideNames stepName "true" (sideCount rt (a.get "onSuccessActions"))).map JVal.str ++
        ((sideNames stepName "false" (sideCount rt (a.get "onFailureActions"))).map JVal.str
          ++ []))) =
      (stepName ::
        (sideNames stepName "true" (sideCount rt (a.get "onSuccessActions")) ++
         sideNames stepName "false" (sideCount rt (a.get "onFailureActions")))).map JVal.str := by
    simp
  refine namesWithin_eq _ _ hL _ _ ?_
  unfold addBranch
  apply namesWithin_bind [] _ tr _ _ (namesWithin_lift tr _)
  intro _ tr1 _
  apply namesWithin_bind _ _ tr1 _ _
    (namesWithin_eq _ _ (appendNames_addBranchCall _ _ _ _) _ _ (namesWithin_call engine tr1 _))
  intro _ tr2 _
  apply namesWithin_bind _ _ tr2 _ _ (namesWithin_addBranchSide rt engine flowId stepName
    "true" "INSIDE_TRUE_BRANCH" _ tr2)
  intro _ tr3 _
  apply namesWithin_bind _ _ tr3 _ _ (namesWithin_addBranchSide rt engine flowId stepName
    "false" "INSIDE_FALSE_BRANCH" _ tr3)
  intro _ tr4 _
  exact namesWithin_pure tr4 _

theorem namesWithin_addAction (rt : Runtime) (engine : Engine) (flowId a : JVal)
    (parent : String) (k : Nat) (tr : List ApiCall) :
    NamesWithin ((actionNames rt k a).map JVal.str) tr
      (addAction rt engine flowId a parent k tr) := by
  unfold addAction actionNames
  cases hn : a.isNullish with
  | true =>
    have : getProp a "type" = .error (.typeError
        ("Cannot read properties of null or undefined (reading " ++ "type" ++ ")")) := by
      simp [getProp, hn]
    rw [this]
    exact namesWithin_lift_error _ tr _ _
  | false =>
    simp only [getProp_ok _ _ hn]
    rw [run_lift_ok_bind]
    cases hb : (a.get "type").isStr "BRANCH" with
    | true =>
      simp only [↓reduceIte]
      exact namesWithin_addBranch rt engine flowId a parent ("step_" ++ toString k) tr
    | false =>
      simp only [Bool.false_eq_true, ↓reduceIte, List.map_cons, List.map_nil]
      have hL : [] ++ ([JVal.str ("step_" ++ toString k)] ++ []) =
          [JVal.str ("step_" ++ toString k)] := rfl
      refine namesWithin_eq _ _ hL _ _ ?_
      apply namesWithin_bind [] _ tr _ _ (namesWithin_lift tr _)
      intro s tr1 _
      apply namesWithin_bind _ _ tr1 _ _
        (namesWithin_eq _ _ (appendNames_addActionCall _ _ _ _ _ _ _) _ _
          (namesWithin_call engine tr1 _))
      intro _ tr2 _
      exact namesWithin_pure tr2 _

theorem namesWithin_addActions (rt : Runtime) (engine : Engine) (flowId : JVal)
    (xs : List JVal) :
    ∀ (parent : String) (k : Nat) (tr : List ApiCall),
      NamesWithin ((actionsNames rt k xs).map JVal.str) tr
        (addActions rt engine flowId parent k xs tr) := by
  induction xs with
  | nil => intro parent k tr; exact namesWithin_pure tr k
  | cons x xs ih =>
    intro parent k tr
    unfold addActions actionsNames
    rw [List.map_append]
    apply namesWithin_bind _ _ tr _ _ (namesWithin_addAction rt engine flowId x parent k tr)
    intro stepName tr1 _
    exact ih stepName (k + 1) tr1

theorem namesWithin_buildSteps (rt : Runtime) (fb : FlowBuilder) (engine : Engine)
    (flow : JVal) (options : BuildOptions) (flowId : JVal) (tr : List ApiCall) :
    NamesWithin ((stepNames rt flow).map JVal.str) tr
      (buildSteps rt fb engine flow options flowId tr) := by
  unfold buildSteps updateTrigger stepNames
  refine namesWithin_eq ([] ++ ([] ++ _)) _ rfl _ _ ?_
  apply namesWithin_bind [] _ tr _ _ (namesWithin_lift tr _)
  intro trigger tr1 _
  apply namesWithin_bind [] _ tr1 _ _
  · refine namesWithin_eq ([] ++ []) _ rfl _ _ ?_
    apply namesWithin_bind [] [] tr1 _ _ (namesWithin_lift tr1 _)
    intro settings tr2 _
    exact namesWithin_call engine tr2 _
  · intro _ tr2 _
    cases hi : iterate (flow.get "actions") with
    | error e => exact namesWithin_lift_error _ tr2 e _
    | ok xs =>
      rw [run_lift_ok_bind]
      simp only
      refine namesWithin_eq (_ ++ []) _ (List.append_nil _) _ _ ?_
      apply namesWithin_bind _ [] tr2 _ _ (namesWithin_addActions rt engine flowId xs "trigger" 1 tr2)
      intro stepIndex tr3 _
      cases hp : options.autoPublish.truthy with
      | true =>
        simp only [↓reduceIte]
        refine namesWithin_eq ([] ++ []) _ rfl _ _ ?_
        apply namesWithin_bind [] [] tr3 _ _
        · exact namesWithin_call engine tr3 _
        · intro _ tr4 _
          exact namesWithin_pure tr4 _
      | false =>
        simp only [Bool.false_eq_true, ↓reduceIte]
        refine namesWithin_eq ([] ++ []) _ rfl _ _ ?_
        apply namesWithin_bind [] [] tr3 _ _ (namesWithin_pure tr3 _)
        intro _ tr4 _
        exact namesWithin_pure tr4 _

theorem appendNames_createFlowCall (fb : FlowBuilder) (flow : JVal) (options : BuildOptions) :
    appendNames [createFlowCall fb flow options] = [] := by
  unfold createFlowCall
  cases options.folderId.truthy <;> rfl

theorem namesWithin_buildFlow (rt : Runtime) (fb : FlowBuilder) (engine : Engine)
    (flow : JVal) (options : BuildOptions) :
    NamesWithin ((stepNames rt flow).map JVal.str) []
      (buildFlow rt fb engine flow options []) := by
  unfold buildFlow
  refine namesWithin_eq ([] ++ ([] ++ ([] ++ _))) _ rfl _ _ ?_
  apply namesWithin_bind [] _ [] _ _ (namesWithin_lift [] _)
  intro _ tr1 _
  apply namesWithin_bind [] _ tr1 _ _
    (namesWithin_eq _ _ (appendNames_createFlowCall fb flow options) _ _
      (namesWithin_call engine tr1 _))
  intro created tr2 _
  apply namesWithin_bind [] _ tr2 _ _ (namesWithin_lift tr2 _)
  intro flowId tr3 _
  have hsteps := namesWithin_buildSteps rt fb engine flow options flowId tr3
  rcases hrun : buildSteps rt fb engine flow options flowId tr3 with ⟨tr4, e | res⟩
  · rw [run_tryCatch_error _ _ _ _ _ hrun, cleanup_handler]
    rw [hrun] at hsteps
    obtain ⟨cs, h1, h2, _⟩ := hsteps
    simp only at h1
    refine ⟨cs ++ [deleteCall flowId], by rw [h1, List.append_assoc], ?_, fun _ h => by cases h⟩
    rw [appendNames_append]
    have : appendNames [deleteCall flowId] = [] := rfl
    rw [this, List.append_nil]
    exact h2
  · rw [run_tryCatch_ok _ _ _ _ _ hrun]
    rw [hrun] at hsteps
    exact hsteps

/-- **C22.** In every run of `buildFlow`, on any engine, the names carried by the
`ADD_ACTION` requests are an initial part of the step names of the flow, `step_i` for
the top-level action `i` followed for a branch by `step_i_true_j` and `step_i_false_j`
for its children, and all of them when the run returns. These names are pairwise
distinct and differ from `trigger`, the name of the trigger request. So two runs on the
same flow that return use the same names in the same order. -/
theorem step_names_distinct_and_determined (rt : Runtime) (fb : FlowBuilder) (engine : Engine)
    (flow : JVal) (options : BuildOptions) :
    appendNames (buildFlow rt fb engine flow options []).1 <+:
      (stepNames rt flow).map JVal.str ∧
    (∀ res, (buildFlow rt fb engine flow options []).2 = .ok res →
      appendNames (buildFlow rt fb engine flow options []).1 =
        (stepNames rt flow).map JVal.str) ∧
    ("trigger" :: stepNames rt flow).Nodup ∧
    (JVal.str "trigger" :: appendNames (buildFlow rt fb engine flow options []).1).Nodup ∧
    (∀ (fb2 : FlowBuilder) (engine2 : Engine) (options2 : BuildOptions) res res2,
      (buildFlow rt fb engine flow options []).2 = .ok res →
      (buildFlow rt fb2 engine2 flow options2 []).2 = .ok res2 →
      appendNames (buildFlow rt fb engine flow options []).1 =
        appendNames (buildFlow rt fb2 engine2 flow options2 []).1) ∧
    (∀ flowId trigger settings,
      (requestOf (updateTriggerCall flowId trigger settings)).get "name" = .str "trigger") := by
  have hall : ∀ (fb : FlowBuilder) (engine : Engine) (options : BuildOptions),
      appendNames (buildFlow rt fb engine flow options []).1 <+:
        (stepNames rt flow).map JVal.str ∧
      (∀ res, (buildFlow rt fb engine flow options []).2 = .ok res →
        appendNames (buildFlow rt fb engine flow options []).1 =
          (stepNames rt flow).map JVal.str) := by
    intro fb engine options
    obtain ⟨cs, h1, h2, h3⟩ := namesWithin_buildFlow rt fb engine flow options
    rw [List.nil_append] at h1
    rw [h1]
    exact ⟨h2, h3⟩
  have hnd := stepNames_nodup rt flow
  have hnd2 : (JVal.str "trigger" :: (stepNames rt flow).map JVal.str).Nodup := by
    have := List.Nodup.map (f := JVal.str) (fun a b h => JVal.str.inj h) hnd
    simpa using this
  refine ⟨(hall fb engine options).1, (hall fb engine options).2, hnd, ?_, ?_,
    fun _ _ _ => rfl⟩
  · refine List.Nodup.sublist ?_ hnd2
    exact List.Sublist.cons₂ _ (hall fb engine options).1.sublist
  · intro fb2 engine2 options2 res res2 h1 h2
    rw [(hall fb engine options).2 res h1, (hall fb2 engine2 options2).2 res2 h2]

/-- C22 at a webhook flow whose actions are a branch with three children and then a
`PIECE` action, on an engine that accepts every call. -/
theorem step_names_distinct_and_determined_witness :
    appendNames (buildFlow plainRuntime sampleBuilder acceptingEngine branchThenMailFlow
        { autoPublish := .bool false, folderId := .null } []).1 =
      [.str "step_1", .str "step_1_true_1", .str "step_1_true_2", .str "step_1_false_1",
        .str "step_2"] :=
  ((step_names_distinct_and_determined plainRuntime sampleBuilder acceptingEngine
    branchThenMailFlow { autoPublish := .bool false, folderId := .null }).2.1 _ rfl).trans rfl

/-! ### The requests of a build, field by field -/

theorem createFlowCall_fields (fb : FlowBuilder) (flow : JVal) (options : BuildOptions) :
    (createFlowCall fb flow options).method = "POST" ∧
    (createFlowCall fb flow options).path = "/api/v1/flows" ∧
    (createFlowCall fb flow options).body.get "displayName" = flow.get "displayName" ∧
    (createFlowCall fb flow options).body.get "projectId" = fb.projectId ∧
    (createFlowCall fb flow options).body.get "type" = .undefined := by
  refine ⟨rfl, rfl, rfl, rfl, ?_⟩
  unfold createFlowCall
  cases options.folderId.truthy <;> rfl

/-- **C1.** For a flow with a trigger and `N` top-level actions none of which is a
`BRANCH`, on an engine on which every call succeeds (the created shell being an
object), `buildFlow` issues `N + 2` calls and then the publish call exactly when
`autoPublish` is set, and returns with `stepsCreated = N`. The first call is the
create-flow-shell request, a `POST` of the flow's `displayName` and the project to
`/api/v1/flows`. All later calls are `POST`s to `/api/v1/flows/<id>` for the id of the
created shell: the `UPDATE_TRIGGER` request for the step `trigger` with the trigger's
settings; then, in the order of the actions list, one `ADD_ACTION` request per action,
the `i`-th named `step_i`, located `AFTER` its parent `trigger` or `step_(i-1)` and
carrying the action's settings; and last the `LOCK_AND_PUBLISH` request. -/
theorem build_without_branches (rt : Runtime) (fb : FlowBuilder) (engine : Engine)
    (flow : JVal) (options : BuildOptions) (xs : List JVal) (resp : JVal)
    (hflow : flow.isNullish = false) (htrig : (flow.get "trigger").isNullish = false)
    (hx : flow.get "actions" = .arr xs)
    (hall : ∀ a ∈ xs, a.isNullish = false ∧ (a.get "type").isStr "BRANCH" = false)
    (hok : ∀ tr c, ∃ v, engine tr c = .ok v)
    (hcreate : engine [] (createFlowCall fb flow options) = .ok resp)
    (hresp : resp.isNullish = false) :
    ∃ (shell update publish : ApiCall) (settings : JVal) (calls : List ApiCall)
        (res : BuildResult),
      buildFlow rt fb engine flow options [] =
        ([shell, update] ++ calls ++ (if options.autoPublish.truthy then [publish] else []),
         .ok res) ∧
      ([shell, update] ++ calls).length = xs.length + 2 ∧
      calls.length = xs.length ∧
      res.stepsCreated = xs.length ∧
      (shell.method = "POST" ∧ shell.path = "/api/v1/flows" ∧
        shell.body.get "displayName" = flow.get "displayName" ∧
        shell.body.get "projectId" = fb.projectId ∧
        shell.body.get "type" = .undefined) ∧
      (buildTriggerSettings (flow.get "trigger") = .ok settings ∧
        update.method = "POST" ∧
        update.path = "/api/v1/flows/" ++ (resp.get "id").toStr ∧
        update.body.get "type" = .str "UPDATE_TRIGGER" ∧
        (requestOf update).get "name" = .str "trigger" ∧
        (requestOf update).get "settings" = settings) ∧
      (∀ i a, xs[i]? = some a → ∃ s c, buildActionSettings a = .ok s ∧ calls[i]? = some c ∧
        c.method = "POST" ∧
        c.path = "/api/v1/flows/" ++ (resp.get "id").toStr ∧
        c.body.get "type" = .str "ADD_ACTION" ∧
        (requestOf c).get "parentStep" =
          .str (if i = 0 then "trigger" else "step_" ++ toString i) ∧
        (requestOf c).get "stepLocationRelativeToParent" = .str "AFTER" ∧
        ((requestOf c).get "action").get "name" = .str ("step_" ++ toString (i + 1)) ∧
        ((requestOf c).get "action").get "displayName" = a.get "displayName" ∧
        ((requestOf c).get "action").get "settings" = s) ∧
      (publish.method = "POST" ∧
        publish.path = "/api/v1/flows/" ++ (resp.get "id").toStr ∧
        publish.body.get "type" = .str "LOCK_AND_PUBLISH") ∧
      shell = createFlowCall fb flow options ∧
      update = updateTriggerCall (resp.get "id") (flow.get "trigger") settings ∧
      publish = publishCall (resp.get "id") := by
  obtain ⟨settings, calls, res, hset, hlen, hcalls, hrun, hcount⟩ :=
    buildFlow_plain_trace rt fb engine flow options xs resp hflow htrig hx hall hok hcreate hresp
  refine ⟨createFlowCall fb flow options,
    updateTriggerCall (resp.get "id") (flow.get "trigger") settings,
    publishCall (resp.get "id"), settings, calls, res, hrun, ?_, hlen, hcount,
    createFlowCall_fields fb flow options, ⟨hset, rfl, rfl, rfl, rfl, rfl⟩, ?_,
    ⟨rfl, rfl, rfl⟩, rfl, rfl, rfl⟩
  · simp only [List.length_append, List.length_cons, List.length_nil, hlen]
    omega
  · intro i a hi
    obtain ⟨s, hs, hc⟩ := hcalls i a hi
    exact ⟨s, _, hs, hc, rfl, rfl, rfl, rfl, rfl, rfl, rfl, rfl⟩

/-- C1 at a webhook flow with one action, published, on an engine that accepts every
call: method, path and request type of the four calls. -/
theorem build_without_branches_witness :
    (buildFlow plainRuntime sampleBuilder acceptingEngine hookMailFlow
        { autoPublish := .bool true, folderId := .null } []).1.map
        (fun c => (c.method, c.path, c.body.get "type")) =
      [("POST", "/api/v1/flows", .undefined),
        ("POST", "/api/v1/flows/f1", .str "UPDATE_TRIGGER"),
        ("POST", "/api/v1/flows/f1", .str "ADD_ACTION"),
        ("POST", "/api/v1/flows/f1", .str "LOCK_AND_PUBLISH")] := by
  obtain ⟨shell, update, publish, settings, calls, res, hrun, _⟩ :=
    build_without_branches plainRuntime sampleBuilder acceptingEngine hookMailFlow
      { autoPublish := .bool true, folderId := .null } [sendMail] (.obj [("id", .str "f1")])
      rfl rfl rfl
      (fun a ha => by
        have : a = sendMail := by simpa using ha
        subst this
        exact ⟨rfl, rfl⟩)
      (fun _ _ => ⟨_, rfl⟩) rfl rfl
  rfl

/-- **C2 (counterexample).** On the flow `actionlessFlow`, which has no `actions`, and an
engine that accepts every call, `buildFlow` issues the shell request and the trigger
update, both of which succeed, then throws the `TypeError` of iterating the missing
list and issues the `DELETE` of the shell: a `DELETE` although no call failed. -/
theorem delete_without_failing_call :
    (buildFlow plainRuntime sampleBuilder acceptingEngine actionlessFlow
        { autoPublish := .bool false, folderId := .null } []).1.map
        (fun c => (c.method, c.path)) =
      [("POST", "/api/v1/flows"), ("POST", "/api/v1/flows/f1"),
        ("DELETE", "/api/v1/flows/f1")] ∧
    (buildFlow plainRuntime sampleBuilder acceptingEngine actionlessFlow
        { autoPublish := .bool false, folderId := .null } []).2 =
      .error (.typeError "value is not iterable") ∧
    (∀ tr c, acceptingEngine tr c = .ok (.obj [("id", .str "f1")])) :=
  ⟨rfl, rfl, fun _ _ => rfl⟩

/-- **C2 (amended).** `buildFlow` and the shell it created. When create-flow-shell fails,
it is the only call and its error is the outcome. When it succeeds with id `f`, the run
issues after it `POST` calls only and then either returns, with no `DELETE`, or throws
and issues as its last call exactly one `DELETE` of `/api/v1/flows/f`, whatever that
`DELETE` answers. A later call `c` of the build that fails is followed by exactly that
`DELETE`, no `DELETE` was issued up to `c`, and the outcome is the error of `c`. On a
well-formed flow, when every call issued succeeds, the build returns and no `DELETE` is
issued. -/
theorem build_failure_cleans_up (rt : Runtime) (fb : FlowBuilder) (engine : Engine)
    (flow : JVal) (options : BuildOptions) (hflow : flow.isNullish = false) :
    (∀ e, engine [] (createFlowCall fb flow options) = .error e →
      buildFlow rt fb engine flow options [] = ([createFlowCall fb flow options], .error e)) ∧
    (∀ resp, engine [] (createFlowCall fb flow options) = .ok resp → resp.isNullish = false →
      (∃ cs, (∀ d ∈ createFlowCall fb flow options :: cs, d.method = "POST") ∧
        ((∃ res, buildFlow rt fb engine flow options [] =
            (createFlowCall fb flow options :: cs, .ok res)) ∨
         (∃ e, buildFlow rt fb engine flow options [] =
            (createFlowCall fb flow options :: cs ++ [deleteCall (resp.get "id")],
              .error e)))) ∧
      (∀ pre c post e,
        (buildFlow rt fb engine flow options []).1 = pre ++ c :: post →
        pre ≠ [] → c.method ≠ "DELETE" → engine pre c = .error e →
        post = [deleteCall (resp.get "id")] ∧
        (buildFlow rt fb engine flow options []).2 = .error e ∧
        ∀ d ∈ pre ++ [c], d.method ≠ "DELETE") ∧
      (WellFormedFlow flow →
        (∀ pre c post, (buildFlow rt fb engine flow options []).1 = pre ++ c :: post →
          ∃ v, engine pre c = .ok v) →
        (∀ d ∈ (buildFlow rt fb engine flow options []).1, d.method ≠ "DELETE") ∧
        ∃ res, (buildFlow rt fb engine flow options []).2 = .ok res) ∧
      ((deleteCall (resp.get "id")).method = "DELETE" ∧
        (deleteCall (resp.get "id")).path = "/api/v1/flows/" ++ (resp.get "id").toStr ∧
        (deleteCall (resp.get "id")).body = .null)) := by
  obtain ⟨h1, h2⟩ := buildFlow_cleanup_trace rt fb engine flow options hflow
  refine ⟨h1, ?_⟩
  intro resp hcreate hresp
  obtain ⟨h3, h4⟩ := h2 resp hcreate hresp
  refine ⟨?_, h3, h4, rfl, rfl, rfl⟩
  have hff := failFast_buildSteps rt fb engine flow options (resp.get "id")
    [createFlowCall fb flow options]
  rw [buildFlow_after_create rt fb engine flow options resp hflow hcreate hresp]
  rcases hsteps : buildSteps rt fb engine flow options (resp.get "id")
      [createFlowCall fb flow options] with ⟨tr1, e1 | r⟩
  · rw [hsteps] at hff
    obtain ⟨cs, hcs, hpost, _⟩ := hff
    simp only at hcs
    subst hcs
    refine ⟨cs, ?_, Or.inr ⟨e1, by simp⟩⟩
    intro d hd
    rcases List.mem_cons.mp hd with rfl | hd
    · rfl
    · exact hpost d hd
  · rw [hsteps] at hff
    obtain ⟨cs, hcs, hpost, _⟩ := hff
    simp only at hcs
    subst hcs
    refine ⟨cs, ?_, Or.inl ⟨r, by simp⟩⟩
    intro d hd
    rcases List.mem_cons.mp hd with rfl | hd
    · rfl
    · exact hpost d hd

/-- The amended C2 at a webhook flow with one action: on an engine that rejects every
call after the creation, the trigger update fails, the `DELETE` of `/api/v1/flows/f1`
follows (and fails), and the error of the trigger update is the outcome; on an engine
that accepts every call no `DELETE` is issued. -/
theorem build_failure_cleans_up_witness :
    (∃ c, (buildFlow plainRuntime sampleBuilder rejectingEngine hookMailFlow
        { autoPublish := .bool false, folderId := .null } []).1 =
      [createFlowCall sampleBuilder hookMailFlow { autoPublish := .bool false, folderId := .null },
        c, { method := "DELETE", path := "/api/v1/flows/f1", body := .null }]) ∧
    (buildFlow plainRuntime sampleBuilder rejectingEngine hookMailFlow
        { autoPublish := .bool false, folderId := .null } []).2 =
      .error (.raised "FlowBuilderError" "Activepieces API Error: 500" (.str "/api/v1/flows/f1")) ∧
    (∀ d ∈ (buildFlow plainRuntime sampleBuilder acceptingEngine hookMailFlow
        { autoPublish := .bool false, folderId := .null } []).1, d.method ≠ "DELETE") := by
  have h := (build_failure_cleans_up plainRuntime sampleBuilder rejectingEngine hookMailFlow
    { autoPublish := .bool false, folderId := .null } rfl).2 (.obj [("id", .str "f1")]) rfl rfl
  have h2 := h.2.1
    [createFlowCall sampleBuilder hookMailFlow { autoPublish := .bool false, folderId := .null }]
    _ [deleteCall (.str "f1")] _ rfl (by simp) (by decide) rfl
  have k := (build_failure_cleans_up plainRuntime sampleBuilder acceptingEngine hookMailFlow
    { autoPublish := .bool false, folderId := .null } rfl).2 (.obj [("id", .str "f1")]) rfl rfl
  have hwf : WellFormedFlow hookMailFlow := by
    refine ⟨rfl, rfl, [sendMail], rfl, ?_⟩
    intro a ha
    have : a = sendMail := by simpa using ha
    subst this
    exact ⟨rfl, fun hb => by simp [sendMail, JVal.get, List.lookup, isStr] at hb⟩
  exact ⟨⟨_, rfl⟩, h2.2.1, (k.2.2.1 hwf (fun _ _ _ _ => ⟨_, rfl⟩)).1⟩


/-- The spread of an array into the `input` of a `CODE` step: the index keys are
enumerated before `code`. -/
theorem spread_enumerates_indices_first :
    (spreadInto [("code", .str "x")] (.arr [.str "a", .str "b"])).map (fun p => p.1) =
      ["0", "1", "code"] := rfl

end AutoFlow
